import Mathlib

/-! Masternode registry and gossip core (masternodeman.cpp).

A shallow embedding of `CMasternodeMan` from `src/masternodeman.cpp`: the
in-memory registry (`Add`, `Find`, `Remove`, `Clear`, `Check`,
`CheckAndRemove`, `CountEnabled`), the gossip dispatcher `ProcessMessage` for
the five wire messages `dsee`, `dsee+`, `dseep`, `mvote` and `dseg`, the rankers
(`GetCurrentMasterNode`, `GetMasternodeRank`, `GetMasternodeRanks`,
`GetMasternodeByRank`), the pick functions (`FindOldestNotInVec`, `FindRandom`,
`FindRandomNotInVec`), the snapshot file of `CMasternodeDB` (`Write`, `Read`)
and the periodic save `DumpMasternodes`.

Conventions of the embedding

* A `CMasternode*` returned by `Find` is an index into `vMasternodes`; writing
  through the pointer is `List.set` at that index.
* Machine integers (`int`, `int64_t`) are `Int`; the arithmetic the dispatcher
  does on them (`GetAdjustedTime() + 60 * 60`, `GetTime() + interval`) stays far
  from the 64-bit bounds for clock values.
* Everything the translation unit calls but does not define (clock, signer,
  chain, mempool, peer set, the local masternode identity, `std::sort`, the
  random draw) is a field of `Env`; what `CMasternodeDB` takes from the
  serialisation library and the file system is a field of `Serial`.
* Calls into collaborators that only produce output (`Misbehaving`,
  `PushMessage`, `addrman.Add`, `EnableHotColdMasterNode`) are recorded in
  `Effects`, one list per collaborator, in call order.
-/

set_option autoImplicit false

namespace PHC

/-! ## Data model -/

abbrev uint256 := Nat
abbrev CScript := List Nat
abbrev CPubKey := List Nat
abbrev NodeId := Int

/-- Outpoint `(txid, vout)` of the collateral; `CMasternodeMan::Find` compares entries on it. -/
structure COutPoint where
  hash : uint256
  n : Nat
deriving DecidableEq, Repr

/-- Transaction input. `CMasternodeMan::Remove` and the `dseg` handler compare whole inputs,
`Find` compares `prevout` only. -/
structure CTxIn where
  prevout : COutPoint
  scriptSig : CScript
  nSequence : Nat
deriving DecidableEq, Repr

/-- Network endpoint: address and port (`addr.GetPort()` is the field `port`). -/
structure CService where
  ip : Nat
  port : Nat
deriving DecidableEq, Repr

/-- The sending peer `pfrom`: `GetId()` and `addr`. -/
structure CNode where
  id : NodeId
  addr : CService
deriving DecidableEq, Repr

/-- Output of the synthetic collateral-spending transaction. -/
structure CTxOut where
  nValue : Int
  scriptPubKey : CScript
deriving DecidableEq, Repr

/-- The synthetic transaction handed to `AcceptableInputs`. -/
structure CTransaction where
  vin : List CTxIn
  vout : List CTxOut
deriving DecidableEq, Repr

/-- Modelled from the spec: the `activeState` values of `CMasternode` (masternode.h is not
among the sources). Section 3 lists `PRE_ENABLED`, `ENABLED`, `EXPIRED`, `REMOVE`,
`COLLATERAL_SPENT`; `CheckAndRemove` names the last two `MASTERNODE_REMOVE` and
`MASTERNODE_VIN_SPENT`. -/
inductive ActiveState where
  | MASTERNODE_PRE_ENABLED
  | MASTERNODE_ENABLED
  | MASTERNODE_EXPIRED
  | MASTERNODE_REMOVE
  | MASTERNODE_VIN_SPENT
deriving DecidableEq, Repr

open ActiveState

/-- One registry entry: the fields of `CMasternode` that masternodeman.cpp reads or writes. -/
structure CMasternode where
  vin : CTxIn
  addr : CService
  pubkey : CPubKey
  pubkey2 : CPubKey
  sig : List Nat
  activeState : ActiveState
  sigTime : Int
  lastDseep : Int
  lastTimeSeen : Int
  protocolVersion : Int
  rewardAddress : CScript
  rewardPercentage : Int
  nVote : Int
  lastVote : Int
  isPortOpen : Bool
  isOldNode : Bool
deriving DecidableEq, Repr

/-- Payload of a `dsee` message, in wire order. -/
structure Dsee where
  vin : CTxIn
  addr : CService
  vchSig : List Nat
  sigTime : Int
  pubkey : CPubKey
  pubkey2 : CPubKey
  count : Int
  current : Int
  lastUpdated : Int
  protocolVersion : Int
deriving DecidableEq, Repr

/-- Payload of a `dsee+` message: the `dsee` fields followed by the reward fields. -/
structure DseePlus extends Dsee where
  rewardAddress : CScript
  rewardPercentage : Int
deriving DecidableEq, Repr

/-- The messages `ProcessMessage` dispatches on (`strCommand` with the parsed `vRecv`);
`other` is any command it has no branch for. -/
inductive NetMsg where
  | dsee (d : Dsee)
  | dseePlus (d : DseePlus)
  | dseep (vin : CTxIn) (vchSig : List Nat) (sigTime : Int) (stop : Bool)
  | mvote (vin : CTxIn) (vchSig : List Nat) (nVote : Int)
  | dseg (vin : CTxIn)
  | other
deriving DecidableEq, Repr

/-- Whether the message is an announcement (`dsee` or `dsee+`). -/
def NetMsg.isAnnounce : NetMsg → Bool
  | NetMsg.dsee _ => true
  | NetMsg.dseePlus _ => true
  | _ => false

/-- The registry `CMasternodeMan`: entry vector, the three rate-limit maps (association
lists with unique keys) and the dsq counter. -/
structure CMasternodeMan where
  vMasternodes : List CMasternode
  mAskedUsForMasternodeList : List (Nat × Int)
  mWeAskedForMasternodeList : List (Nat × Int)
  mWeAskedForMasternodeListEntry : List (COutPoint × Int)
  nDsqCount : Int
deriving DecidableEq, Repr

/-- Calls made into output-only collaborators, one list per collaborator, in call order. -/
structure Effects where
  misbehaving : List (NodeId × Int) := []
  pushed : List (NodeId × NetMsg) := []
  addrmanAdd : List (CService × CService × Int) := []
  hotCold : List (CTxIn × CService) := []
deriving DecidableEq, Repr

/-- Everything masternodeman.cpp consults but does not define. -/
structure Env where
  /-- The local clock, `GetTime()`. -/
  GetTime : Int
  /-- The network-adjusted clock, `GetAdjustedTime()`. -/
  GetAdjustedTime : Int
  /-- Result of `darkSendPool.IsBlockchainSynced()`. -/
  IsBlockchainSynced : Bool
  fMasterNode : Bool
  /-- The field `activeMasternode.vin`. -/
  activeMasternodeVin : CTxIn
  /-- The field `activeMasternode.pubKeyMasternode`. -/
  activeMasternodePubKey : CPubKey
  /-- The default-constructed input `CTxIn()` (core.h is not among the sources). -/
  CTxInDefault : CTxIn
  MIN_POOL_PEER_PROTO_VERSION : Int
  PROTOCOL_VERSION : Int
  /-- The macro of masternode.h used both for the ping relay interval and for the
  re-ask deadline of a missing entry. -/
  MASTERNODE_MIN_DSEEP_SECONDS : Int
  nMasternodeMinProtocol : Int
  /-- Signer: `darkSendSigner.VerifyMessage(pubkey, vchSig, strMessage, _)`. -/
  VerifyMessage : CPubKey → List Nat → String → Bool
  /-- Signer: `darkSendSigner.IsVinAssociatedWithPubkey(vin, pubkey)`. -/
  IsVinAssociatedWithPubkey : CTxIn → CPubKey → Bool
  /-- Size of the script built by `SetDestination(pubkey.GetID())`. -/
  pubkeyScriptSize : CPubKey → Nat
  IsRFC1918 : CService → Bool
  IsLocal : CService → Bool
  addrToString : CService → String
  scriptToString : CScript → String
  vinToString : CTxIn → String
  IsPayToScriptHash : CScript → Bool
  /-- Reachability probe `CheckNode((CAddress)addr)`. -/
  CheckNode : CService → Bool
  /-- Whether `TRY_LOCK(cs_main, lockMain)` obtains the lock. -/
  lockMain : Bool
  /-- The height `pindexBest->nHeight`. -/
  nBestHeight : Int
  GetMNCollateral : Int → Int
  COIN : Int
  /-- The script `darkSendPool.collateralPubKey`. -/
  collateralPubKey : CScript
  /-- Mempool dry run `AcceptableInputs(mempool, tx, false, NULL)`. -/
  AcceptableInputs : CTransaction → Bool
  /-- What `IsInvalid(nDoS)` answers on a default-constructed `CValidationState`:
  `none` for not invalid, `some d` for invalid with DoS score `d`. -/
  freshStateInvalid : Option Int
  GetInputAge : CTxIn → Int
  /-- The block hash `GetTransaction(hash, tx, hashBlock)` leaves in `hashBlock`. -/
  GetTransactionBlock : uint256 → uint256
  /-- Height of the block index `mapBlockIndex` holds for a hash, `none` when the hash is
  absent or its index pointer is null. -/
  mapBlockIndex : uint256 → Option Int
  /-- Block time of `FindBlockByHeight(h)`. -/
  BlockTimeAtHeight : Int → Int
  /-- Ids of the connected peers `vNodes`. -/
  vNodes : List NodeId
  /-- Whether `Params().NetworkID() == CChainParams::MAIN`. -/
  isMainNet : Bool
  /-- Chain collaborator: whether the collateral outpoint is still unspent. -/
  IsCollateralUnspent : CTxIn → Bool
  /-- Chain lookup `GetBlockHash(hash, nBlockHeight)`: the hash, `none` when it answers false. -/
  GetBlockHash : Int → Option uint256
  /-- The method `CMasternode::CalculateScore(mod, nBlockHeight)` of masternode.cpp (not among
  the sources); section 4.1: a 256-bit hash of the collateral outpoint and of the block hash
  at `nBlockHeight − mod`. -/
  CalculateScore : COutPoint → Int → Int → uint256
  /-- The library routine `std::sort` as the rankers call it (reverse iterators, a comparator
  that reads `first` only): for the sequence of keys, the positions of the input in output
  order. -/
  sortOrder : List Nat → List Nat
  /-- Result of `masternodePayments.GetMinMasternodePaymentsProto()`. -/
  GetMinMasternodePaymentsProto : Int
  /-- The draw `GetRandInt(nMax)` of util.cpp (not among the sources), by its argument. -/
  GetRandInt : Int → Int
  /-- The method `CMasternode::GetMasternodeInputAge()` of masternode.h (not among the
  sources), on the entry it is called on. -/
  GetMasternodeInputAge : CMasternode → Int
  /-- The method `CMasternode::SecondsSincePayment()` of masternode.cpp (not among the
  sources), on the entry it is called on. -/
  SecondsSincePayment : CMasternode → Int

/-! ## Constants -/

/-- Modelled from the spec: the macro `MASTERNODE_MIN_CONFIRMATIONS` of masternode.h (not
among the sources); section 6 gives `MIN_CONFIRMATIONS=15`. -/
def MASTERNODE_MIN_CONFIRMATIONS : Int := 15

/-- Modelled from the spec: the macro `MASTERNODE_MIN_DSEE_SECONDS` of masternode.h (not
among the sources); section 6 gives `MIN_ANNOUNCE_INTERVAL=3600`. -/
def MASTERNODE_MIN_DSEE_SECONDS : Int := 3600

/-- Modelled from the spec: the macro `MASTERNODES_DSEG_SECONDS` of masternode.h (not among
the sources); section 6 gives `LIST_ASK_INTERVAL=10800`. -/
def MASTERNODES_DSEG_SECONDS : Int := 10800

/-- Modelled from the spec: the expiry window of masternode.h (not among the sources);
section 6 gives `EXPIRY_SECONDS=65·60`. -/
def EXPIRY_SECONDS : Int := 65 * 60

/-! ## Entry operations (masternode.h, modelled) -/

namespace CMasternode

/-- Modelled from the spec: the constructor `CMasternode(addr, vin, pubkey, sig, sigTime,
pubkey2, protocolVersion, rewardAddress, rewardPercentage)` of masternode.h (not among the
sources). The announced fields are stored as given; section 4.5 starts a new entry in
`PRE_ENABLED`; the time stamps and the vote start at zero; the port flag starts open, since
the create path of `ProcessMessage` only ever clears it; the variant flag is set right after
by `ChangeNodeStatus`. -/
def create (addr : CService) (vin : CTxIn) (pubkey : CPubKey) (sig : List Nat)
    (sigTime : Int) (pubkey2 : CPubKey) (protocolVersion : Int) (rewardAddress : CScript)
    (rewardPercentage : Int) : CMasternode :=
  { vin := vin, addr := addr, pubkey := pubkey, pubkey2 := pubkey2, sig := sig,
    activeState := MASTERNODE_PRE_ENABLED, sigTime := sigTime, lastDseep := 0,
    lastTimeSeen := 0, protocolVersion := protocolVersion,
    rewardAddress := rewardAddress, rewardPercentage := rewardPercentage,
    nVote := 0, lastVote := 0, isPortOpen := true, isOldNode := true }

/-- Modelled from the spec: `CMasternode::IsEnabled` (masternode.h is not among the
sources); section 4.1: true iff `active_state == ENABLED`. -/
def IsEnabled (mn : CMasternode) : Bool :=
  decide (mn.activeState = MASTERNODE_ENABLED)

/-- Modelled from the spec: `CMasternode::UpdatedWithin` (masternode.h is not among the
sources); section 4.1: `now − last_seen ≤ window`. -/
def UpdatedWithin (env : Env) (mn : CMasternode) (seconds : Int) : Bool :=
  decide (env.GetTime - mn.lastTimeSeen ≤ seconds)

/-- Modelled from the spec: `CMasternode::UpdateLastSeen()` without argument (masternode.h
is not among the sources); section 3: `last_seen` is the local clock time. -/
def UpdateLastSeen (env : Env) (mn : CMasternode) : CMasternode :=
  { mn with lastTimeSeen := env.GetTime }

/-- Modelled from the spec: `CMasternode::UpdateLastSeen(t)` with the time to record
(masternode.h is not among the sources). -/
def UpdateLastSeenAt (mn : CMasternode) (t : Int) : CMasternode :=
  { mn with lastTimeSeen := t }

/-- Modelled from the spec: `CMasternode::Disable` (masternode.h is not among the sources);
section 3: the entry transitions to `REMOVE` on explicit disable. -/
def Disable (mn : CMasternode) : CMasternode :=
  { mn with activeState := MASTERNODE_REMOVE }

/-- Modelled from the spec: `CMasternode::ChangePortStatus` (masternode.h is not among the
sources); it records the result of the reachability probe. -/
def ChangePortStatus (mn : CMasternode) (status : Bool) : CMasternode :=
  { mn with isPortOpen := status }

/-- Modelled from the spec: `CMasternode::ChangeNodeStatus` (masternode.h is not among the
sources); it records the variant, `true` for a legacy entry. -/
def ChangeNodeStatus (mn : CMasternode) (status : Bool) : CMasternode :=
  { mn with isOldNode := status }

/-- Modelled from the spec: `CMasternode::Check` (masternode.cpp is not among the sources).
Section 4.1: the state is recomputed, `ENABLED` when the collateral is unspent and
`COLLATERAL_SPENT` otherwise, and becomes `EXPIRED` when `now − last_seen > EXPIRY_SECONDS`.
Section 3: an entry put in `REMOVE` by an explicit disable is deleted by the next sweep, so
`REMOVE` is left in place. Only `activeState` is written. -/
def Check (env : Env) (mn : CMasternode) : CMasternode :=
  if mn.activeState = MASTERNODE_REMOVE then mn
  else if env.GetTime - mn.lastTimeSeen > EXPIRY_SECONDS then
    { mn with activeState := MASTERNODE_EXPIRED }
  else if env.IsCollateralUnspent mn.vin then
    { mn with activeState := MASTERNODE_ENABLED }
  else
    { mn with activeState := MASTERNODE_VIN_SPENT }

end CMasternode

/-! ## Registry operations -/

/-- Position of the first entry whose collateral outpoint is `prevout`: the loop of
`CMasternodeMan::Find(const CTxIn&)`. -/
def findIndex (prevout : COutPoint) : List CMasternode → Option Nat
  | [] => none
  | mn :: rest =>
    if mn.vin.prevout = prevout then some 0
    else (findIndex prevout rest).map (· + 1)

namespace CMasternodeMan

/-- Pointer result of `CMasternodeMan::Find(const CTxIn&)`: the index of the first entry
with `mn.vin.prevout == vin.prevout`, `none` for `NULL`. -/
def Find (man : CMasternodeMan) (vin : CTxIn) : Option Nat :=
  findIndex vin.prevout man.vMasternodes

/-- Registry update of `CMasternodeMan::Add`: returns the flag and the new registry. -/
def Add (man : CMasternodeMan) (mn : CMasternode) : Bool × CMasternodeMan :=
  match man.Find mn.vin with
  | none => (true, { man with vMasternodes := man.vMasternodes ++ [mn] })
  | some _ => (false, man)

/-- Loop of `CMasternodeMan::Remove`: erase the first entry whose whole `vin` equals the
argument, then stop. -/
def removeLoop (vin : CTxIn) : List CMasternode → List CMasternode
  | [] => []
  | mn :: rest => if mn.vin = vin then rest else mn :: removeLoop vin rest

/-- Registry update of `CMasternodeMan::Remove`. -/
def Remove (man : CMasternodeMan) (vin : CTxIn) : CMasternodeMan :=
  { man with vMasternodes := removeLoop vin man.vMasternodes }

/-- Registry update of `CMasternodeMan::Clear`. -/
def Clear (_man : CMasternodeMan) : CMasternodeMan :=
  { vMasternodes := [], mAskedUsForMasternodeList := [], mWeAskedForMasternodeList := [],
    mWeAskedForMasternodeListEntry := [], nDsqCount := 0 }

/-- Registry update of `CMasternodeMan::Check`: `mn.Check()` on every entry, in order. -/
def Check (env : Env) (man : CMasternodeMan) : CMasternodeMan :=
  { man with vMasternodes := man.vMasternodes.map (CMasternode.Check env) }

/-- Erase condition of the first loop of `CheckAndRemove`. -/
def isInactive (env : Env) (mn : CMasternode) : Bool :=
  decide (mn.activeState = MASTERNODE_REMOVE) || decide (mn.activeState = MASTERNODE_VIN_SPENT)
    || decide (mn.protocolVersion < env.nMasternodeMinProtocol)

/-- First loop of `CheckAndRemove`, with the iterator `it` as the index `i` into the
vector: `erase(it)` deletes position `i` and leaves the index in place, `++it` advances. -/
def eraseInactive (env : Env) (v : List CMasternode) (i : Nat) : List CMasternode :=
  if h : i < v.length then
    if isInactive env v[i] then eraseInactive env (v.eraseIdx i) i
    else eraseInactive env v (i + 1)
  else v
termination_by v.length - i
decreasing_by
  all_goals simp_wf
  · rw [List.length_eraseIdx]
    simp [h]
    omega
  · omega

/-- Map loops of `CheckAndRemove`: erase every pair whose deadline is before `GetTime()`. -/
def purgeMap {K : Type} (env : Env) : List (K × Int) → List (K × Int)
  | [] => []
  | kv :: rest => if kv.2 < env.GetTime then purgeMap env rest else kv :: purgeMap env rest

/-- Registry update of `CMasternodeMan::CheckAndRemove`. -/
def CheckAndRemove (env : Env) (man : CMasternodeMan) : CMasternodeMan :=
  let man1 := man.Check env
  { vMasternodes := eraseInactive env man1.vMasternodes 0,
    mAskedUsForMasternodeList := purgeMap env man1.mAskedUsForMasternodeList,
    mWeAskedForMasternodeList := purgeMap env man1.mWeAskedForMasternodeList,
    mWeAskedForMasternodeListEntry := purgeMap env man1.mWeAskedForMasternodeListEntry,
    nDsqCount := man1.nDsqCount }

end CMasternodeMan

/-! ## Rate-limit maps -/

/-- Lookup in a rate-limit map (`find` on the `std::map`). -/
def mapFind {K : Type} [DecidableEq K] (k : K) : List (K × Int) → Option Int
  | [] => none
  | kv :: rest => if kv.1 = k then some kv.2 else mapFind k rest

/-- Assignment `m[k] = v` on a rate-limit map: the pair for `k` is replaced or added. -/
def mapSet {K : Type} [DecidableEq K] (k : K) (v : Int) (m : List (K × Int)) : List (K × Int) :=
  (k, v) :: m.filter (fun kv => decide (kv.1 ≠ k))

/-! ## Relays -/

/-- Broadcast of `RelayOldMasternodeEntry`: one `dsee` push per connected peer. -/
def RelayOldMasternodeEntry (env : Env) (d : Dsee) : List (NodeId × NetMsg) :=
  env.vNodes.map (fun pnode => (pnode, NetMsg.dsee d))

/-- Broadcast of `RelayMasternodeEntry`: one `dsee+` push per connected peer. -/
def RelayMasternodeEntry (env : Env) (d : DseePlus) : List (NodeId × NetMsg) :=
  env.vNodes.map (fun pnode => (pnode, NetMsg.dseePlus d))

/-- Broadcast of `RelayMasternodeEntryPing`: one `dseep` push per connected peer. -/
def RelayMasternodeEntryPing (env : Env) (vin : CTxIn) (vchSig : List Nat) (nNow : Int)
    (stop : Bool) : List (NodeId × NetMsg) :=
  env.vNodes.map (fun pnode => (pnode, NetMsg.dseep vin vchSig nNow stop))

/-! ## ProcessMessage: announcements -/

/-- Raw bytes of a public key as a `std::string` (`std::string(pubkey.begin(), pubkey.end())`). -/
def rawString (k : CPubKey) : String := String.mk (k.map Char.ofNat)

/-- Decimal rendering `boost::lexical_cast<std::string>` of an integer. -/
def lexical_cast (i : Int) : String := toString i

/-- The signed string `strMessage` of an announcement; `ext` selects the `dsee+` form with
the reward fields appended. -/
def announceMessage (env : Env) (ext : Bool) (a : DseePlus) : String :=
  env.addrToString a.addr ++ lexical_cast a.sigTime ++ rawString a.pubkey ++ rawString a.pubkey2
    ++ lexical_cast a.protocolVersion
    ++ (if ext then env.scriptToString a.rewardAddress ++ lexical_cast a.rewardPercentage else "")

/-- The relay call of an announcement branch: `RelayOldMasternodeEntry` in the `dsee`
branch, `RelayMasternodeEntry` in the `dsee+` branch, with the local variables as they stand. -/
def relayAnnounce (env : Env) (ext : Bool) (a : DseePlus) : List (NodeId × NetMsg) :=
  if ext then RelayMasternodeEntry env a else RelayOldMasternodeEntry env a.toDsee

/-- The guard `fMasterNode && activeMasternode.vin == CTxIn() && pubkey2 ==
activeMasternode.pubKeyMasternode` under which a known entry is not updated. -/
def isOwnUndefinedVin (env : Env) (a : DseePlus) : Bool :=
  env.fMasterNode && decide (env.activeMasternodeVin = env.CTxInDefault)
    && decide (a.pubkey2 = env.activeMasternodePubKey)

/-- The writes of the update path on the stored entry once the announcement is newer
(source lines 1031-1052 and 1372-1395): port flag from the probe, operator key, `sigTime`,
signature, protocol version, address, for `dsee+` the reward fields, then `Check()` and the
variant flag. -/
def updatedEntry (env : Env) (ext : Bool) (a : DseePlus) (mn1 : CMasternode) : CMasternode :=
  let mn2 := { mn1 with isPortOpen := env.CheckNode a.addr }
  let mn3 := { mn2 with pubkey2 := a.pubkey2, sigTime := a.sigTime, sig := a.vchSig,
                        protocolVersion := a.protocolVersion, addr := a.addr }
  let mn4 := if ext then { mn3 with rewardAddress := a.rewardAddress,
                                    rewardPercentage := a.rewardPercentage } else mn3
  let mn5 := mn4.Check env
  { mn5 with isOldNode := !ext }

/-- Update path of the `dsee` / `dsee+` branch for the known entry `pmn` at index `i`
(source lines 1024-1061 and 1365-1404). -/
def announceUpdate (env : Env) (pfrom : CNode) (ext : Bool) (a : DseePlus)
    (man : CMasternodeMan) (i : Nat) (pmn : CMasternode) : CMasternodeMan × Effects :=
  if a.count = -1 ∧ pmn.pubkey = a.pubkey
      ∧ pmn.UpdatedWithin env MASTERNODE_MIN_DSEE_SECONDS = false then
    let mn1 := pmn.UpdateLastSeen env
    if mn1.sigTime < a.sigTime then
      let mn6 := updatedEntry env ext a mn1
      ({ man with vMasternodes := man.vMasternodes.set i mn6 },
       { addrmanAdd := if env.CheckNode a.addr then [(a.addr, pfrom.addr, 2 * 60 * 60)] else [],
         pushed := if mn6.IsEnabled then relayAnnounce env ext a else [] })
    else
      ({ man with vMasternodes := man.vMasternodes.set i mn1 }, {})
  else (man, {})

/-- The pay-to-script-hash reset of the `dsee+` create path (source lines 1497-1501): the
local reward variables are cleared before the entry is built and relayed. -/
def resetPayToScriptHash (env : Env) (ext : Bool) (a : DseePlus) : DseePlus :=
  if ext && env.IsPayToScriptHash a.rewardAddress then
    { a with rewardAddress := [], rewardPercentage := 0 }
  else a

/-- The entry built by the create path (source lines 1152-1164 and 1504-1516): constructor,
`UpdateLastSeen(lastUpdated)`, port flag cleared when the probe fails, variant flag. -/
def createdEntry (env : Env) (ext : Bool) (a1 : DseePlus) : CMasternode :=
  let mn0 := CMasternode.create a1.addr a1.vin a1.pubkey a1.vchSig a1.sigTime a1.pubkey2
    a1.protocolVersion a1.rewardAddress a1.rewardPercentage
  let mn1 := mn0.UpdateLastSeenAt a1.lastUpdated
  let mn2 := if env.CheckNode a1.addr then mn1 else mn1.ChangePortStatus false
  mn2.ChangeNodeStatus (!ext)

/-- The test on the block in which the collateral reached `MASTERNODE_MIN_CONFIRMATIONS`
(source lines 1130-1149): true when that block is known and its time is after `sigTime`. -/
def sigTimeTooEarly (env : Env) (a : DseePlus) : Bool :=
  match env.mapBlockIndex (env.GetTransactionBlock a.vin.prevout.hash) with
  | some nHeight =>
    decide (env.BlockTimeAtHeight (nHeight + MASTERNODE_MIN_CONFIRMATIONS - 1) > a.sigTime)
  | none => false

/-- The synthetic transaction spending the collateral (source lines 1088-1092). -/
def collateralTx (env : Env) (vin : CTxIn) : CTransaction :=
  { vin := [vin],
    vout := [{ nValue := (env.GetMNCollateral env.nBestHeight - 1) * env.COIN,
               scriptPubKey := env.collateralPubKey }] }

/-- Create path of the `dsee` / `dsee+` branch (source lines 1064-1199 and 1407-1551). -/
def announceCreate (env : Env) (pfrom : CNode) (ext : Bool) (a : DseePlus)
    (man : CMasternodeMan) : CMasternodeMan × Effects :=
  let isLocal := env.IsRFC1918 a.addr || env.IsLocal a.addr
  if env.IsVinAssociatedWithPubkey a.vin a.pubkey = false then
    (man, { misbehaving := [(pfrom.id, 100)] })
  else if env.lockMain = false then (man, {})
  else if env.AcceptableInputs (collateralTx env a.vin) then
    if env.GetInputAge a.vin < MASTERNODE_MIN_CONFIRMATIONS then
      (man, { misbehaving := [(pfrom.id, 20)] })
    else if sigTimeTooEarly env a then (man, {})
    else
      let a1 := resetPayToScriptHash env ext a
      let mn := createdEntry env ext a1
      ((man.Add mn).2,
       { addrmanAdd := if env.CheckNode a1.addr then [(a1.addr, pfrom.addr, 2 * 60 * 60)] else [],
         hotCold := if a1.pubkey2 = env.activeMasternodePubKey
                       ∧ a1.protocolVersion = env.PROTOCOL_VERSION
                    then [(a1.vin, a1.addr)] else [],
         pushed := if a1.count = -1 ∧ isLocal = false then relayAnnounce env ext a1 else [] })
  else
    match env.freshStateInvalid with
    | some nDoS => if nDoS > 0 then (man, { misbehaving := [(pfrom.id, nDoS)] }) else (man, {})
    | none => (man, {})

/-- Lookup of the announced outpoint and choice between the update path and the create
path (source lines 1015-1062 and 1356-1405): a known entry is updated unless the local node
is a masternode with undefined vin announcing itself, in which case control falls through to
the create path. -/
def announceDispatch (env : Env) (pfrom : CNode) (ext : Bool) (a : DseePlus)
    (man : CMasternodeMan) : CMasternodeMan × Effects :=
  match man.Find a.vin with
  | some i =>
    if isOwnUndefinedVin env a then announceCreate env pfrom ext a man
    else
      match man.vMasternodes[i]? with
      | some pmn => announceUpdate env pfrom ext a man i pmn
      | none => (man, {})
  | none => announceCreate env pfrom ext a man

/-- The `dsee` branch (`ext = false`, reward fields fixed to `CScript()` and `0` by the
caller) and the `dsee+` branch (`ext = true`) of `ProcessMessage`. The two branches of the
source are the same statement sequence except for the signed string, the reward range test
(`dsee+` only), the reward fields and variant flag written on update, the pay-to-script-hash
reset on create, and the relay call; `ext` selects those. -/
def ProcessAnnounce (env : Env) (pfrom : CNode) (ext : Bool) (a : DseePlus)
    (man : CMasternodeMan) : CMasternodeMan × Effects :=
  if a.sigTime < 1511159400 then (man, {})
  else if a.sigTime > a.lastUpdated then (man, {})
  else if a.addr.port = 0 then (man, {})
  else if a.sigTime > env.GetAdjustedTime + 60 * 60 then (man, {})
  else if ext && (decide (a.rewardPercentage < 0) || decide (a.rewardPercentage > 100)) then
    (man, {})
  else if a.protocolVersion < env.MIN_POOL_PEER_PROTO_VERSION then (man, {})
  else if env.pubkeyScriptSize a.pubkey ≠ 25 then (man, { misbehaving := [(pfrom.id, 100)] })
  else if env.pubkeyScriptSize a.pubkey2 ≠ 25 then (man, { misbehaving := [(pfrom.id, 100)] })
  else if a.vin.scriptSig ≠ [] then (man, {})
  else if env.VerifyMessage a.pubkey a.vchSig (announceMessage env ext a) = false then
    (man, { misbehaving := [(pfrom.id, 100)] })
  else announceDispatch env pfrom ext a man

/-! ## ProcessMessage: ping, vote, list request -/

/-- The signed string `strMessage` of a ping: address of the stored entry, `sigTime`, and
the stop flag as `lexical_cast` renders a `bool`. -/
def pingMessage (env : Env) (pmn : CMasternode) (sigTime : Int) (stop : Bool) : String :=
  env.addrToString pmn.addr ++ lexical_cast sigTime ++ (if stop then "1" else "0")

/-- The test `pmn != NULL && pmn->protocolVersion >= MIN_POOL_PEER_PROTO_VERSION` of the
`dseep` branch: the entry and its index when it holds. -/
def findForPing (env : Env) (man : CMasternodeMan) (vin : CTxIn) : Option (Nat × CMasternode) :=
  match man.Find vin with
  | some i =>
    match man.vMasternodes[i]? with
    | some pmn =>
      if pmn.protocolVersion ≥ env.MIN_POOL_PEER_PROTO_VERSION then some (i, pmn) else none
    | none => none
  | none => none

/-- The `dseep` branch for a known entry `pmn` at index `i` (source lines 1602-1642). -/
def pingKnown (env : Env) (vin : CTxIn) (vchSig : List Nat) (sigTime : Int) (stop : Bool)
    (man : CMasternodeMan) (i : Nat) (pmn : CMasternode) : CMasternodeMan × Effects :=
  if pmn.lastDseep < sigTime then
    if env.VerifyMessage pmn.pubkey2 vchSig (pingMessage env pmn sigTime stop) = false then
      (man, {})
    else
      let mn1 := { pmn with lastDseep := sigTime }
      if mn1.UpdatedWithin env env.MASTERNODE_MIN_DSEEP_SECONDS = false then
        if stop then
          ({ man with vMasternodes := man.vMasternodes.set i mn1.Disable },
           { pushed := RelayMasternodeEntryPing env vin vchSig sigTime stop })
        else
          let mn2 := (mn1.UpdateLastSeen env).Check env
          if mn2.IsEnabled = false then
            ({ man with vMasternodes := man.vMasternodes.set i mn2 }, {})
          else
            ({ man with vMasternodes := man.vMasternodes.set i mn2 },
             { pushed := RelayMasternodeEntryPing env vin vchSig sigTime stop })
      else ({ man with vMasternodes := man.vMasternodes.set i mn1 }, {})
  else (man, {})

/-- The `dseep` branch for an entry that is not known (source lines 1650-1673): ask the
sender for it unless the re-ask deadline for the outpoint is still ahead. -/
def askForMissing (env : Env) (pfrom : CNode) (vin : CTxIn) (man : CMasternodeMan) :
    CMasternodeMan × Effects :=
  let askedRecently : Bool :=
    match mapFind vin.prevout man.mWeAskedForMasternodeListEntry with
    | some t => decide (env.GetTime < t)
    | none => false
  if askedRecently then (man, {})
  else
    let askAgain := env.GetTime + env.MASTERNODE_MIN_DSEEP_SECONDS
    let asked := mapSet vin.prevout askAgain man.mWeAskedForMasternodeListEntry
    ({ man with mWeAskedForMasternodeListEntry := asked },
     { pushed := [(pfrom.id, NetMsg.dseg vin)] })

/-- The `dseep` branch of `ProcessMessage` (source lines 1553-1675). -/
def ProcessDseep (env : Env) (pfrom : CNode) (vin : CTxIn) (vchSig : List Nat) (sigTime : Int)
    (stop : Bool) (man : CMasternodeMan) : CMasternodeMan × Effects :=
  if sigTime > env.GetAdjustedTime + 60 * 60 then (man, {})
  else if sigTime ≤ env.GetAdjustedTime - 60 * 60 then (man, {})
  else
    match findForPing env man vin with
    | some (i, pmn) => pingKnown env vin vchSig sigTime stop man i pmn
    | none => askForMissing env pfrom vin man

/-- The `mvote` branch for the known entry `pmn` at index `i` (source lines 1691-1719). -/
def voteKnown (env : Env) (vin : CTxIn) (vchSig : List Nat) (nVote : Int)
    (man : CMasternodeMan) (i : Nat) (pmn : CMasternode) : CMasternodeMan × Effects :=
  if env.GetAdjustedTime - pmn.lastVote > 60 * 60 then
    if env.VerifyMessage pmn.pubkey2 vchSig (env.vinToString vin ++ lexical_cast nVote) = false then
      (man, {})
    else
      let mn1 := { pmn with nVote := nVote, lastVote := env.GetAdjustedTime }
      ({ man with vMasternodes := man.vMasternodes.set i mn1 },
       { pushed := env.vNodes.map (fun pnode => (pnode, NetMsg.mvote vin vchSig nVote)) })
  else (man, {})

/-- The `mvote` branch of `ProcessMessage` (source lines 1676-1722). -/
def ProcessMvote (env : Env) (vin : CTxIn) (vchSig : List Nat) (nVote : Int)
    (man : CMasternodeMan) : CMasternodeMan × Effects :=
  match man.Find vin with
  | some i =>
    match man.vMasternodes[i]? with
    | some pmn => voteKnown env vin vchSig nVote man i pmn
    | none => (man, {})
  | none => (man, {})

/-- The announcement pushed for entry `mn` in answer to `dseg`: `dsee` for a legacy entry,
`dsee+` otherwise, with `count`, the running index `i` and `lastTimeSeen`. -/
def entryMessage (mn : CMasternode) (count i : Int) : NetMsg :=
  let d : Dsee :=
    { vin := mn.vin, addr := mn.addr, vchSig := mn.sig, sigTime := mn.sigTime,
      pubkey := mn.pubkey, pubkey2 := mn.pubkey2, count := count, current := i,
      lastUpdated := mn.lastTimeSeen, protocolVersion := mn.protocolVersion }
  if mn.isOldNode then NetMsg.dsee d
  else NetMsg.dseePlus { toDsee := d, rewardAddress := mn.rewardAddress,
                         rewardPercentage := mn.rewardPercentage }

/-- The answering loop of the `dseg` branch over `vMasternodes` with its counter `i`; the
result is the list of pushes to `pfrom` (the loop returns early on a specific match). -/
def dsegLoop (env : Env) (pfrom : CNode) (vin : CTxIn) (count : Int) :
    List CMasternode → Int → List (NodeId × NetMsg)
  | [], _ => []
  | mn :: rest, i =>
    if env.IsRFC1918 mn.addr then dsegLoop env pfrom vin count rest i
    else if mn.IsEnabled then
      if vin = env.CTxInDefault then
        (pfrom.id, entryMessage mn count i) :: dsegLoop env pfrom vin count rest (i + 1)
      else if vin = mn.vin then [(pfrom.id, entryMessage mn count i)]
      else dsegLoop env pfrom vin count rest (i + 1)
    else dsegLoop env pfrom vin count rest i

/-- The answer of the `dseg` branch (source lines 1761-1811): the pushes of `dsegLoop`
over the whole vector, with `count = size()`. -/
def dsegAnswer (env : Env) (pfrom : CNode) (vin : CTxIn) (man : CMasternodeMan) :
    CMasternodeMan × Effects :=
  (man, { pushed := dsegLoop env pfrom vin (man.vMasternodes.length : Int) man.vMasternodes 0 })

/-- Whether the rate-limit map holds a deadline for the peer that is still ahead
(source lines 1736-1742). -/
def askedUsRecently (env : Env) (pfrom : CNode) (man : CMasternodeMan) : Bool :=
  match mapFind pfrom.addr.ip man.mAskedUsForMasternodeList with
  | some t => decide (env.GetTime < t)
  | none => false

/-- The `dseg` branch of `ProcessMessage` (source lines 1723-1817). -/
def ProcessDseg (env : Env) (pfrom : CNode) (vin : CTxIn) (man : CMasternodeMan) :
    CMasternodeMan × Effects :=
  if vin = env.CTxInDefault then
    if env.IsRFC1918 pfrom.addr = false ∧ env.isMainNet = true then
      if askedUsRecently env pfrom man then (man, { misbehaving := [(pfrom.id, 34)] })
      else
        let askAgain := env.GetTime + MASTERNODES_DSEG_SECONDS
        let asked := mapSet pfrom.addr.ip askAgain man.mAskedUsForMasternodeList
        dsegAnswer env pfrom vin { man with mAskedUsForMasternodeList := asked }
    else dsegAnswer env pfrom vin man
  else dsegAnswer env pfrom vin man

/-- Model of `CMasternodeMan::ProcessMessage`: the registry after the call and the calls
made into the collaborators. -/
def ProcessMessage (env : Env) (pfrom : CNode) (msg : NetMsg) (man : CMasternodeMan) :
    CMasternodeMan × Effects :=
  if env.IsBlockchainSynced = false then (man, {})
  else
    match msg with
    | NetMsg.dsee d =>
      ProcessAnnounce env pfrom false { toDsee := d, rewardAddress := [], rewardPercentage := 0 } man
    | NetMsg.dseePlus d => ProcessAnnounce env pfrom true d man
    | NetMsg.dseep vin vchSig sigTime stop => ProcessDseep env pfrom vin vchSig sigTime stop man
    | NetMsg.mvote vin vchSig nVote => ProcessMvote env vin vchSig nVote man
    | NetMsg.dseg vin => ProcessDseg env pfrom vin man
    | NetMsg.other => (man, {})

/-! ## Counting and requests -/

/-- Loop of `CMasternodeMan::CountEnabled` over the vector: `mn.Check()` on every entry,
count those with `protocolVersion` at least the bound that are enabled. -/
def countEnabledLoop (env : Env) (protocolVersion : Int) : List CMasternode → Int
  | [] => 0
  | mn :: rest =>
    let mn1 := mn.Check env
    if mn1.protocolVersion < protocolVersion ∨ mn1.IsEnabled = false then
      countEnabledLoop env protocolVersion rest
    else countEnabledLoop env protocolVersion rest + 1

namespace CMasternodeMan

/-- Model of `CMasternodeMan::CountEnabled`: the count and the registry after the call
(every entry has been checked); `-1` stands for the minimum payments protocol. -/
def CountEnabled (env : Env) (man : CMasternodeMan) (protocolVersion : Int) :
    Int × CMasternodeMan :=
  let proto := if protocolVersion = -1 then env.GetMinMasternodePaymentsProto
               else protocolVersion
  (countEnabledLoop env proto man.vMasternodes, man.Check env)

/-- Model of `CMasternodeMan::AskForMN` (source lines 299-325): the same statements as the
unknown-entry tail of the `dseep` branch. -/
def AskForMN (env : Env) (pnode : CNode) (vin : CTxIn) (man : CMasternodeMan) :
    CMasternodeMan × Effects :=
  let askedRecently : Bool :=
    match mapFind vin.prevout man.mWeAskedForMasternodeListEntry with
    | some t => decide (env.GetTime < t)
    | none => false
  if askedRecently then (man, {})
  else
    let askAgain := env.GetTime + env.MASTERNODE_MIN_DSEEP_SECONDS
    let asked := mapSet vin.prevout askAgain man.mWeAskedForMasternodeListEntry
    ({ man with mWeAskedForMasternodeListEntry := asked },
     { pushed := [(pnode.id, NetMsg.dseg vin)] })

end CMasternodeMan

/-! ## Ranker -/

/-- The value `n2` the rankers compare: `memcpy(&n2, &n, sizeof(n2))` copies the first four
bytes of the `uint256` object, its least-significant 32-bit limb. -/
def first32 (n : uint256) : Nat := n % 2 ^ 32

/-- The 32-bit score of an entry: `CalculateScore(mod, nBlockHeight)` cut to `n2`. -/
def score32 (env : Env) (mod nBlockHeight : Int) (mn : CMasternode) : Nat :=
  first32 (env.CalculateScore mn.vin.prevout mod nBlockHeight)

/-- The call `sort(v.rbegin(), v.rend(), CompareValueOnly())` (and the same with
`CompareValueOnlyMN`): the vector rearranged by the positions `std::sort` chooses from the
keys. -/
def sortScores {α : Type} (env : Env) (v : List (Nat × α)) : List (Nat × α) :=
  (env.sortOrder (v.map Prod.fst)).filterMap (fun i => v[i]?)

/-- Contract of `std::sort` on reverse iterators with a less-than comparator on the keys:
the output positions are a rearrangement of the input positions, and along them the keys
never increase. -/
def SortContract (env : Env) : Prop :=
  ∀ ks : List Nat, (env.sortOrder ks).Perm (List.range ks.length)
    ∧ (env.sortOrder ks).Pairwise (fun i j => ks.getD j 0 ≤ ks.getD i 0)

/-- A concrete sorting routine: insertion of the positions by descending key, equal keys in
input order. -/
def stableOrder (ks : List Nat) : List Nat :=
  (List.range ks.length).insertionSort (fun i j => ks.getD j 0 ≤ ks.getD i 0)

/-- Whether the winner scan counts the (checked) entry: not below the protocol bound and
enabled. -/
def eligible (minProtocol : Int) (mn : CMasternode) : Bool :=
  !(decide (mn.protocolVersion < minProtocol) || !mn.IsEnabled)

/-- Scan of `GetCurrentMasterNode` (source lines 651-673) from position `i` with the running
`score` and `winner`: each entry is checked, skipped when not eligible, and becomes the
winner when its `n2` is strictly greater than the running score. -/
def currentLoop (env : Env) (mod nBlockHeight minProtocol : Int) :
    List CMasternode → Nat → Nat → Option Nat → Option Nat
  | [], _, _, winner => winner
  | mn :: rest, i, score, winner =>
    let mn1 := mn.Check env
    if mn1.protocolVersion < minProtocol ∨ mn1.IsEnabled = false then
      currentLoop env mod nBlockHeight minProtocol rest (i + 1) score winner
    else
      let n2 := score32 env mod nBlockHeight mn1
      if n2 > score then currentLoop env mod nBlockHeight minProtocol rest (i + 1) n2 (some i)
      else currentLoop env mod nBlockHeight minProtocol rest (i + 1) score winner

/-- The entries a rank query counts, as `(n2, vin)` pairs in vector order (source lines
692-714 and 792-815): entries below the protocol bound are skipped; with `fOnlyActive` the
entry is checked and skipped when not enabled. -/
def rankScores (env : Env) (nBlockHeight minProtocol : Int) (fOnlyActive : Bool) :
    List CMasternode → List (Nat × CTxIn)
  | [] => []
  | mn :: rest =>
    if mn.protocolVersion < minProtocol then
      rankScores env nBlockHeight minProtocol fOnlyActive rest
    else if fOnlyActive then
      let mn1 := mn.Check env
      if mn1.IsEnabled = false then rankScores env nBlockHeight minProtocol fOnlyActive rest
      else (score32 env 1 nBlockHeight mn1, mn1.vin)
        :: rankScores env nBlockHeight minProtocol fOnlyActive rest
    else (score32 env 1 nBlockHeight mn, mn.vin)
      :: rankScores env nBlockHeight minProtocol fOnlyActive rest

/-- What a rank query does to an entry it visits: `Check()` when `fOnlyActive` is set and
the entry is not below the protocol bound. -/
def rankVisit (env : Env) (minProtocol : Int) (fOnlyActive : Bool) (mn : CMasternode) :
    CMasternode :=
  if mn.protocolVersion < minProtocol then mn
  else if fOnlyActive then mn.Check env else mn

/-- Final loop of `GetMasternodeRank` (source lines 718-730): the 1-based position of the
first pair whose `vin` equals the query, `-1` when there is none. -/
def rankLoop (vin : CTxIn) : List (Nat × CTxIn) → Int → Int
  | [], _ => -1
  | s :: rest, rank => if s.2 = vin then rank + 1 else rankLoop vin rest (rank + 1)

/-- Final loop of `GetMasternodeByRank` (source lines 819-831): the `vin` of the pair at
1-based position `nRank`. -/
def byRankLoop (nRank : Int) : List (Nat × CTxIn) → Int → Option CTxIn
  | [], _ => none
  | s :: rest, rank => if rank + 1 = nRank then some s.2 else byRankLoop nRank rest (rank + 1)

/-- The entries `GetMasternodeRanks` scores, as `(n2, entry)` pairs in vector order (source
lines 748-770): every entry is checked; entries below the protocol bound or not enabled are
skipped. -/
def ranksScores (env : Env) (nBlockHeight minProtocol : Int) :
    List CMasternode → List (Nat × CMasternode)
  | [] => []
  | mn :: rest =>
    let mn1 := mn.Check env
    if mn1.protocolVersion < minProtocol then ranksScores env nBlockHeight minProtocol rest
    else if mn1.IsEnabled = false then ranksScores env nBlockHeight minProtocol rest
    else (score32 env 1 nBlockHeight mn1, mn1) :: ranksScores env nBlockHeight minProtocol rest

/-- Final loop of `GetMasternodeRanks` (source lines 774-781): pair each sorted entry with
its 1-based position. -/
def ranksLoop : List (Nat × CMasternode) → Int → List (Int × CMasternode)
  | [], _ => []
  | s :: rest, rank => (rank + 1, s.2) :: ranksLoop rest (rank + 1)

namespace CMasternodeMan

/-- Model of `CMasternodeMan::GetCurrentMasterNode`: the winner as an index into the vector
(`none` for `NULL`) and the registry after the call, in which every entry has been checked. -/
def GetCurrentMasterNode (env : Env) (man : CMasternodeMan) (mod nBlockHeight minProtocol : Int) :
    Option Nat × CMasternodeMan :=
  (currentLoop env mod nBlockHeight minProtocol man.vMasternodes 0 0 none, man.Check env)

/-- Model of `CMasternodeMan::GetMasternodeRank`: the rank and the registry after the call. -/
def GetMasternodeRank (env : Env) (man : CMasternodeMan) (vin : CTxIn) (nBlockHeight : Int)
    (minProtocol : Int) (fOnlyActive : Bool) : Int × CMasternodeMan :=
  match env.GetBlockHash nBlockHeight with
  | none => (-1, man)
  | some _ =>
    (rankLoop vin
       (sortScores env (rankScores env nBlockHeight minProtocol fOnlyActive man.vMasternodes)) 0,
     { man with vMasternodes := man.vMasternodes.map (rankVisit env minProtocol fOnlyActive) })

/-- Model of `CMasternodeMan::GetMasternodeRanks`: the `(rank, entry)` pairs and the registry
after the call. -/
def GetMasternodeRanks (env : Env) (man : CMasternodeMan) (nBlockHeight minProtocol : Int) :
    List (Int × CMasternode) × CMasternodeMan :=
  match env.GetBlockHash nBlockHeight with
  | none => ([], man)
  | some _ =>
    (ranksLoop (sortScores env (ranksScores env nBlockHeight minProtocol man.vMasternodes)) 0,
     man.Check env)

/-- Model of `CMasternodeMan::GetMasternodeByRank`: the entry found as an index into the
vector (`none` for `NULL`) and the registry after the call. -/
def GetMasternodeByRank (env : Env) (man : CMasternodeMan) (nRank : Int) (nBlockHeight : Int)
    (minProtocol : Int) (fOnlyActive : Bool) : Option Nat × CMasternodeMan :=
  let man1 : CMasternodeMan :=
    { man with vMasternodes := man.vMasternodes.map (rankVisit env minProtocol fOnlyActive) }
  match byRankLoop nRank
      (sortScores env (rankScores env nBlockHeight minProtocol fOnlyActive man.vMasternodes)) 0 with
  | some vin => (man1.Find vin, man1)
  | none => (none, man1)

end CMasternodeMan

/-! ## Picking an entry -/

/-- The inner loop over a list of inputs (`vVins`, `vecToExclude`): whether one of them has
the collateral outpoint of `mn`. -/
def inVins (vVins : List CTxIn) (mn : CMasternode) : Bool :=
  vVins.any (fun vin => decide (mn.vin.prevout = vin.prevout))

/-- Scan of `FindOldestNotInVec` (source lines 515-548) from position `i` with the running
`pOldestMasternode`, kept as the position and the (checked) entry it points to. -/
def oldestLoop (env : Env) (vVins : List CTxIn) (nMinimumAge : Int) :
    List CMasternode → Nat → Option (Nat × CMasternode) → Option (Nat × CMasternode)
  | [], _, oldest => oldest
  | mn :: rest, i, oldest =>
    let mn1 := mn.Check env
    if mn1.IsEnabled = false then oldestLoop env vVins nMinimumAge rest (i + 1) oldest
    else if env.GetMasternodeInputAge mn1 < nMinimumAge then
      oldestLoop env vVins nMinimumAge rest (i + 1) oldest
    else if inVins vVins mn1 then oldestLoop env vVins nMinimumAge rest (i + 1) oldest
    else
      match oldest with
      | none => oldestLoop env vVins nMinimumAge rest (i + 1) (some (i, mn1))
      | some (j, old) =>
        if env.SecondsSincePayment old < env.SecondsSincePayment mn1 then
          oldestLoop env vVins nMinimumAge rest (i + 1) (some (i, mn1))
        else oldestLoop env vVins nMinimumAge rest (i + 1) (some (j, old))

/-- Conversion of a `size_t` value to `int`: the low 32 bits, read as two's complement. -/
def toInt32 (n : Nat) : Int :=
  if n % 2 ^ 32 < 2 ^ 31 then (n % 2 ^ 32 : Nat) else ((n % 2 ^ 32 : Nat) : Int) - 2 ^ 32

/-- Scan of `FindRandomNotInVec` (source lines 610-638) from position `i` with the counter
`rand`: entries below the protocol bound, not enabled or excluded are skipped; at every other
entry `rand` is decremented and the entry is returned when the new value is below 1. -/
def randomLoop (protocolVersion : Int) (vecToExclude : List CTxIn) :
    List CMasternode → Nat → Int → Option Nat
  | [], _, _ => none
  | mn :: rest, i, rand =>
    if mn.protocolVersion < protocolVersion ∨ mn.IsEnabled = false then
      randomLoop protocolVersion vecToExclude rest (i + 1) rand
    else if inVins vecToExclude mn then randomLoop protocolVersion vecToExclude rest (i + 1) rand
    else if rand - 1 < 1 then some i
    else randomLoop protocolVersion vecToExclude rest (i + 1) (rand - 1)

namespace CMasternodeMan

/-- Model of `CMasternodeMan::FindOldestNotInVec`: the entry found as an index into the
vector (`none` for `NULL`) and the registry after the call, in which every entry has been
checked. -/
def FindOldestNotInVec (env : Env) (man : CMasternodeMan) (vVins : List CTxIn)
    (nMinimumAge : Int) : Option Nat × CMasternodeMan :=
  ((oldestLoop env vVins nMinimumAge man.vMasternodes 0 none).map Prod.fst, man.Check env)

/-- Model of `CMasternodeMan::FindRandom`: the index `GetRandInt(size)` into the vector,
`none` for `NULL`. -/
def FindRandom (env : Env) (man : CMasternodeMan) : Option Nat :=
  if man.vMasternodes.length = 0 then none
  else some (env.GetRandInt man.vMasternodes.length).toNat

/-- Model of `CMasternodeMan::FindRandomNotInVec`: the entry found as an index into the
vector (`none` for `NULL`) and the registry after the call (checked by `CountEnabled`). The
difference `nCountEnabled - vecToExclude.size()` is computed in `size_t` (64 bits) and
converted to `int` for `GetRandInt`. -/
def FindRandomNotInVec (env : Env) (man : CMasternodeMan) (vecToExclude : List CTxIn)
    (protocolVersion : Int) : Option Nat × CMasternodeMan :=
  let proto := if protocolVersion = -1 then env.GetMinMasternodePaymentsProto
               else protocolVersion
  let counted := man.CountEnabled env proto
  let diff : Nat := ((counted.1 - (vecToExclude.length : Int)) % 2 ^ 64).toNat
  if diff < 1 then (none, counted.2)
  else
    let rand := env.GetRandInt (toInt32 diff)
    (randomLoop proto vecToExclude counted.2.vMasternodes 0 rand, counted.2)

end CMasternodeMan

/-! ## Snapshot file (CMasternodeDB) -/

/-- The result codes `CMasternodeDB::Read` returns (the enum `ReadResult` is declared in
masternodeman.h, not among the sources; these are the names the source uses). -/
inductive ReadResult where
  | Ok
  | FileError
  | HashReadError
  | IncorrectHash
  | IncorrectMagicMessage
  | IncorrectMagicNumber
  | IncorrectFormat
deriving DecidableEq, Repr

/-- What `CMasternodeDB` takes from the serialisation library, the chain parameters and the
file system; streams and files are byte lists. -/
structure Serial where
  /-- The 32 bytes of the `uint256` that `Hash(begin, end)` returns for a byte range. -/
  Hash : List Nat → List Nat
  /-- The network magic `Params().MessageStart()`. -/
  MessageStart : List Nat
  /-- Stream output `ss << std::string`. -/
  writeString : String → List Nat
  /-- Stream input `ss >> std::string`: the string and the rest of the stream, `none` when
  it throws. -/
  readString : List Nat → Option (String × List Nat)
  /-- Stream output `ss << CMasternodeMan`. -/
  writeMan : CMasternodeMan → List Nat
  /-- Stream input `ss >> CMasternodeMan`: the registry read, `none` when it throws. -/
  readMan : List Nat → Option CMasternodeMan
  /-- Whether `fopen(pathMN, "wb")` and the write to the file succeed. -/
  fileWritable : Bool

/-- The field `strMagicMessage` set by the constructor of `CMasternodeDB`. -/
def strMagicMessage : String := "MasternodeCache"

namespace CMasternodeDB

/-- Model of `CMasternodeDB::Write`: the bytes written to `mncache.dat` when the function
returns true, `none` when it returns false. -/
def Write (io : Serial) (mnodemanToSave : CMasternodeMan) : Option (List Nat) :=
  let ss0 := io.writeString strMagicMessage ++ io.MessageStart ++ io.writeMan mnodemanToSave
  let hash := io.Hash ss0
  let ssMasternodes := ss0 ++ hash
  if io.fileWritable = false then none
  else some ssMasternodes

/-- The buffer size `dataSize` that `CMasternodeDB::Read` computes from the length of the
file (source lines 118-125): `int fileSize = file_size(pathMN)` keeps the low 32 bits of
the length, the difference `fileSize - sizeof(uint256)` is taken in `size_t` (64 bits) and
converted back to `int`, and a negative result is replaced by 0. -/
def readDataSize (fileLength : Nat) : Nat :=
  let fileSize : Int := toInt32 fileLength
  let dataSize : Int := toInt32 ((fileSize - 32) % 2 ^ 64).toNat
  if dataSize < 0 then 0 else dataSize.toNat

/-- Model of `CMasternodeDB::Read` on the file content `file` (`none` when the file cannot
be opened): the result code and the registry `mnodemanToLoad` after the call. The first
`dataSize` bytes of the file go to `vchData` and the 32 bytes after them to `hashIn`. -/
def Read (env : Env) (io : Serial) (file : Option (List Nat))
    (mnodemanToLoad : CMasternodeMan) : ReadResult × CMasternodeMan :=
  match file with
  | none => (ReadResult.FileError, mnodemanToLoad)
  | some bytes =>
    let dataSize := readDataSize bytes.length
    let vchData := bytes.take dataSize
    let hashIn := (bytes.drop dataSize).take 32
    if hashIn.length < 32 then (ReadResult.HashReadError, mnodemanToLoad)
    else if hashIn ≠ io.Hash vchData then (ReadResult.IncorrectHash, mnodemanToLoad)
    else
      match io.readString vchData with
      | none => (ReadResult.IncorrectFormat, mnodemanToLoad.Clear)
      | some (strMagicMessageTmp, rest) =>
        if strMagicMessage ≠ strMagicMessageTmp then
          (ReadResult.IncorrectMagicMessage, mnodemanToLoad)
        else if rest.length < 4 then (ReadResult.IncorrectFormat, mnodemanToLoad.Clear)
        else if rest.take 4 ≠ io.MessageStart then
          (ReadResult.IncorrectMagicNumber, mnodemanToLoad)
        else
          match io.readMan (rest.drop 4) with
          | none => (ReadResult.IncorrectFormat, mnodemanToLoad.Clear)
          | some loaded => (ReadResult.Ok, loaded.CheckAndRemove env)

end CMasternodeDB

/-- What a call of `DumpMasternodes` does with `mncache.dat`: it returns before `mndb.Write`,
or `Write` returns true and the file holds `bytes`, or `Write` returns false. -/
inductive DumpOutcome where
  | notWritten
  | written (bytes : List Nat)
  | writeFailed
deriving DecidableEq, Repr

/-- Model of `DumpMasternodes` (source lines 210-268) on the file content `file` and the
global registry `mnodeman`: the file is first read into a default-constructed registry; on
`FileError`, `IncorrectFormat` or `Ok` the global registry is written, on any other result
the function returns without writing. -/
def DumpMasternodes (env : Env) (io : Serial) (file : Option (List Nat))
    (mnodeman : CMasternodeMan) : DumpOutcome :=
  let tempMnodeman : CMasternodeMan := ⟨[], [], [], [], 0⟩
  let readResult := (CMasternodeDB.Read env io file tempMnodeman).1
  let write : DumpOutcome :=
    match CMasternodeDB.Write io mnodeman with
    | some bytes => DumpOutcome.written bytes
    | none => DumpOutcome.writeFailed
  if readResult = ReadResult.FileError then write
  else if readResult ≠ ReadResult.Ok then
    if readResult = ReadResult.IncorrectFormat then write
    else DumpOutcome.notWritten
  else write

/-! ## Properties stated by the claims -/

/-- Primary-key uniqueness as section 8 states it: every outpoint is the collateral of at
most one entry. -/
def UniqueOutpoints (man : CMasternodeMan) : Prop :=
  ∀ o : COutPoint, (man.vMasternodes.map (fun e => e.vin.prevout)).count o ≤ 1

/-- Shape of the entry vector after one dispatcher call: untouched, one entry rewritten in
place (related to its old value by `R`), or one entry with a fresh outpoint appended. -/
def EntriesStep (R : CMasternode → CMasternode → Prop) (old new : List CMasternode) : Prop :=
  new = old
  ∨ (∃ i pmn mn, old[i]? = some pmn ∧ new = old.set i mn ∧ R pmn mn)
  ∨ (∃ mn, findIndex mn.vin.prevout old = none ∧ new = old ++ [mn])

/-- How an announcement may rewrite a stored entry. -/
def AnnounceRel (env : Env) (pmn mn : CMasternode) : Prop :=
  mn.vin = pmn.vin ∧ mn.pubkey = pmn.pubkey ∧ mn.lastDseep = pmn.lastDseep
    ∧ (mn = { pmn with lastTimeSeen := env.GetTime } ∨ pmn.sigTime < mn.sigTime)

/-- How a ping may rewrite a stored entry. -/
def PingRel (sigTime : Int) (pmn mn : CMasternode) : Prop :=
  mn.vin = pmn.vin ∧ mn.pubkey = pmn.pubkey ∧ mn.sigTime = pmn.sigTime
    ∧ pmn.lastDseep < sigTime ∧ mn.lastDseep = sigTime

/-- How a vote may rewrite a stored entry. -/
def VoteRel (pmn mn : CMasternode) : Prop :=
  mn.vin = pmn.vin ∧ mn.pubkey = pmn.pubkey ∧ mn.sigTime = pmn.sigTime
    ∧ mn.lastDseep = pmn.lastDseep

/-- The parsed announcement of a `dsee` or `dsee+` message with its branch flag: the `dsee`
branch runs with `rewardAddress = CScript()` and `rewardPercentage = 0`. -/
def NetMsg.announce : NetMsg → Option (Bool × DseePlus)
  | NetMsg.dsee d => some (false, { toDsee := d, rewardAddress := [], rewardPercentage := 0 })
  | NetMsg.dseePlus d => some (true, d)
  | _ => none

/-- The announcement gets past the silent drops at the head of the `dsee` / `dsee+` branch
(source lines 904-959 and 1232-1300): epoch floor, `sigTime ≤ lastUpdated`, port, future
bound, reward range (`dsee+` only) and protocol floor. -/
def passesSilentChecks (env : Env) (ext : Bool) (a : DseePlus) : Prop :=
  1511159400 ≤ a.sigTime ∧ a.sigTime ≤ a.lastUpdated ∧ a.addr.port ≠ 0
    ∧ a.sigTime ≤ env.GetAdjustedTime + 60 * 60
    ∧ (ext = true → 0 ≤ a.rewardPercentage ∧ a.rewardPercentage ≤ 100)
    ∧ env.MIN_POOL_PEER_PROTO_VERSION ≤ a.protocolVersion

/-- Both public keys encode to 25-byte scripts. -/
def keysWellFormed (env : Env) (a : DseePlus) : Prop :=
  env.pubkeyScriptSize a.pubkey = 25 ∧ env.pubkeyScriptSize a.pubkey2 = 25

/-- The entries a rank query counts, as the claims word it: the entries of the registry
after the call whose protocol version is at least `minProtocol` and, when `fOnlyActive` is
set, that are enabled. -/
def countedEntries (env : Env) (minProtocol : Int) (fOnlyActive : Bool)
    (l : List CMasternode) : List CMasternode :=
  (l.map (rankVisit env minProtocol fOnlyActive)).filter
    (fun m => decide (minProtocol ≤ m.protocolVersion) && (!fOnlyActive || m.IsEnabled))

/-- The winner the scan holds after visiting the (checked) entries `l` with running score
`score`: an eligible entry whose 32-bit score is `score`, which is positive and strictly
above that of every eligible entry before it; without a winner the running score is still 0. -/
def WinnerPart (env : Env) (mod nBlockHeight minProtocol : Int) (l : List CMasternode)
    (score : Nat) : Option Nat → Prop
  | none => score = 0
  | some k => ∃ m, l[k]? = some m ∧ eligible minProtocol m = true
      ∧ score32 env mod nBlockHeight m = score ∧ 0 < score
      ∧ ∀ j m', j < k → l[j]? = some m' → eligible minProtocol m' = true →
          score32 env mod nBlockHeight m' < score

/-- State of the winner scan after the entries `l` (already checked) have been visited: no
eligible entry of `l` scores above `score`, and the winner is as `WinnerPart` says. -/
def WinnerInv (env : Env) (mod nBlockHeight minProtocol : Int) (l : List CMasternode)
    (score : Nat) (winner : Option Nat) : Prop :=
  (∀ m ∈ l, eligible minProtocol m = true → score32 env mod nBlockHeight m ≤ score)
  ∧ WinnerPart env mod nBlockHeight minProtocol l score winner

/-- The node `env` read at another moment: the local clock shows `now` and the
network-adjusted clock shows `adjusted`; nothing else differs. -/
def atClock (env : Env) (now adjusted : Int) : Env :=
  { env with GetTime := now, GetAdjustedTime := adjusted }

/-- The entry `b` is the entry `a` up to its `activeState`. -/
def SameButState (a b : CMasternode) : Prop :=
  b = { a with activeState := b.activeState }

/-- The conditions under which the `dseep` branch takes a ping for the stored entry `e`
(source lines 1572-1620): `sigTime` at most an hour ahead of the adjusted clock and less than
an hour behind it, the entry at or above the protocol floor, `sigTime` newer than the stored
`lastDseep`, and the signature of the ping string good under `pubkey2`. -/
def pingTaken (env : Env) (e : CMasternode) (vchSig : List Nat) (sigTime : Int)
    (stop : Bool) : Prop :=
  sigTime ≤ env.GetAdjustedTime + 60 * 60 ∧ env.GetAdjustedTime - 60 * 60 < sigTime
    ∧ env.MIN_POOL_PEER_PROTO_VERSION ≤ e.protocolVersion
    ∧ e.lastDseep < sigTime
    ∧ env.VerifyMessage e.pubkey2 vchSig (pingMessage env e sigTime stop) = true

instance (env : Env) (e : CMasternode) (vchSig : List Nat) (sigTime : Int) (stop : Bool) :
    Decidable (pingTaken env e vchSig sigTime stop) := by
  unfold pingTaken
  infer_instance

/-- The conditions under which the `mvote` branch takes a vote for the stored entry `e`
(source lines 1691-1706): more than an hour of the adjusted clock since `lastVote`, and the
signature of the vote string good under `pubkey2`. -/
def voteTaken (env : Env) (e : CMasternode) (vin : CTxIn) (vchSig : List Nat)
    (nVote : Int) : Prop :=
  60 * 60 < env.GetAdjustedTime - e.lastVote
    ∧ env.VerifyMessage e.pubkey2 vchSig (env.vinToString vin ++ lexical_cast nVote) = true

instance (env : Env) (e : CMasternode) (vin : CTxIn) (vchSig : List Nat) (nVote : Int) :
    Decidable (voteTaken env e vin vchSig nVote) := by
  unfold voteTaken
  infer_instance

/-- Whether the `dseg` loop considers the entry at all: address not in a private range and
state enabled. -/
def listed (env : Env) (mn : CMasternode) : Bool :=
  !env.IsRFC1918 mn.addr && mn.IsEnabled

/-- The entries `FindOldestNotInVec` considers, as the claims word it: enabled, collateral
input age at least `nMinimumAge`, outpoint not among those of `vVins`. -/
def oldestEligible (env : Env) (vVins : List CTxIn) (nMinimumAge : Int)
    (m : CMasternode) : Prop :=
  m.activeState = MASTERNODE_ENABLED ∧ nMinimumAge ≤ env.GetMasternodeInputAge m
    ∧ ∀ vin ∈ vVins, m.vin.prevout ≠ vin.prevout

/-- One pass of the body of the `FindOldestNotInVec` loop on the checked entry `mn1` at
position `i`. -/
def oldestStep (env : Env) (vVins : List CTxIn) (nMinimumAge : Int) (i : Nat)
    (mn1 : CMasternode) (oldest : Option (Nat × CMasternode)) : Option (Nat × CMasternode) :=
  if mn1.IsEnabled = false then oldest
  else if env.GetMasternodeInputAge mn1 < nMinimumAge then oldest
  else if inVins vVins mn1 then oldest
  else
    match oldest with
    | none => some (i, mn1)
    | some (j, old) =>
      if env.SecondsSincePayment old < env.SecondsSincePayment mn1 then some (i, mn1)
      else some (j, old)

/-- State of the `FindOldestNotInVec` scan after the entries `l` (already checked) have been
visited: without a pointer no entry of `l` is eligible; with a pointer to position `k` the
entry there is eligible, no eligible entry of `l` has waited longer for payment, and every
eligible entry before `k` has waited strictly less. -/
def OldestInv (env : Env) (vVins : List CTxIn) (nMinimumAge : Int) (l : List CMasternode) :
    Option (Nat × CMasternode) → Prop
  | none => ∀ m ∈ l, ¬ oldestEligible env vVins nMinimumAge m
  | some (k, w) => l[k]? = some w ∧ oldestEligible env vVins nMinimumAge w
      ∧ (∀ m ∈ l, oldestEligible env vVins nMinimumAge m →
          env.SecondsSincePayment m ≤ env.SecondsSincePayment w)
      ∧ ∀ j m, j < k → l[j]? = some m → oldestEligible env vVins nMinimumAge m →
          env.SecondsSincePayment m < env.SecondsSincePayment w

/-- The variant invariant of section 3: a legacy entry has an empty reward address and
reward percentage 0, and every reward percentage is in `0..100`. -/
def VariantInv (man : CMasternodeMan) : Prop :=
  ∀ e ∈ man.vMasternodes,
    (e.isOldNode = true → e.rewardAddress = [] ∧ e.rewardPercentage = 0)
    ∧ 0 ≤ e.rewardPercentage ∧ e.rewardPercentage ≤ 100

instance (man : CMasternodeMan) : Decidable (VariantInv man) := by
  unfold VariantInv
  infer_instance

/-- What one `ProcessMessage` call may do to a stored entry, by message kind. -/
def StepRel (env : Env) : NetMsg → CMasternode → CMasternode → Prop
  | NetMsg.dsee _ => AnnounceRel env
  | NetMsg.dseePlus _ => AnnounceRel env
  | NetMsg.dseep _ _ sigTime _ => PingRel sigTime
  | NetMsg.mvote _ _ _ => VoteRel
  | NetMsg.dseg _ => fun _ _ => False
  | NetMsg.other => fun _ _ => False

/-! ## Concrete data -/

/-- A synced main-net node that is not a masternode; every external check succeeds. -/
def sampleEnv : Env :=
  { GetTime := 1700010000, GetAdjustedTime := 1700010000, IsBlockchainSynced := true,
    fMasterNode := false,
    activeMasternodeVin := ⟨⟨0, 0⟩, [], 0⟩, activeMasternodePubKey := [9],
    CTxInDefault := ⟨⟨0, 0⟩, [], 0⟩,
    MIN_POOL_PEER_PROTO_VERSION := 70047, PROTOCOL_VERSION := 70047,
    MASTERNODE_MIN_DSEEP_SECONDS := 300, nMasternodeMinProtocol := 0,
    VerifyMessage := fun _ _ _ => true, IsVinAssociatedWithPubkey := fun _ _ => true,
    pubkeyScriptSize := fun _ => 25, IsRFC1918 := fun _ => false, IsLocal := fun _ => false,
    addrToString := fun _ => "", scriptToString := fun _ => "", vinToString := fun _ => "",
    IsPayToScriptHash := fun _ => false, CheckNode := fun _ => true, lockMain := true,
    nBestHeight := 100, GetMNCollateral := fun _ => 10000, COIN := 100000000,
    collateralPubKey := [], AcceptableInputs := fun _ => true, freshStateInvalid := none,
    GetInputAge := fun _ => 20, GetTransactionBlock := fun _ => 0, mapBlockIndex := fun _ => none,
    BlockTimeAtHeight := fun _ => 0, vNodes := [1, 2], isMainNet := true,
    IsCollateralUnspent := fun _ => true,
    GetBlockHash := fun h => if h ≤ 100 then some 1 else none,
    CalculateScore := fun o _ _ => 1000 + o.hash,
    sortOrder := stableOrder,
    GetMinMasternodePaymentsProto := 70047,
    GetRandInt := fun _ => 0,
    GetMasternodeInputAge := fun _ => 20,
    SecondsSincePayment := fun mn => mn.vin.prevout.hash }

/-- The same node run as a masternode whose vin is still undefined and whose operator key
is the `pubkey2` of `sampleAnnounce`. -/
def ownUndefinedEnv : Env :=
  { sampleEnv with fMasterNode := true, activeMasternodePubKey := [2] }

/-- The sample node with a signer that finds every public key malformed. -/
def badKeyEnv : Env := { sampleEnv with pubkeyScriptSize := fun _ => 24 }

/-- The sending peer of the examples. -/
def samplePeer : CNode := ⟨7, ⟨8, 1⟩⟩

/-- A `dsee+` announcement for outpoint `(1, 0)` with `sigTime = 1700000000`. -/
def sampleAnnounce : DseePlus :=
  { vin := ⟨⟨1, 0⟩, [], 0⟩, addr := ⟨5, 9999⟩, vchSig := [1], sigTime := 1700000000,
    pubkey := [1], pubkey2 := [2], count := -1, current := 0, lastUpdated := 1700000000,
    protocolVersion := 70047, rewardAddress := [7], rewardPercentage := 10 }

/-- A later announcement for the same outpoint: `sigTime` 300 s newer and a new address. -/
def newerAnnounce : DseePlus :=
  { sampleAnnounce with sigTime := 1700000300, lastUpdated := 1700000300, addr := ⟨6, 9999⟩ }

/-- The later announcement as it is sent in answer to a list request: `count` is the list
size, not `-1`. -/
def listedAnnounce : DseePlus := { newerAnnounce with count := 1 }

/-- The later announcement signed by a different collateral key. -/
def otherKeyAnnounce : DseePlus := { newerAnnounce with pubkey := [3] }

/-- An earlier announcement for the same outpoint: `sigTime` 10000 s older. -/
def staleAnnounce : DseePlus :=
  { sampleAnnounce with sigTime := 1699990000, lastUpdated := 1699990000, addr := ⟨6, 9999⟩ }

/-- The sample node on a chain where the collateral has been spent. -/
def spentEnv : Env := { sampleEnv with IsCollateralUnspent := fun _ => false }

/-- The entry the create path builds from `sampleAnnounce`. -/
def sampleEntry : CMasternode := createdEntry sampleEnv true sampleAnnounce

/-- An entry for outpoint `(h, 0)` that was seen at the clock reading of `sampleEnv`. -/
def freshEntry (h : Nat) : CMasternode :=
  { sampleEntry with vin := ⟨⟨h, 0⟩, [], 0⟩, lastTimeSeen := 1700010000 }

/-- A registry of two fresh entries, outpoints `(3, 0)` and `(9, 0)`. -/
def pairRegistry : CMasternodeMan := ⟨[freshEntry 3, freshEntry 9], [], [], [], 0⟩

/-- The same two entries inserted in the other order. -/
def pairRegistrySwapped : CMasternodeMan := ⟨[freshEntry 9, freshEntry 3], [], [], [], 0⟩

/-- The sample node on a chain where every outpoint gets the same score. -/
def tieEnv : Env := { sampleEnv with CalculateScore := fun _ _ _ => 5 }

/-- The sample node 10000 s later (more than `EXPIRY_SECONDS` after `freshEntry` was seen). -/
def lateEnv : Env := atClock sampleEnv 1700020000 1700020000

/-- The sample node built with a protocol floor one above the version of `sampleEntry`. -/
def risenFloorEnv : Env := { sampleEnv with MIN_POOL_PEER_PROTO_VERSION := 70048 }

/-- A registry holding one entry that was seen at the clock reading of `sampleEnv`. -/
def freshRegistry : CMasternodeMan := ⟨[freshEntry 3], [], [], [], 0⟩

/-- A registry whose only entry last voted exactly 3600 s before the clock reading of
`sampleEnv`. -/
def votedRegistry : CMasternodeMan :=
  ⟨[{ sampleEntry with lastVote := 1700006400 }], [], [], [], 0⟩

/-- A registry of two enabled entries, the first a current one and the second a legacy
one, followed by an entry that is not enabled. -/
def listRegistry : CMasternodeMan :=
  ⟨[{ freshEntry 3 with activeState := MASTERNODE_ENABLED },
    { freshEntry 9 with activeState := MASTERNODE_ENABLED, isOldNode := true },
    freshEntry 5], [], [], [], 0⟩

/-- A registry in which the sending peer of the examples has a list-request deadline 100 s
after the clock reading of `sampleEnv`. -/
def askedRegistry : CMasternodeMan :=
  { listRegistry with mAskedUsForMasternodeList := [(8, 1700010100)] }

/-- The sample node at a moment when `GetRandInt` draws `r`. -/
def drawEnv (r : Int) : Env := { sampleEnv with GetRandInt := fun _ => r }

/-- The sample node at a moment when the entry for outpoint `(3, 0)` has waited 50 s for a
payment and every other entry 10 s. -/
def paymentEnv : Env :=
  { sampleEnv with SecondsSincePayment := fun mn => if mn.vin.prevout.hash = 3 then 50 else 10 }

/-- A concrete serialisation layer: a 32-byte checksum, the network magic `1 2 3 4`, strings
as a length byte followed by the character codes, and a registry codec that writes the byte
1 for `sampleRegistry` and the byte 0 for any other registry and reads them back as
`sampleRegistry` and the empty registry. -/
def sampleSerial : Serial :=
  { Hash := fun d => List.replicate 32 (d.sum % 256),
    MessageStart := [1, 2, 3, 4],
    writeString := fun s => s.length :: s.toList.map Char.toNat,
    readString := fun bytes =>
      match bytes with
      | [] => none
      | n :: rest =>
        if rest.length < n then none
        else some (String.mk ((rest.take n).map Char.ofNat), rest.drop n),
    writeMan := fun man => if man = ⟨[sampleEntry], [], [], [], 0⟩ then [1] else [0],
    readMan := fun bytes =>
      if bytes = [1] then some ⟨[sampleEntry], [], [], [], 0⟩
      else if bytes = [0] then some ⟨[], [], [], [], 0⟩
      else none,
    fileWritable := true }

/-- The sample node on a chain where every score has a zero first 32-bit limb. -/
def zeroLimbEnv : Env := { sampleEnv with CalculateScore := fun _ _ _ => 2 ^ 32 }

/-- The sample node with a mempool that rejects every collateral dry run. -/
def rejectEnv : Env := { sampleEnv with AcceptableInputs := fun _ => false }

/-- The sample node with a script classifier that finds every reward address
pay-to-script-hash. -/
def p2shEnv : Env := { sampleEnv with IsPayToScriptHash := fun _ => true }

/-- The empty registry. -/
def emptyRegistry : CMasternodeMan := ⟨[], [], [], [], 0⟩

/-- A registry holding `sampleEntry` only. -/
def sampleRegistry : CMasternodeMan := ⟨[sampleEntry], [], [], [], 0⟩

/-- A serialisation layer like `sampleSerial` whose registry codec takes 2^31 bytes: every
registry is written as 2^31 zero bytes, and a stream of that length is read back as
`sampleRegistry`. -/
def bigSerial : Serial :=
  { Hash := fun d => List.replicate 32 (d.sum % 256),
    MessageStart := [1, 2, 3, 4],
    writeString := fun s => s.length :: s.toList.map Char.toNat,
    readString := fun bytes =>
      match bytes with
      | [] => none
      | n :: rest =>
        if rest.length < n then none
        else some (String.mk ((rest.take n).map Char.ofNat), rest.drop n),
    writeMan := fun _ => List.replicate (2 ^ 31) 0,
    readMan := fun bytes => if bytes.length = 2 ^ 31 then some sampleRegistry else none,
    fileWritable := true }

/-! ## Lemmas on the registry -/

theorem findIndex_eq_none_iff (p : COutPoint) (l : List CMasternode) :
    findIndex p l = none ↔ ∀ mn ∈ l, mn.vin.prevout ≠ p := by
  induction l with
  | nil => simp [findIndex]
  | cons mn rest ih =>
    by_cases h : mn.vin.prevout = p
    · simp [findIndex, h]
    · simp [findIndex, h, ih]

theorem findIndex_eq_some (p : COutPoint) (l : List CMasternode) (i : Nat)
    (h : findIndex p l = some i) :
    ∃ mn, l[i]? = some mn ∧ mn.vin.prevout = p := by
  induction l generalizing i with
  | nil => simp [findIndex] at h
  | cons mn rest ih =>
    by_cases hp : mn.vin.prevout = p
    · simp [findIndex, hp] at h
      subst h
      exact ⟨mn, by simp, hp⟩
    · simp [findIndex, hp] at h
      obtain ⟨j, hj, rfl⟩ := h
      obtain ⟨m, hm, hmp⟩ := ih j hj
      exact ⟨m, by simpa using hm, hmp⟩

theorem eraseInactive_eq (env : Env) (v : List CMasternode) (i : Nat) :
    CMasternodeMan.eraseInactive env v i
      = v.take i ++ (v.drop i).filter (fun mn => !CMasternodeMan.isInactive env mn) := by
  generalize hn : v.length - i = n
  induction n using Nat.strong_induction_on generalizing v i with
  | _ n ih =>
    rw [CMasternodeMan.eraseInactive]
    split
    · rename_i hlt
      have hdrop : v.drop i = v[i] :: v.drop (i + 1) := List.drop_eq_getElem_cons hlt
      split
      · rename_i hin
        have hlen : (v.eraseIdx i).length - i < n := by
          rw [List.length_eraseIdx]; simp [hlt]; omega
        have htake : (v.eraseIdx i).take i = v.take i := by
          rw [List.eraseIdx_eq_take_drop_succ, List.take_append_of_le_length]
          · simp
          · simp; omega
        have hdrop2 : (v.eraseIdx i).drop i = v.drop (i + 1) := by
          rw [List.eraseIdx_eq_take_drop_succ, List.drop_append_of_le_length]
          · simp [List.drop_take]
          · simp; omega
        rw [ih _ hlen _ _ rfl, htake, hdrop2, hdrop, List.filter_cons]
        simp [hin]
      · rename_i hin
        have hlen : v.length - (i + 1) < n := by omega
        have htake : v.take (i + 1) = v.take i ++ [v[i]] := by
          rw [List.take_succ, List.getElem?_eq_getElem hlt]; rfl
        rw [ih _ hlen _ _ rfl, hdrop, List.filter_cons]
        simp only [hin, Bool.not_eq_true, Bool.not_false, ite_true, Bool.not_eq_true', if_true]
        rw [htake, List.append_assoc]
        simp [hin]
    · rename_i hge
      have : v.length ≤ i := by omega
      simp [List.take_of_length_le this, List.drop_eq_nil_of_le this]


namespace CMasternode
@[simp] theorem Check_vin (env : Env) (mn : CMasternode) : (mn.Check env).vin = mn.vin := by
  unfold Check; split_ifs <;> rfl
@[simp] theorem Check_pubkey (env : Env) (mn : CMasternode) : (mn.Check env).pubkey = mn.pubkey := by
  unfold Check; split_ifs <;> rfl
@[simp] theorem Check_sigTime (env : Env) (mn : CMasternode) : (mn.Check env).sigTime = mn.sigTime := by
  unfold Check; split_ifs <;> rfl
@[simp] theorem Check_lastDseep (env : Env) (mn : CMasternode) :
    (mn.Check env).lastDseep = mn.lastDseep := by
  unfold Check; split_ifs <;> rfl
@[simp] theorem Check_lastTimeSeen (env : Env) (mn : CMasternode) :
    (mn.Check env).lastTimeSeen = mn.lastTimeSeen := by
  unfold Check; split_ifs <;> rfl
end CMasternode

@[simp] theorem updatedEntry_vin (env : Env) (ext : Bool) (a : DseePlus) (mn : CMasternode) :
    (updatedEntry env ext a mn).vin = mn.vin := by
  cases ext <;> simp [updatedEntry]
@[simp] theorem updatedEntry_pubkey (env : Env) (ext : Bool) (a : DseePlus) (mn : CMasternode) :
    (updatedEntry env ext a mn).pubkey = mn.pubkey := by
  cases ext <;> simp [updatedEntry]
@[simp] theorem updatedEntry_sigTime (env : Env) (ext : Bool) (a : DseePlus) (mn : CMasternode) :
    (updatedEntry env ext a mn).sigTime = a.sigTime := by
  cases ext <;> simp [updatedEntry]
@[simp] theorem updatedEntry_lastDseep (env : Env) (ext : Bool) (a : DseePlus) (mn : CMasternode) :
    (updatedEntry env ext a mn).lastDseep = mn.lastDseep := by
  cases ext <;> simp [updatedEntry]
@[simp] theorem updatedEntry_lastTimeSeen (env : Env) (ext : Bool) (a : DseePlus) (mn : CMasternode) :
    (updatedEntry env ext a mn).lastTimeSeen = mn.lastTimeSeen := by
  cases ext <;> simp [updatedEntry]

theorem announceUpdate_step (env : Env) (pfrom : CNode) (ext : Bool) (a : DseePlus)
    (man : CMasternodeMan) (i : Nat) (pmn : CMasternode)
    (hi : man.vMasternodes[i]? = some pmn) :
    EntriesStep (AnnounceRel env) man.vMasternodes
      (announceUpdate env pfrom ext a man i pmn).1.vMasternodes := by
  unfold announceUpdate
  by_cases h1 : a.count = -1 ∧ pmn.pubkey = a.pubkey
      ∧ pmn.UpdatedWithin env MASTERNODE_MIN_DSEE_SECONDS = false
  · rw [if_pos h1]
    by_cases h2 : (pmn.UpdateLastSeen env).sigTime < a.sigTime
    · simp only [if_pos h2]
      refine Or.inr (Or.inl ⟨i, pmn, _, hi, rfl, ?_⟩)
      simp only [AnnounceRel, updatedEntry_vin, updatedEntry_pubkey, updatedEntry_lastDseep,
        updatedEntry_sigTime]
      exact ⟨rfl, rfl, rfl, Or.inr h2⟩
    · simp only [if_neg h2]
      exact Or.inr (Or.inl ⟨i, pmn, _, hi, rfl, rfl, rfl, rfl, Or.inl rfl⟩)
  · rw [if_neg h1]
    exact Or.inl rfl

theorem Add_step (man : CMasternodeMan) (mn : CMasternode) (R : CMasternode → CMasternode → Prop) :
    EntriesStep R man.vMasternodes (man.Add mn).2.vMasternodes := by
  unfold CMasternodeMan.Add
  cases h : man.Find mn.vin with
  | none => exact Or.inr (Or.inr ⟨mn, h, rfl⟩)
  | some i => exact Or.inl rfl

theorem announceCreate_step (env : Env) (pfrom : CNode) (ext : Bool) (a : DseePlus)
    (man : CMasternodeMan) (R : CMasternode → CMasternode → Prop) :
    EntriesStep R man.vMasternodes (announceCreate env pfrom ext a man).1.vMasternodes := by
  unfold announceCreate
  simp only
  split_ifs
  all_goals first
    | exact Or.inl rfl
    | exact Add_step _ _ _
    | (split <;> [split_ifs; skip] <;> exact Or.inl rfl)

theorem announceDispatch_step (env : Env) (pfrom : CNode) (ext : Bool) (a : DseePlus)
    (man : CMasternodeMan) :
    EntriesStep (AnnounceRel env) man.vMasternodes
      (announceDispatch env pfrom ext a man).1.vMasternodes := by
  unfold announceDispatch
  split
  · split_ifs
    · exact announceCreate_step _ _ _ _ _ _
    · split
      · rename_i i _ pmn hp
        exact announceUpdate_step _ _ _ _ _ _ _ hp
      · exact Or.inl rfl
  · exact announceCreate_step _ _ _ _ _ _

theorem ProcessAnnounce_step (env : Env) (pfrom : CNode) (ext : Bool) (a : DseePlus)
    (man : CMasternodeMan) :
    EntriesStep (AnnounceRel env) man.vMasternodes
      (ProcessAnnounce env pfrom ext a man).1.vMasternodes := by
  unfold ProcessAnnounce
  repeat' split
  all_goals first
    | exact announceDispatch_step _ _ _ _ _
    | exact Or.inl rfl

theorem findForPing_some (env : Env) (man : CMasternodeMan) (vin : CTxIn) (i : Nat)
    (pmn : CMasternode) (h : findForPing env man vin = some (i, pmn)) :
    man.Find vin = some i ∧ man.vMasternodes[i]? = some pmn
      ∧ pmn.protocolVersion ≥ env.MIN_POOL_PEER_PROTO_VERSION := by
  unfold findForPing at h
  cases hf : man.Find vin with
  | none => simp [hf] at h
  | some j =>
    cases hg : man.vMasternodes[j]? with
    | none => simp [hf, hg] at h
    | some m =>
      simp only [hf, hg] at h
      by_cases hp : m.protocolVersion ≥ env.MIN_POOL_PEER_PROTO_VERSION
      · rw [if_pos hp] at h
        simp only [Option.some.injEq, Prod.mk.injEq] at h
        obtain ⟨rfl, rfl⟩ := h
        exact ⟨rfl, hg, hp⟩
      · rw [if_neg hp] at h
        simp at h

theorem pingKnown_step (env : Env) (vin : CTxIn) (vchSig : List Nat)
    (sigTime : Int) (stop : Bool) (man : CMasternodeMan) (i : Nat) (pmn : CMasternode)
    (hget : man.vMasternodes[i]? = some pmn) :
    EntriesStep (PingRel sigTime) man.vMasternodes
      (pingKnown env vin vchSig sigTime stop man i pmn).1.vMasternodes := by
  unfold pingKnown
  by_cases hlt : pmn.lastDseep < sigTime
  · rw [if_pos hlt]
    dsimp only
    repeat' split
    all_goals first
      | exact Or.inl rfl
      | exact Or.inr (Or.inl ⟨i, pmn, _, hget, rfl, by
          simp [PingRel, CMasternode.Disable, CMasternode.UpdateLastSeen, hlt]⟩)
  · rw [if_neg hlt]
    exact Or.inl rfl

theorem ProcessDseep_step (env : Env) (pfrom : CNode) (vin : CTxIn) (vchSig : List Nat)
    (sigTime : Int) (stop : Bool) (man : CMasternodeMan) :
    EntriesStep (PingRel sigTime) man.vMasternodes
      (ProcessDseep env pfrom vin vchSig sigTime stop man).1.vMasternodes := by
  unfold ProcessDseep
  split
  · exact Or.inl rfl
  split
  · exact Or.inl rfl
  split
  · rename_i i pmn hk
    exact pingKnown_step _ _ _ _ _ _ _ _ (findForPing_some _ _ _ _ _ hk).2.1
  · unfold askForMissing
    simp only
    split <;> exact Or.inl rfl

theorem voteKnown_step (env : Env) (vin : CTxIn) (vchSig : List Nat) (nVote : Int)
    (man : CMasternodeMan) (i : Nat) (pmn : CMasternode)
    (hget : man.vMasternodes[i]? = some pmn) :
    EntriesStep VoteRel man.vMasternodes
      (voteKnown env vin vchSig nVote man i pmn).1.vMasternodes := by
  unfold voteKnown
  dsimp only
  repeat' split
  all_goals first
    | exact Or.inl rfl
    | exact Or.inr (Or.inl ⟨i, pmn, _, hget, rfl, by simp [VoteRel]⟩)

theorem ProcessMvote_step (env : Env) (vin : CTxIn) (vchSig : List Nat) (nVote : Int)
    (man : CMasternodeMan) :
    EntriesStep VoteRel man.vMasternodes
      (ProcessMvote env vin vchSig nVote man).1.vMasternodes := by
  unfold ProcessMvote
  split
  · split
    · rename_i i _ pmn hget
      exact voteKnown_step _ _ _ _ _ _ _ hget
    · exact Or.inl rfl
  · exact Or.inl rfl

theorem ProcessDseg_entries (env : Env) (pfrom : CNode) (vin : CTxIn) (man : CMasternodeMan) :
    (ProcessDseg env pfrom vin man).1.vMasternodes = man.vMasternodes := by
  unfold ProcessDseg dsegAnswer
  simp only
  repeat' split
  all_goals rfl

/-! ## Lemmas on the dispatcher and the claims -/

theorem EntriesStep.mono {R S : CMasternode → CMasternode → Prop} {old new : List CMasternode}
    (hRS : ∀ a b, R a b → S a b) (h : EntriesStep R old new) : EntriesStep S old new := by
  rcases h with h | ⟨i, pmn, mn, hi, hn, hr⟩ | h
  · exact Or.inl h
  · exact Or.inr (Or.inl ⟨i, pmn, mn, hi, hn, hRS _ _ hr⟩)
  · exact Or.inr (Or.inr h)

theorem ProcessMessage_step (env : Env) (pfrom : CNode) (msg : NetMsg) (man : CMasternodeMan) :
    EntriesStep (StepRel env msg) man.vMasternodes
      (ProcessMessage env pfrom msg man).1.vMasternodes := by
  unfold ProcessMessage
  by_cases hs : env.IsBlockchainSynced = false
  · rw [if_pos hs]; exact Or.inl rfl
  · rw [if_neg hs]
    cases msg with
    | dsee d => exact ProcessAnnounce_step _ _ _ _ _
    | dseePlus d => exact ProcessAnnounce_step _ _ _ _ _
    | dseep vin vchSig sigTime stop => exact ProcessDseep_step _ _ _ _ _ _ _
    | mvote vin vchSig nVote => exact ProcessMvote_step _ _ _ _ _
    | dseg vin => exact Or.inl (ProcessDseg_entries _ _ _ _)
    | other => exact Or.inl rfl

theorem StepRel_vin (env : Env) (msg : NetMsg) (a b : CMasternode) (h : StepRel env msg a b) :
    b.vin = a.vin := by
  cases msg <;> first | exact h.1 | exact h.elim

theorem map_set_of_eq {β : Type} (f : CMasternode → β) (l : List CMasternode) (i : Nat)
    (pmn mn : CMasternode) (hi : l[i]? = some pmn) (hf : f mn = f pmn) :
    (l.set i mn).map f = l.map f := by
  induction l generalizing i with
  | nil => simp
  | cons x xs ih =>
    cases i with
    | zero =>
      simp at hi
      subst hi
      simp [hf]
    | succ j =>
      simp at hi
      simp [ih j hi]

theorem EntriesStep.nodup_keys {R : CMasternode → CMasternode → Prop} {old new : List CMasternode}
    (hR : ∀ a b, R a b → b.vin = a.vin) (h : EntriesStep R old new)
    (hn : (old.map (fun e => e.vin.prevout)).Nodup) :
    (new.map (fun e => e.vin.prevout)).Nodup := by
  rcases h with h | ⟨i, pmn, mn, hi, hnew, hr⟩ | ⟨mn, hf, hnew⟩
  · rw [h]; exact hn
  · rw [hnew, map_set_of_eq _ _ _ pmn mn hi (by simp [hR _ _ hr])]
    exact hn
  · rw [hnew, List.map_append, List.nodup_append]
    refine ⟨hn, by simp, ?_⟩
    rw [findIndex_eq_none_iff] at hf
    intro a ha hb
    simp at hb
    subst hb
    simp at ha
    obtain ⟨e, he, hk⟩ := ha
    exact hf e he hk

theorem removeLoop_sublist (vin : CTxIn) (l : List CMasternode) :
    (CMasternodeMan.removeLoop vin l).Sublist l := by
  induction l with
  | nil => exact List.Sublist.refl _
  | cons x xs ih =>
    unfold CMasternodeMan.removeLoop
    split
    · exact List.sublist_cons_self _ _
    · exact ih.cons₂ _

theorem CheckAndRemove_entries (env : Env) (man : CMasternodeMan) :
    (man.CheckAndRemove env).vMasternodes
      = (man.vMasternodes.map (CMasternode.Check env)).filter
          (fun mn => !CMasternodeMan.isInactive env mn) := by
  simp [CMasternodeMan.CheckAndRemove, CMasternodeMan.Check, eraseInactive_eq]

theorem uniqueOutpoints_iff (man : CMasternodeMan) :
    UniqueOutpoints man ↔ (man.vMasternodes.map (fun e => e.vin.prevout)).Nodup :=
  List.nodup_iff_count_le_one.symm

/-- C2: `Add(e)` returns true exactly when no entry of the registry has the collateral
outpoint of `e`; on true the entry list is the old list with `e` appended and nothing else
changes; on false the registry is unchanged. -/
theorem C2_Add_iff_fresh_outpoint (man : CMasternodeMan) (e : CMasternode) :
    ((man.Add e).1 = true ↔ ∀ x ∈ man.vMasternodes, x.vin.prevout ≠ e.vin.prevout)
    ∧ ((man.Add e).1 = true →
        (man.Add e).2 = { man with vMasternodes := man.vMasternodes ++ [e] })
    ∧ ((man.Add e).1 = false → (man.Add e).2 = man) := by
  unfold CMasternodeMan.Add
  cases h : man.Find e.vin with
  | none =>
    have h2 := (findIndex_eq_none_iff _ _).mp h
    simp
    exact h2
  | some i =>
    have h2 : ¬ ∀ x ∈ man.vMasternodes, x.vin.prevout ≠ e.vin.prevout := by
      intro hall
      have := (findIndex_eq_none_iff _ _).mpr hall
      unfold CMasternodeMan.Find at h
      rw [this] at h
      cases h
    simp
    simpa using h2

/-- C1: primary-key uniqueness is preserved. If no two entries of the registry share a
collateral outpoint, the same holds after `Add` of any entry, `Remove` of any input,
`CheckAndRemove`, `Clear`, and `ProcessMessage` of any message in any environment (hence
also when a known outpoint is sent down the create path because the local node is a
masternode with undefined vin). -/
theorem C1_unique_outpoints_preserved (env : Env) (pfrom : CNode) (man : CMasternodeMan)
    (h : UniqueOutpoints man) :
    (∀ e, UniqueOutpoints (man.Add e).2)
    ∧ (∀ vin, UniqueOutpoints (man.Remove vin))
    ∧ UniqueOutpoints (man.CheckAndRemove env)
    ∧ UniqueOutpoints man.Clear
    ∧ (∀ msg, UniqueOutpoints (ProcessMessage env pfrom msg man).1) := by
  rw [uniqueOutpoints_iff] at h
  refine ⟨?_, ?_, ?_, ?_, ?_⟩
  · intro e
    rw [uniqueOutpoints_iff]
    exact EntriesStep.nodup_keys (R := fun _ _ => False) (fun _ _ hf => hf.elim)
      (Add_step man e _) h
  · intro vin
    rw [uniqueOutpoints_iff]
    exact h.sublist ((removeLoop_sublist vin _).map _)
  · rw [uniqueOutpoints_iff, CheckAndRemove_entries]
    have hmap : (man.vMasternodes.map (CMasternode.Check env)).map (fun e => e.vin.prevout)
        = man.vMasternodes.map (fun e => e.vin.prevout) := by
      simp [List.map_map, Function.comp_def]
    exact (hmap ▸ h : ((man.vMasternodes.map (CMasternode.Check env)).map
      (fun e => e.vin.prevout)).Nodup).sublist ((List.filter_sublist _).map _)
  · rw [uniqueOutpoints_iff]
    simp [CMasternodeMan.Clear]
  · intro msg
    rw [uniqueOutpoints_iff]
    exact EntriesStep.nodup_keys (StepRel_vin env msg) (ProcessMessage_step env pfrom msg man) h

/-- Witness for C1 on the one-entry registry, in an environment where the local node is a
masternode with undefined vin whose operator key is the one `sampleAnnounce` carries. -/
theorem C1_unique_outpoints_preserved_witness :
    UniqueOutpoints sampleRegistry
    ∧ ((∀ e, UniqueOutpoints (sampleRegistry.Add e).2)
      ∧ (∀ vin, UniqueOutpoints (sampleRegistry.Remove vin))
      ∧ UniqueOutpoints (sampleRegistry.CheckAndRemove ownUndefinedEnv)
      ∧ UniqueOutpoints sampleRegistry.Clear
      ∧ (∀ msg, UniqueOutpoints (ProcessMessage ownUndefinedEnv samplePeer msg sampleRegistry).1)) :=
  ⟨(uniqueOutpoints_iff _).mpr (by decide),
   C1_unique_outpoints_preserved ownUndefinedEnv samplePeer sampleRegistry
     ((uniqueOutpoints_iff _).mpr (by decide))⟩

/-- The create path taken for a known outpoint: with the local node a masternode with
undefined vin, a replay of `sampleAnnounce` reaches `Add`, which refuses the duplicate; the
registry keeps its single entry and the announcement is relayed all the same. -/
theorem ownUndefinedVin_replay :
    isOwnUndefinedVin ownUndefinedEnv sampleAnnounce = true
    ∧ (ProcessMessage ownUndefinedEnv samplePeer (NetMsg.dseePlus sampleAnnounce)
        sampleRegistry).1 = sampleRegistry
    ∧ (ProcessMessage ownUndefinedEnv samplePeer (NetMsg.dseePlus sampleAnnounce)
        sampleRegistry).2.pushed = RelayMasternodeEntry ownUndefinedEnv sampleAnnounce := by
  decide


theorem EntriesStep.getElem? {R : CMasternode → CMasternode → Prop} {old new : List CMasternode}
    (h : EntriesStep R old new) (i : Nat) (e : CMasternode) (hi : old[i]? = some e) :
    new[i]? = some e ∨ ∃ mn, new[i]? = some mn ∧ R e mn := by
  rcases h with h | ⟨j, pmn, mn, hj, hnew, hr⟩ | ⟨mn, _, hnew⟩
  · rw [h]; exact Or.inl hi
  · by_cases hij : j = i
    · subst hij
      rw [hj] at hi
      cases hi
      have hlt : j < old.length := by
        rcases Nat.lt_or_ge j old.length with h | h
        · exact h
        · rw [List.getElem?_eq_none h] at hj; cases hj
      exact Or.inr ⟨mn, by rw [hnew]; simp [hlt], hr⟩
    · rw [hnew]
      exact Or.inl (by rw [List.getElem?_set_ne hij]; exact hi)
  · have hlt : i < old.length := by
      rcases Nat.lt_or_ge i old.length with h | h
      · exact h
      · rw [List.getElem?_eq_none h] at hi; cases hi
    rw [hnew]
    exact Or.inl (by rw [List.getElem?_append_left hlt]; exact hi)

/-- C3 (amended): timestamps are monotone under `ProcessMessage`. Every entry keeps its
position; its `sigTime` and `lastDseep` never decrease; if an announcement changed a field
of the entry other than `lastTimeSeen`, the new `sigTime` is strictly greater than the
stored one; if a ping changed the entry, `lastDseep` became the ping's `sigTime`, strictly
greater than the stored value. -/
theorem C3_timestamps_monotone (env : Env) (pfrom : CNode) (msg : NetMsg)
    (man : CMasternodeMan) (i : Nat) (e : CMasternode) (h : man.vMasternodes[i]? = some e) :
    ∃ e', (ProcessMessage env pfrom msg man).1.vMasternodes[i]? = some e'
      ∧ e.sigTime ≤ e'.sigTime ∧ e.lastDseep ≤ e'.lastDseep
      ∧ (msg.isAnnounce = true → e' ≠ { e with lastTimeSeen := e'.lastTimeSeen } →
          e.sigTime < e'.sigTime)
      ∧ (∀ vin vchSig sigTime stop, msg = NetMsg.dseep vin vchSig sigTime stop → e' ≠ e →
          e.lastDseep < e'.lastDseep ∧ e'.lastDseep = sigTime) := by
  rcases (ProcessMessage_step env pfrom msg man).getElem? i e h with h1 | ⟨mn, h1, hr⟩
  · refine ⟨e, h1, le_refl _, le_refl _, fun _ hne => absurd rfl hne, ?_⟩
    intro _ _ _ _ _ hne
    exact absurd rfl hne
  · refine ⟨mn, h1, ?_⟩
    cases msg with
    | dsee d =>
      obtain ⟨_, _, hd, hs⟩ := hr
      refine ⟨?_, le_of_eq hd.symm, ?_, ?_⟩
      · rcases hs with hs | hs
        · rw [hs]
        · exact le_of_lt hs
      · intro _ hne
        rcases hs with hs | hs
        · exact absurd (by rw [hs]) hne
        · exact hs
      · intro _ _ _ _ hm; cases hm
    | dseePlus d =>
      obtain ⟨_, _, hd, hs⟩ := hr
      refine ⟨?_, le_of_eq hd.symm, ?_, ?_⟩
      · rcases hs with hs | hs
        · rw [hs]
        · exact le_of_lt hs
      · intro _ hne
        rcases hs with hs | hs
        · exact absurd (by rw [hs]) hne
        · exact hs
      · intro _ _ _ _ hm; cases hm
    | dseep vin vchSig t stop =>
      obtain ⟨_, _, hs, hlt, hd⟩ := hr
      refine ⟨le_of_eq hs.symm, by rw [hd]; exact le_of_lt hlt, ?_, ?_⟩
      · intro hf; simp [NetMsg.isAnnounce] at hf
      · intro _ _ _ _ hm _
        cases hm
        exact ⟨by rw [hd]; exact hlt, hd⟩
    | mvote vin vchSig nVote =>
      obtain ⟨_, _, hs, hd⟩ := hr
      refine ⟨le_of_eq hs.symm, le_of_eq hd.symm, ?_, ?_⟩
      · intro hf; simp [NetMsg.isAnnounce] at hf
      · intro _ _ _ _ hm; cases hm
    | dseg vin => exact hr.elim
    | other => exact hr.elim

/-- Witness for C3: the stored `sampleEntry` and a replay of its announcement. -/
theorem C3_timestamps_monotone_witness :
    sampleRegistry.vMasternodes[0]? = some sampleEntry
    ∧ ∃ e', (ProcessMessage sampleEnv samplePeer (NetMsg.dseePlus sampleAnnounce)
              sampleRegistry).1.vMasternodes[0]? = some e'
      ∧ sampleEntry.sigTime ≤ e'.sigTime ∧ sampleEntry.lastDseep ≤ e'.lastDseep
      ∧ ((NetMsg.dseePlus sampleAnnounce).isAnnounce = true →
          e' ≠ { sampleEntry with lastTimeSeen := e'.lastTimeSeen } →
          sampleEntry.sigTime < e'.sigTime)
      ∧ (∀ vin vchSig sigTime stop,
          NetMsg.dseePlus sampleAnnounce = NetMsg.dseep vin vchSig sigTime stop →
          e' ≠ sampleEntry → sampleEntry.lastDseep < e'.lastDseep ∧ e'.lastDseep = sigTime) :=
  ⟨by decide, C3_timestamps_monotone sampleEnv samplePeer (NetMsg.dseePlus sampleAnnounce)
    sampleRegistry 0 sampleEntry (by decide)⟩

/-- Counterexample to C3 as stated: a replay of the announcement that created `sampleEntry`,
received 10000 s after the entry was last seen, changes the stored entry in place
(`lastTimeSeen` is refreshed) while the new `sigTime` is not greater than the stored one. -/
theorem C3_counterexample :
    sampleRegistry.vMasternodes[0]? = some sampleEntry
    ∧ (NetMsg.dseePlus sampleAnnounce).isAnnounce = true
    ∧ ∃ e', (ProcessMessage sampleEnv samplePeer (NetMsg.dseePlus sampleAnnounce)
              sampleRegistry).1.vMasternodes[0]? = some e'
      ∧ e' ≠ sampleEntry ∧ ¬ (sampleEntry.sigTime < e'.sigTime) :=
  ⟨by decide, by decide, { sampleEntry with lastTimeSeen := 1700010000 },
    by decide, by decide, by decide⟩


theorem ProcessMessage_announce (env : Env) (pfrom : CNode) (msg : NetMsg) (ext : Bool)
    (a : DseePlus) (man : CMasternodeMan) (hsync : env.IsBlockchainSynced = true)
    (hmsg : msg.announce = some (ext, a)) :
    ProcessMessage env pfrom msg man = ProcessAnnounce env pfrom ext a man := by
  unfold ProcessMessage
  rw [if_neg (by simp [hsync])]
  cases msg <;> simp [NetMsg.announce] at hmsg
  · obtain ⟨rfl, rfl⟩ := hmsg; rfl
  · obtain ⟨rfl, rfl⟩ := hmsg; rfl

theorem ProcessAnnounce_past_silent (env : Env) (pfrom : CNode) (ext : Bool) (a : DseePlus)
    (man : CMasternodeMan) (h : passesSilentChecks env ext a) :
    ProcessAnnounce env pfrom ext a man =
      if env.pubkeyScriptSize a.pubkey ≠ 25 then (man, { misbehaving := [(pfrom.id, 100)] })
      else if env.pubkeyScriptSize a.pubkey2 ≠ 25 then (man, { misbehaving := [(pfrom.id, 100)] })
      else if a.vin.scriptSig ≠ [] then (man, {})
      else if env.VerifyMessage a.pubkey a.vchSig (announceMessage env ext a) = false then
        (man, { misbehaving := [(pfrom.id, 100)] })
      else announceDispatch env pfrom ext a man := by
  obtain ⟨h1, h2, h3, h4, h5, h6⟩ := h
  unfold ProcessAnnounce
  rw [if_neg (not_lt.mpr h1), if_neg (not_lt.mpr h2), if_neg h3, if_neg (not_lt.mpr h4)]
  have h5' : ¬ ((ext && (decide (a.rewardPercentage < 0) || decide (a.rewardPercentage > 100)))
      = true) := by
    cases ext
    · simp
    · have := h5 rfl
      simp
      omega
  rw [if_neg h5', if_neg (not_lt.mpr h6)]

theorem ProcessAnnounce_dispatch (env : Env) (pfrom : CNode) (ext : Bool) (a : DseePlus)
    (man : CMasternodeMan) (h : passesSilentChecks env ext a) (hk : keysWellFormed env a)
    (hs : a.vin.scriptSig = []) (hv : env.VerifyMessage a.pubkey a.vchSig
      (announceMessage env ext a) = true) :
    ProcessAnnounce env pfrom ext a man = announceDispatch env pfrom ext a man := by
  rw [ProcessAnnounce_past_silent _ _ _ _ _ h]
  rw [if_neg (by simp [hk.1]), if_neg (by simp [hk.2]), if_neg (by simp [hs]),
    if_neg (by simp [hv])]

theorem announceDispatch_unknown (env : Env) (pfrom : CNode) (ext : Bool) (a : DseePlus)
    (man : CMasternodeMan) (hnew : ∀ e ∈ man.vMasternodes, e.vin.prevout ≠ a.vin.prevout) :
    announceDispatch env pfrom ext a man = announceCreate env pfrom ext a man := by
  unfold announceDispatch CMasternodeMan.Find
  rw [(findIndex_eq_none_iff _ _).mpr hnew]

/-- C4: misbehaviour scores of an announcement for an unknown outpoint. For a `dsee` or
`dsee+` message handled on a synced node that passes the silent checks, has an empty
scriptSig and names an outpoint not in the registry: the sender is scored 100 if either
public key does not encode to a 25-byte script; else 100 if the signature does not verify;
else 100 if the collateral pubkey does not own the outpoint; else, when the mempool dry run
is made and accepts, 20 if the collateral has fewer than 15 confirmations. In each case this
is the only score, the registry is unchanged and nothing is pushed to any peer. -/
theorem C4_announce_misbehaviour_scores (env : Env) (pfrom : CNode) (msg : NetMsg) (ext : Bool)
    (a : DseePlus) (man : CMasternodeMan)
    (hsync : env.IsBlockchainSynced = true)
    (hmsg : msg.announce = some (ext, a))
    (hsilent : passesSilentChecks env ext a)
    (hscript : a.vin.scriptSig = [])
    (hnew : ∀ e ∈ man.vMasternodes, e.vin.prevout ≠ a.vin.prevout) :
    (¬ keysWellFormed env a →
      ProcessMessage env pfrom msg man = (man, { misbehaving := [(pfrom.id, 100)] }))
    ∧ (keysWellFormed env a →
        env.VerifyMessage a.pubkey a.vchSig (announceMessage env ext a) = false →
        ProcessMessage env pfrom msg man = (man, { misbehaving := [(pfrom.id, 100)] }))
    ∧ (keysWellFormed env a →
        env.VerifyMessage a.pubkey a.vchSig (announceMessage env ext a) = true →
        env.IsVinAssociatedWithPubkey a.vin a.pubkey = false →
        ProcessMessage env pfrom msg man = (man, { misbehaving := [(pfrom.id, 100)] }))
    ∧ (keysWellFormed env a →
        env.VerifyMessage a.pubkey a.vchSig (announceMessage env ext a) = true →
        env.IsVinAssociatedWithPubkey a.vin a.pubkey = true →
        env.lockMain = true → env.AcceptableInputs (collateralTx env a.vin) = true →
        env.GetInputAge a.vin < 15 →
        ProcessMessage env pfrom msg man = (man, { misbehaving := [(pfrom.id, 20)] })) := by
  rw [ProcessMessage_announce env pfrom msg ext a man hsync hmsg]
  refine ⟨?_, ?_, ?_, ?_⟩
  · intro hk
    rw [ProcessAnnounce_past_silent _ _ _ _ _ hsilent]
    by_cases h1 : env.pubkeyScriptSize a.pubkey = 25
    · have h2 : env.pubkeyScriptSize a.pubkey2 ≠ 25 := fun h2 => hk ⟨h1, h2⟩
      rw [if_neg (by simp [h1]), if_pos h2]
    · rw [if_pos h1]
  · intro hk hv
    rw [ProcessAnnounce_past_silent _ _ _ _ _ hsilent]
    rw [if_neg (by simp [hk.1]), if_neg (by simp [hk.2]), if_neg (by simp [hscript]), if_pos hv]
  · intro hk hv ha
    rw [ProcessAnnounce_dispatch _ _ _ _ _ hsilent hk hscript hv,
      announceDispatch_unknown _ _ _ _ _ hnew]
    unfold announceCreate
    simp only [ha, if_true]
  · intro hk hv ha hl hacc hage
    rw [ProcessAnnounce_dispatch _ _ _ _ _ hsilent hk hscript hv,
      announceDispatch_unknown _ _ _ _ _ hnew]
    unfold announceCreate
    have hage' : env.GetInputAge a.vin < MASTERNODE_MIN_CONFIRMATIONS := hage
    simp only [ha, hl, hacc, hage', if_true]
    simp


/-- Witness for C4: on a node whose signer finds the keys malformed, `sampleAnnounce` sent to
the empty registry costs the sender 100 and changes nothing. -/
theorem C4_announce_misbehaviour_scores_witness :
    badKeyEnv.IsBlockchainSynced = true
    ∧ passesSilentChecks badKeyEnv true sampleAnnounce
    ∧ sampleAnnounce.vin.scriptSig = []
    ∧ ¬ keysWellFormed badKeyEnv sampleAnnounce
    ∧ ProcessMessage badKeyEnv samplePeer (NetMsg.dseePlus sampleAnnounce) emptyRegistry
        = (emptyRegistry, { misbehaving := [(7, 100)] }) :=
  ⟨rfl, by unfold passesSilentChecks; decide, rfl, by unfold keysWellFormed; decide,
   (C4_announce_misbehaviour_scores badKeyEnv samplePeer (NetMsg.dseePlus sampleAnnounce) true
      sampleAnnounce emptyRegistry rfl rfl (by unfold passesSilentChecks; decide) rfl
      (by intro e he; cases he)).1 (by unfold keysWellFormed; decide)⟩

/-- C5: silent drops. A `dsee` or `dsee+` announcement with `sigTime < 1511159400`, or
`sigTime > lastUpdated`, or port 0, or `sigTime` more than an hour ahead of the adjusted
clock, or a protocol version below `MIN_POOL_PEER_PROTO_VERSION`, or (`dsee+` only) a reward
percentage outside 0..100, leaves the whole registry (entries, rate-limit maps, counter)
unchanged and produces no misbehaviour score, no push and no other effect, whatever its keys
and signature. -/
theorem C5_silent_drop (env : Env) (pfrom : CNode) (msg : NetMsg) (ext : Bool) (a : DseePlus)
    (man : CMasternodeMan) (hmsg : msg.announce = some (ext, a))
    (hbad : a.sigTime < 1511159400 ∨ a.sigTime > a.lastUpdated ∨ a.addr.port = 0
      ∨ a.sigTime > env.GetAdjustedTime + 3600
      ∨ a.protocolVersion < env.MIN_POOL_PEER_PROTO_VERSION
      ∨ (ext = true ∧ (a.rewardPercentage < 0 ∨ a.rewardPercentage > 100))) :
    ProcessMessage env pfrom msg man = (man, {}) := by
  have hA : ProcessAnnounce env pfrom ext a man = (man, {}) := by
    unfold ProcessAnnounce
    by_cases h1 : a.sigTime < 1511159400
    · rw [if_pos h1]
    rw [if_neg h1]
    by_cases h2 : a.sigTime > a.lastUpdated
    · rw [if_pos h2]
    rw [if_neg h2]
    by_cases h3 : a.addr.port = 0
    · rw [if_pos h3]
    rw [if_neg h3]
    by_cases h4 : a.sigTime > env.GetAdjustedTime + 60 * 60
    · rw [if_pos h4]
    rw [if_neg h4]
    by_cases h5 : (ext && (decide (a.rewardPercentage < 0) || decide (a.rewardPercentage > 100)))
        = true
    · rw [if_pos h5]
    rw [if_neg h5]
    by_cases h6 : a.protocolVersion < env.MIN_POOL_PEER_PROTO_VERSION
    · rw [if_pos h6]
    exfalso
    rcases hbad with h | h | h | h | h | ⟨he, h⟩
    · exact h1 h
    · exact h2 h
    · exact h3 h
    · exact h4 (by omega)
    · exact h6 h
    · apply h5
      subst he
      simp
      omega
  by_cases hsync : env.IsBlockchainSynced = true
  · rw [ProcessMessage_announce env pfrom msg ext a man hsync hmsg, hA]
  · unfold ProcessMessage
    rw [if_pos (by simpa using hsync)]

/-- Witness for C5: `sampleAnnounce` with its port set to 0, sent to a registry that knows
the outpoint. -/
theorem C5_silent_drop_witness :
    ProcessMessage sampleEnv samplePeer
        (NetMsg.dseePlus { sampleAnnounce with addr := ⟨5, 0⟩ }) sampleRegistry
      = (sampleRegistry, {}) :=
  C5_silent_drop sampleEnv samplePeer _ true { sampleAnnounce with addr := ⟨5, 0⟩ }
    sampleRegistry rfl (Or.inr (Or.inr (Or.inl rfl)))


theorem sigTimeTooEarly_eq_false (env : Env) (a : DseePlus)
    (htime : ∀ h, env.mapBlockIndex (env.GetTransactionBlock a.vin.prevout.hash) = some h →
      env.BlockTimeAtHeight (h + 15 - 1) ≤ a.sigTime) :
    sigTimeTooEarly env a = false := by
  unfold sigTimeTooEarly
  cases hb : env.mapBlockIndex (env.GetTransactionBlock a.vin.prevout.hash) with
  | none => rfl
  | some h =>
    have := htime h hb
    simp only [MASTERNODE_MIN_CONFIRMATIONS]
    simpa using this

theorem announceCreate_accepted (env : Env) (pfrom : CNode) (ext : Bool) (a : DseePlus)
    (man : CMasternodeMan)
    (hown : env.IsVinAssociatedWithPubkey a.vin a.pubkey = true)
    (hlock : env.lockMain = true)
    (hacc : env.AcceptableInputs (collateralTx env a.vin) = true)
    (hage : 15 ≤ env.GetInputAge a.vin)
    (htime : sigTimeTooEarly env a = false) :
    announceCreate env pfrom ext a man =
      ((man.Add (createdEntry env ext (resetPayToScriptHash env ext a))).2,
       { addrmanAdd := if env.CheckNode (resetPayToScriptHash env ext a).addr
           then [((resetPayToScriptHash env ext a).addr, pfrom.addr, 2 * 60 * 60)] else [],
         hotCold := if (resetPayToScriptHash env ext a).pubkey2 = env.activeMasternodePubKey
                       ∧ (resetPayToScriptHash env ext a).protocolVersion = env.PROTOCOL_VERSION
                    then [((resetPayToScriptHash env ext a).vin,
                           (resetPayToScriptHash env ext a).addr)] else [],
         pushed := if (resetPayToScriptHash env ext a).count = -1
                       ∧ (env.IsRFC1918 a.addr || env.IsLocal a.addr) = false
                   then relayAnnounce env ext (resetPayToScriptHash env ext a) else [] }) := by
  unfold announceCreate
  have hage' : ¬ env.GetInputAge a.vin < MASTERNODE_MIN_CONFIRMATIONS := by
    simp only [MASTERNODE_MIN_CONFIRMATIONS]; omega
  simp only [hown, hlock, hacc, htime, if_true, if_neg hage']
  simp

theorem createdEntry_eq (env : Env) (ext : Bool) (a : DseePlus) :
    createdEntry env ext a =
      { vin := a.vin, addr := a.addr, pubkey := a.pubkey, pubkey2 := a.pubkey2, sig := a.vchSig,
        activeState := MASTERNODE_PRE_ENABLED, sigTime := a.sigTime, lastDseep := 0,
        lastTimeSeen := a.lastUpdated, protocolVersion := a.protocolVersion,
        rewardAddress := a.rewardAddress, rewardPercentage := a.rewardPercentage,
        nVote := 0, lastVote := 0, isPortOpen := env.CheckNode a.addr, isOldNode := !ext } := by
  unfold createdEntry
  cases h : env.CheckNode a.addr <;> rfl

theorem announceDispatch_known (env : Env) (pfrom : CNode) (ext : Bool) (a : DseePlus)
    (man : CMasternodeMan) (i : Nat) (e : CMasternode)
    (hfind : man.Find a.vin = some i) (he : man.vMasternodes[i]? = some e)
    (hnotown : isOwnUndefinedVin env a = false) :
    announceDispatch env pfrom ext a man = announceUpdate env pfrom ext a man i e := by
  unfold announceDispatch
  rw [hfind]
  simp only [hnotown, he]
  simp

theorem Check_isEnabled_fresh (env : Env) (mn : CMasternode)
    (hseen : mn.lastTimeSeen = env.GetTime) :
    ((mn.Check env).IsEnabled = true
      ↔ mn.activeState ≠ MASTERNODE_REMOVE ∧ env.IsCollateralUnspent mn.vin = true) := by
  unfold CMasternode.Check CMasternode.IsEnabled
  by_cases h1 : mn.activeState = MASTERNODE_REMOVE
  · simp [h1]
  · have h2 : ¬ env.GetTime - mn.lastTimeSeen > EXPIRY_SECONDS := by
      rw [hseen]; simp [EXPIRY_SECONDS]
    rw [if_neg h1, if_neg h2]
    by_cases h3 : env.IsCollateralUnspent mn.vin = true
    · simp [h1, h3]
    · simp [h1, h3]

/-- C7 (amended): supersede. On a synced node, let `e` be the entry `Find` returns for the
announced outpoint and let the `dsee` / `dsee+` announcement pass the silent checks, the
key-shape checks, the empty-scriptSig check and the signature check. If `count = -1`, the
announced collateral pubkey equals `e.pubkey`, the local node is not a masternode with
undefined vin announcing itself, the announced `sigTime` is strictly greater than
`e.sigTime`, and `e` was not updated within 3600 s, then `ProcessMessage` rewrites `e` in
place: address, operator pubkey, signature, `sigTime` and protocol version (for `dsee+` also
the reward fields) become those announced, `lastTimeSeen` becomes the clock, outpoint and
collateral pubkey stay, and the number of entries is unchanged. The announcement is relayed
when the rewritten entry is enabled after `Check`, that is when `e` was not in `REMOVE` and
its collateral is unspent; otherwise nothing is pushed. -/
theorem C7_supersede_in_place (env : Env) (pfrom : CNode) (msg : NetMsg) (ext : Bool)
    (a : DseePlus) (man : CMasternodeMan) (i : Nat) (e : CMasternode)
    (hsync : env.IsBlockchainSynced = true)
    (hmsg : msg.announce = some (ext, a))
    (hsilent : passesSilentChecks env ext a)
    (hkeys : keysWellFormed env a)
    (hscript : a.vin.scriptSig = [])
    (hsig : env.VerifyMessage a.pubkey a.vchSig (announceMessage env ext a) = true)
    (hfind : man.Find a.vin = some i) (he : man.vMasternodes[i]? = some e)
    (hnotown : isOwnUndefinedVin env a = false)
    (hcount : a.count = -1)
    (hpub : e.pubkey = a.pubkey)
    (hnewer : e.sigTime < a.sigTime)
    (hrate : e.UpdatedWithin env 3600 = false) :
    ∃ e' : CMasternode,
      (ProcessMessage env pfrom msg man).1 = { man with vMasternodes := man.vMasternodes.set i e' }
      ∧ (ProcessMessage env pfrom msg man).1.vMasternodes.length = man.vMasternodes.length
      ∧ e'.vin = e.vin ∧ e'.pubkey = e.pubkey
      ∧ e'.addr = a.addr ∧ e'.pubkey2 = a.pubkey2 ∧ e'.sig = a.vchSig ∧ e'.sigTime = a.sigTime
      ∧ e'.protocolVersion = a.protocolVersion
      ∧ (ext = true → e'.rewardAddress = a.rewardAddress
          ∧ e'.rewardPercentage = a.rewardPercentage)
      ∧ e'.lastTimeSeen = env.GetTime
      ∧ (e'.IsEnabled = true
          ↔ e.activeState ≠ MASTERNODE_REMOVE ∧ env.IsCollateralUnspent e.vin = true)
      ∧ (ProcessMessage env pfrom msg man).2.pushed
          = (if e'.IsEnabled then relayAnnounce env ext a else []) := by
  have hgate : a.count = -1 ∧ e.pubkey = a.pubkey
      ∧ e.UpdatedWithin env MASTERNODE_MIN_DSEE_SECONDS = false := ⟨hcount, hpub, hrate⟩
  have hnewer' : (e.UpdateLastSeen env).sigTime < a.sigTime := hnewer
  rw [ProcessMessage_announce env pfrom msg ext a man hsync hmsg,
    ProcessAnnounce_dispatch _ _ _ _ _ hsilent hkeys hscript hsig,
    announceDispatch_known _ _ _ _ _ _ _ hfind he hnotown]
  unfold announceUpdate
  rw [if_pos hgate]
  simp only [if_pos hnewer']
  refine ⟨updatedEntry env ext a (e.UpdateLastSeen env), rfl, by simp, ?_⟩
  refine ⟨by simp [CMasternode.UpdateLastSeen], by simp [CMasternode.UpdateLastSeen], ?_⟩
  have hen : (updatedEntry env ext a (e.UpdateLastSeen env)).IsEnabled = true
      ↔ e.activeState ≠ MASTERNODE_REMOVE ∧ env.IsCollateralUnspent e.vin = true := by
    cases ext
    · exact Check_isEnabled_fresh env _ rfl
    · exact Check_isEnabled_fresh env _ rfl
  refine ⟨?_, ?_, ?_, ?_, ?_, ?_, ?_, hen, rfl⟩
  · cases ext <;> simp [updatedEntry, CMasternode.Check] <;> split_ifs <;> rfl
  · cases ext <;> simp [updatedEntry, CMasternode.Check] <;> split_ifs <;> rfl
  · cases ext <;> simp [updatedEntry, CMasternode.Check] <;> split_ifs <;> rfl
  · simp
  · cases ext <;> simp [updatedEntry, CMasternode.Check] <;> split_ifs <;> rfl
  · intro hext
    subst hext
    constructor <;> simp [updatedEntry, CMasternode.Check] <;> split_ifs <;> rfl
  · simp [CMasternode.UpdateLastSeen]

/-- Witness for C7: `newerAnnounce` supersedes `sampleEntry`, last seen 10000 s ago. -/
theorem C7_supersede_in_place_witness :
    sampleRegistry.Find newerAnnounce.vin = some 0
    ∧ sampleEntry.sigTime < newerAnnounce.sigTime
    ∧ sampleEntry.UpdatedWithin sampleEnv 3600 = false
    ∧ ∃ e' : CMasternode,
      (ProcessMessage sampleEnv samplePeer (NetMsg.dseePlus newerAnnounce) sampleRegistry).1
        = { sampleRegistry with vMasternodes := sampleRegistry.vMasternodes.set 0 e' }
      ∧ (ProcessMessage sampleEnv samplePeer (NetMsg.dseePlus newerAnnounce)
          sampleRegistry).1.vMasternodes.length = sampleRegistry.vMasternodes.length
      ∧ e'.vin = sampleEntry.vin ∧ e'.pubkey = sampleEntry.pubkey
      ∧ e'.addr = newerAnnounce.addr ∧ e'.pubkey2 = newerAnnounce.pubkey2
      ∧ e'.sig = newerAnnounce.vchSig ∧ e'.sigTime = newerAnnounce.sigTime
      ∧ e'.protocolVersion = newerAnnounce.protocolVersion
      ∧ (true = true → e'.rewardAddress = newerAnnounce.rewardAddress
          ∧ e'.rewardPercentage = newerAnnounce.rewardPercentage)
      ∧ e'.lastTimeSeen = sampleEnv.GetTime
      ∧ (e'.IsEnabled = true
          ↔ sampleEntry.activeState ≠ MASTERNODE_REMOVE
            ∧ sampleEnv.IsCollateralUnspent sampleEntry.vin = true)
      ∧ (ProcessMessage sampleEnv samplePeer (NetMsg.dseePlus newerAnnounce)
          sampleRegistry).2.pushed
          = (if e'.IsEnabled then relayAnnounce sampleEnv true newerAnnounce else []) :=
  ⟨by decide, by decide, by decide,
   C7_supersede_in_place sampleEnv samplePeer (NetMsg.dseePlus newerAnnounce) true
     newerAnnounce sampleRegistry 0 sampleEntry rfl rfl
     (by unfold passesSilentChecks; decide) (by unfold keysWellFormed; decide) rfl rfl
     (by decide) (by decide) (by decide) rfl (by decide) (by decide) (by decide)⟩

/-- Counterexample to C7 as stated. `sampleRegistry` holds `sampleEntry` for the announced
outpoint, last seen 10000 s ago; each announcement below passes the stateless checks, has a
valid signature and a `sigTime` strictly greater than the stored one. Sent with
`count = 1` (as in an answer to a list request) it changes nothing and is not relayed; sent
with another collateral pubkey it changes nothing and is not relayed; on a chain where the
collateral is spent it rewrites the entry but is not relayed; on a masternode with undefined
vin announcing itself the entry is not rewritten. -/
theorem C7_counterexample :
    sampleRegistry.vMasternodes[0]? = some sampleEntry
    ∧ sampleEntry.vin.prevout = newerAnnounce.vin.prevout
    ∧ sampleEntry.sigTime < newerAnnounce.sigTime
    ∧ sampleEntry.UpdatedWithin sampleEnv 3600 = false
    ∧ sampleEntry.addr ≠ newerAnnounce.addr
    ∧ passesSilentChecks sampleEnv true listedAnnounce
    ∧ keysWellFormed sampleEnv listedAnnounce
    ∧ ProcessMessage sampleEnv samplePeer (NetMsg.dseePlus listedAnnounce) sampleRegistry
        = (sampleRegistry, {})
    ∧ ProcessMessage sampleEnv samplePeer (NetMsg.dseePlus otherKeyAnnounce) sampleRegistry
        = (sampleRegistry, {})
    ∧ (ProcessMessage spentEnv samplePeer (NetMsg.dseePlus newerAnnounce)
        sampleRegistry).2.pushed = []
    ∧ (ProcessMessage ownUndefinedEnv samplePeer (NetMsg.dseePlus newerAnnounce)
        sampleRegistry).1 = sampleRegistry := by
  refine ⟨by decide, by decide, by decide, by decide, by decide,
    by unfold passesSilentChecks; decide, by unfold keysWellFormed; decide,
    by decide, by decide, by decide, by decide⟩


theorem findIndex_set_same_key (p : COutPoint) (l : List CMasternode) (i : Nat)
    (pmn mn : CMasternode) (hi : l[i]? = some pmn) (hv : mn.vin = pmn.vin) :
    findIndex p (l.set i mn) = findIndex p l := by
  induction l generalizing i with
  | nil => simp
  | cons x xs ih =>
    cases i with
    | zero =>
      simp at hi
      subst hi
      simp [findIndex, hv]
    | succ j =>
      simp at hi
      simp [findIndex, ih j hi]

theorem findIndex_append_fresh (p : COutPoint) (l : List CMasternode) (c : CMasternode)
    (hnone : findIndex p l = none) (hc : c.vin.prevout = p) :
    findIndex p (l ++ [c]) = some l.length := by
  induction l with
  | nil => simp [findIndex, hc]
  | cons x xs ih =>
    by_cases hx : x.vin.prevout = p
    · simp [findIndex, hx] at hnone
    · simp [findIndex, hx] at hnone
      simp [findIndex, hx, ih hnone]

theorem ProcessAnnounce_not_silent (env : Env) (pfrom : CNode) (ext : Bool) (a : DseePlus)
    (man : CMasternodeMan) (h : ¬ passesSilentChecks env ext a) :
    ProcessAnnounce env pfrom ext a man = (man, {}) := by
  unfold ProcessAnnounce
  by_cases h1 : a.sigTime < 1511159400
  · rw [if_pos h1]
  rw [if_neg h1]
  by_cases h2 : a.sigTime > a.lastUpdated
  · rw [if_pos h2]
  rw [if_neg h2]
  by_cases h3 : a.addr.port = 0
  · rw [if_pos h3]
  rw [if_neg h3]
  by_cases h4 : a.sigTime > env.GetAdjustedTime + 60 * 60
  · rw [if_pos h4]
  rw [if_neg h4]
  by_cases h5 : (ext && (decide (a.rewardPercentage < 0) || decide (a.rewardPercentage > 100)))
      = true
  · rw [if_pos h5]
  rw [if_neg h5]
  by_cases h6 : a.protocolVersion < env.MIN_POOL_PEER_PROTO_VERSION
  · rw [if_pos h6]
  exfalso
  apply h
  refine ⟨not_lt.mp h1, not_lt.mp h2, h3, not_lt.mp h4, ?_, not_lt.mp h6⟩
  intro he
  subst he
  simp at h5
  omega

/-- The checks of an announcement branch do not look at the registry: either every registry
is handed to `announceDispatch`, or every registry is returned as it is with nothing pushed. -/
theorem ProcessAnnounce_cases (env : Env) (pfrom : CNode) (ext : Bool) (a : DseePlus) :
    (∀ man, ProcessAnnounce env pfrom ext a man = announceDispatch env pfrom ext a man)
    ∨ (∀ man, (ProcessAnnounce env pfrom ext a man).1 = man
        ∧ (ProcessAnnounce env pfrom ext a man).2.pushed = []) := by
  by_cases hs : passesSilentChecks env ext a
  · by_cases h1 : env.pubkeyScriptSize a.pubkey ≠ 25
    · right; intro man
      rw [ProcessAnnounce_past_silent _ _ _ _ _ hs, if_pos h1]
      exact ⟨rfl, rfl⟩
    by_cases h2 : env.pubkeyScriptSize a.pubkey2 ≠ 25
    · right; intro man
      rw [ProcessAnnounce_past_silent _ _ _ _ _ hs, if_neg h1, if_pos h2]
      exact ⟨rfl, rfl⟩
    by_cases h3 : a.vin.scriptSig ≠ []
    · right; intro man
      rw [ProcessAnnounce_past_silent _ _ _ _ _ hs, if_neg h1, if_neg h2, if_pos h3]
      exact ⟨rfl, rfl⟩
    by_cases h4 : env.VerifyMessage a.pubkey a.vchSig (announceMessage env ext a) = false
    · right; intro man
      rw [ProcessAnnounce_past_silent _ _ _ _ _ hs, if_neg h1, if_neg h2, if_neg h3, if_pos h4]
      exact ⟨rfl, rfl⟩
    · left; intro man
      rw [ProcessAnnounce_past_silent _ _ _ _ _ hs, if_neg h1, if_neg h2, if_neg h3, if_neg h4]
  · right; intro man
    rw [ProcessAnnounce_not_silent _ _ _ _ _ hs]
    exact ⟨rfl, rfl⟩

theorem announceUpdate_stale (env : Env) (pfrom : CNode) (ext : Bool) (a : DseePlus)
    (man : CMasternodeMan) (i : Nat) (e : CMasternode) (hstale : a.sigTime ≤ e.sigTime) :
    announceUpdate env pfrom ext a man i e =
      if a.count = -1 ∧ e.pubkey = a.pubkey
          ∧ e.UpdatedWithin env MASTERNODE_MIN_DSEE_SECONDS = false then
        ({ man with vMasternodes :=
             man.vMasternodes.set i { e with lastTimeSeen := env.GetTime } }, {})
      else (man, {}) := by
  unfold announceUpdate
  have h : ¬ (e.UpdateLastSeen env).sigTime < a.sigTime := not_lt.mpr hstale
  simp only [if_neg h]
  rfl

theorem announceUpdate_seen_now (env : Env) (pfrom : CNode) (ext : Bool) (a : DseePlus)
    (man : CMasternodeMan) (i : Nat) (e : CMasternode) (hseen : e.lastTimeSeen = env.GetTime) :
    announceUpdate env pfrom ext a man i e = (man, {}) := by
  unfold announceUpdate
  have h : ¬ (a.count = -1 ∧ e.pubkey = a.pubkey
      ∧ e.UpdatedWithin env MASTERNODE_MIN_DSEE_SECONDS = false) := by
    rintro ⟨_, _, h3⟩
    simp [CMasternode.UpdatedWithin, hseen, MASTERNODE_MIN_DSEE_SECONDS] at h3
  rw [if_neg h]

theorem announceUpdate_cases (env : Env) (pfrom : CNode) (ext : Bool) (a : DseePlus)
    (man : CMasternodeMan) (i : Nat) (e : CMasternode) :
    announceUpdate env pfrom ext a man i e = (man, {})
    ∨ ∃ e1, (announceUpdate env pfrom ext a man i e).1
          = { man with vMasternodes := man.vMasternodes.set i e1 }
        ∧ e1.vin = e.vin ∧ e1.lastTimeSeen = env.GetTime := by
  unfold announceUpdate
  by_cases h1 : a.count = -1 ∧ e.pubkey = a.pubkey
      ∧ e.UpdatedWithin env MASTERNODE_MIN_DSEE_SECONDS = false
  · rw [if_pos h1]
    right
    by_cases h2 : (e.UpdateLastSeen env).sigTime < a.sigTime
    · simp only [if_pos h2]
      exact ⟨_, rfl, by simp [CMasternode.UpdateLastSeen], by simp [CMasternode.UpdateLastSeen]⟩
    · simp only [if_neg h2]
      exact ⟨_, rfl, rfl, rfl⟩
  · rw [if_neg h1]
    exact Or.inl rfl

theorem announceCreate_cases (env : Env) (pfrom : CNode) (ext : Bool) (a : DseePlus)
    (man : CMasternodeMan) :
    ((announceCreate env pfrom ext a man).1 = man
      ∧ (announceCreate env pfrom ext a man).2.pushed = [])
    ∨ (announceCreate env pfrom ext a man).1
        = (man.Add (createdEntry env ext (resetPayToScriptHash env ext a))).2 := by
  unfold announceCreate
  simp only
  repeat' split
  all_goals first
    | exact Or.inl ⟨rfl, rfl⟩
    | exact Or.inr rfl

theorem resetPayToScriptHash_toDsee (env : Env) (ext : Bool) (a : DseePlus) :
    (resetPayToScriptHash env ext a).toDsee = a.toDsee := by
  unfold resetPayToScriptHash
  split <;> rfl

theorem announce_stale_known (env : Env) (pfrom : CNode) (ext : Bool) (a : DseePlus)
    (man : CMasternodeMan) (i : Nat) (e : CMasternode)
    (hfind : man.Find a.vin = some i) (he : man.vMasternodes[i]? = some e)
    (hnotown : isOwnUndefinedVin env a = false) (hstale : a.sigTime ≤ e.sigTime) :
    (ProcessAnnounce env pfrom ext a man).2.pushed = []
    ∧ ((ProcessAnnounce env pfrom ext a man).1 = man
      ∨ (a.count = -1 ∧ e.pubkey = a.pubkey ∧ e.UpdatedWithin env 3600 = false
        ∧ (ProcessAnnounce env pfrom ext a man).1
            = { man with vMasternodes :=
                  man.vMasternodes.set i { e with lastTimeSeen := env.GetTime } })) := by
  rcases ProcessAnnounce_cases env pfrom ext a with h | h
  · rw [h man, announceDispatch_known _ _ _ _ _ _ _ hfind he hnotown,
      announceUpdate_stale _ _ _ _ _ _ _ hstale]
    by_cases hg : a.count = -1 ∧ e.pubkey = a.pubkey
        ∧ e.UpdatedWithin env MASTERNODE_MIN_DSEE_SECONDS = false
    · rw [if_pos hg]
      exact ⟨rfl, Or.inr ⟨hg.1, hg.2.1, hg.2.2, rfl⟩⟩
    · rw [if_neg hg]
      exact ⟨rfl, Or.inl rfl⟩
  · exact ⟨(h man).2, Or.inl (h man).1⟩

theorem announce_replay (env : Env) (pfrom : CNode) (ext : Bool) (a : DseePlus)
    (man : CMasternodeMan) (hnotown : isOwnUndefinedVin env a = false) :
    (ProcessAnnounce env pfrom ext a (ProcessAnnounce env pfrom ext a man).1).2.pushed = []
    ∧ ((ProcessAnnounce env pfrom ext a (ProcessAnnounce env pfrom ext a man).1).1
          = (ProcessAnnounce env pfrom ext a man).1
      ∨ ∃ i e, (ProcessAnnounce env pfrom ext a man).1.vMasternodes[i]? = some e
          ∧ e.vin.prevout = a.vin.prevout
          ∧ (ProcessAnnounce env pfrom ext a (ProcessAnnounce env pfrom ext a man).1).1
              = { (ProcessAnnounce env pfrom ext a man).1 with
                  vMasternodes := (ProcessAnnounce env pfrom ext a man).1.vMasternodes.set i
                    { e with lastTimeSeen := env.GetTime } }) := by
  rcases ProcessAnnounce_cases env pfrom ext a with h | h
  · rw [h _, h man]
    cases hf : man.Find a.vin with
    | none =>
      have hD : announceDispatch env pfrom ext a man = announceCreate env pfrom ext a man := by
        unfold announceDispatch; rw [hf]
      rcases announceCreate_cases env pfrom ext a man with ⟨h1, h2⟩ | h1
      · rw [hD, h1, hD]
        exact ⟨h2, Or.inl h1⟩
      · have hc : (createdEntry env ext (resetPayToScriptHash env ext a)).vin = a.vin := by
          rw [createdEntry_eq]
          show (resetPayToScriptHash env ext a).toDsee.vin = a.toDsee.vin
          rw [resetPayToScriptHash_toDsee]
        have hcs : (createdEntry env ext (resetPayToScriptHash env ext a)).sigTime
            = a.sigTime := by
          rw [createdEntry_eq]
          show (resetPayToScriptHash env ext a).toDsee.sigTime = a.toDsee.sigTime
          rw [resetPayToScriptHash_toDsee]
        have hadd : (man.Add (createdEntry env ext (resetPayToScriptHash env ext a))).2
            = { man with vMasternodes := man.vMasternodes
                  ++ [createdEntry env ext (resetPayToScriptHash env ext a)] } := by
          unfold CMasternodeMan.Add
          rw [show man.Find (createdEntry env ext (resetPayToScriptHash env ext a)).vin
            = man.Find a.vin from by unfold CMasternodeMan.Find; rw [hc], hf]
        rw [hD, h1, hadd]
        have hfind2 : CMasternodeMan.Find { man with vMasternodes := man.vMasternodes
              ++ [createdEntry env ext (resetPayToScriptHash env ext a)] } a.vin
            = some man.vMasternodes.length := by
          unfold CMasternodeMan.Find
          exact findIndex_append_fresh _ _ _ hf (by rw [hc])
        have hget : (man.vMasternodes
              ++ [createdEntry env ext (resetPayToScriptHash env ext a)])[man.vMasternodes.length]?
            = some (createdEntry env ext (resetPayToScriptHash env ext a)) := by
          simp
        rw [announceDispatch_known _ _ _ _ _ _ _ hfind2 hget hnotown,
          announceUpdate_stale _ _ _ _ _ _ _ (le_of_eq hcs.symm)]
        split
        · exact ⟨rfl, Or.inr ⟨_, _, hget, by rw [hc], rfl⟩⟩
        · exact ⟨rfl, Or.inl rfl⟩
    | some i =>
      obtain ⟨e, he, _⟩ := findIndex_eq_some _ _ _ hf
      have hD : announceDispatch env pfrom ext a man = announceUpdate env pfrom ext a man i e :=
        announceDispatch_known _ _ _ _ _ _ _ hf he hnotown
      rcases announceUpdate_cases env pfrom ext a man i e with h1 | ⟨e1, h1, hv, hseen⟩
      · rw [hD, h1]
        show (announceDispatch env pfrom ext a man).2.pushed = [] ∧ _
        rw [hD, h1]
        exact ⟨rfl, Or.inl rfl⟩
      · rw [hD, h1]
        have hlt : i < man.vMasternodes.length := by
          rcases Nat.lt_or_ge i man.vMasternodes.length with h | h
          · exact h
          · rw [List.getElem?_eq_none h] at he; cases he
        have hfind2 : CMasternodeMan.Find
            { man with vMasternodes := man.vMasternodes.set i e1 } a.vin = some i := by
          unfold CMasternodeMan.Find
          rw [findIndex_set_same_key _ _ _ e e1 he hv]
          exact hf
        have hget : (man.vMasternodes.set i e1)[i]? = some e1 := by
          simp [hlt]
        rw [announceDispatch_known _ _ _ _ _ _ _ hfind2 hget hnotown,
          announceUpdate_seen_now _ _ _ _ _ _ _ hseen]
        exact ⟨rfl, Or.inl rfl⟩
  · exact ⟨(h _).2, Or.inl (h _).1⟩

/-- C8 (amended): stale and replayed announcements. Let the local node not be a masternode
with undefined vin announcing itself. (1) If `e` is the entry `Find` returns for the
announced outpoint and the announced `sigTime` is less than or equal to `e.sigTime`, then
`ProcessMessage` pushes nothing and leaves the registry unchanged except that `e.lastTimeSeen`
may be set to the clock, which happens only when `count = -1`, the collateral pubkey
matches and `e` was not updated within 3600 s; every other field of every entry and the
rate-limit maps stay as they were. (2) Processing the same announcement a second time, on
the registry the first processing left, pushes nothing, so the two runs together relay at
most once, and the second run leaves that registry unchanged except that the `lastTimeSeen`
of the entry for the announced outpoint may be set to the clock. -/
theorem C8_stale_announce_inert (env : Env) (pfrom : CNode) (msg : NetMsg) (ext : Bool)
    (a : DseePlus) (man : CMasternodeMan)
    (hmsg : msg.announce = some (ext, a))
    (hnotown : isOwnUndefinedVin env a = false) :
    (∀ i e, man.Find a.vin = some i → man.vMasternodes[i]? = some e → a.sigTime ≤ e.sigTime →
      (ProcessMessage env pfrom msg man).2.pushed = []
      ∧ ((ProcessMessage env pfrom msg man).1 = man
        ∨ (a.count = -1 ∧ e.pubkey = a.pubkey ∧ e.UpdatedWithin env 3600 = false
          ∧ (ProcessMessage env pfrom msg man).1
              = { man with vMasternodes :=
                    man.vMasternodes.set i { e with lastTimeSeen := env.GetTime } })))
    ∧ ((ProcessMessage env pfrom msg (ProcessMessage env pfrom msg man).1).2.pushed = []
      ∧ ((ProcessMessage env pfrom msg (ProcessMessage env pfrom msg man).1).1
            = (ProcessMessage env pfrom msg man).1
        ∨ ∃ i e, (ProcessMessage env pfrom msg man).1.vMasternodes[i]? = some e
            ∧ e.vin.prevout = a.vin.prevout
            ∧ (ProcessMessage env pfrom msg (ProcessMessage env pfrom msg man).1).1
                = { (ProcessMessage env pfrom msg man).1 with
                    vMasternodes := (ProcessMessage env pfrom msg man).1.vMasternodes.set i
                      { e with lastTimeSeen := env.GetTime } })) := by
  by_cases hsync : env.IsBlockchainSynced = true
  · have hPM : ∀ m, ProcessMessage env pfrom msg m = ProcessAnnounce env pfrom ext a m :=
      fun m => ProcessMessage_announce env pfrom msg ext a m hsync hmsg
    constructor
    · intro i e hfind he hstale
      rw [hPM man]
      exact announce_stale_known env pfrom ext a man i e hfind he hnotown hstale
    · rw [hPM _, hPM man]
      exact announce_replay env pfrom ext a man hnotown
  · have hPM : ∀ m, ProcessMessage env pfrom msg m = (m, {}) := by
      intro m
      unfold ProcessMessage
      rw [if_pos (by simpa using hsync)]
    constructor
    · intro i e _ _ _
      rw [hPM man]
      exact ⟨rfl, Or.inl rfl⟩
    · rw [hPM _, hPM man]
      exact ⟨rfl, Or.inl rfl⟩

/-- Witness for C8: `staleAnnounce` against `sampleRegistry`, and `sampleAnnounce` processed
twice from the empty registry. -/
theorem C8_stale_announce_inert_witness :
    isOwnUndefinedVin sampleEnv staleAnnounce = false
    ∧ sampleRegistry.Find staleAnnounce.vin = some 0
    ∧ staleAnnounce.sigTime ≤ sampleEntry.sigTime
    ∧ (ProcessMessage sampleEnv samplePeer (NetMsg.dseePlus staleAnnounce)
        sampleRegistry).2.pushed = [] :=
  ⟨by decide, by decide, by decide,
   ((C8_stale_announce_inert sampleEnv samplePeer (NetMsg.dseePlus staleAnnounce) true
      staleAnnounce sampleRegistry rfl (by decide)).1 0 sampleEntry (by decide) (by decide)
      (by decide)).1⟩

/-- Counterexample to C8 as stated. `sampleRegistry` holds `sampleEntry` (`sigTime`
1700000000, last seen 1700000000) and the clock reads 1700010000. The older `staleAnnounce`
and the exact replay `sampleAnnounce` each change the registry: `lastTimeSeen` of the entry
becomes 1700010000. Processing `sampleAnnounce` twice from the empty registry ends in a
registry different from processing it once. On a masternode with undefined vin announcing
itself, the replay for the known outpoint is relayed again. -/
theorem C8_counterexample :
    sampleRegistry.vMasternodes[0]? = some sampleEntry
    ∧ staleAnnounce.vin.prevout = sampleEntry.vin.prevout
    ∧ staleAnnounce.sigTime ≤ sampleEntry.sigTime
    ∧ (ProcessMessage sampleEnv samplePeer (NetMsg.dseePlus staleAnnounce) sampleRegistry).1
        = { sampleRegistry with
            vMasternodes := [{ sampleEntry with lastTimeSeen := 1700010000 }] }
    ∧ (ProcessMessage sampleEnv samplePeer (NetMsg.dseePlus staleAnnounce) sampleRegistry).1
        ≠ sampleRegistry
    ∧ (ProcessMessage sampleEnv samplePeer (NetMsg.dseePlus sampleAnnounce) emptyRegistry).1
        = sampleRegistry
    ∧ (ProcessMessage sampleEnv samplePeer (NetMsg.dseePlus sampleAnnounce)
        (ProcessMessage sampleEnv samplePeer (NetMsg.dseePlus sampleAnnounce) emptyRegistry).1).1
        ≠ (ProcessMessage sampleEnv samplePeer (NetMsg.dseePlus sampleAnnounce) emptyRegistry).1
    ∧ (ProcessMessage ownUndefinedEnv samplePeer (NetMsg.dseePlus sampleAnnounce)
        sampleRegistry).2.pushed ≠ [] := by
  refine ⟨by decide, by decide, by decide, by decide, by decide, by decide, by decide,
    by decide⟩


/-- C9: the entry list after `CheckAndRemove` is the list obtained by running `Check` on
every entry and then dropping each entry whose state is `MASTERNODE_REMOVE` or
`MASTERNODE_VIN_SPENT` or whose protocol version is below `nMasternodeMinProtocol`; the
entries kept are the checked entries themselves, in their original relative order. -/
theorem C9_CheckAndRemove_entries (env : Env) (man : CMasternodeMan) :
    (man.CheckAndRemove env).vMasternodes
      = (man.vMasternodes.map (CMasternode.Check env)).filter
          (fun mn => decide (mn.activeState ≠ MASTERNODE_REMOVE
            ∧ mn.activeState ≠ MASTERNODE_VIN_SPENT
            ∧ env.nMasternodeMinProtocol ≤ mn.protocolVersion))
    ∧ (man.CheckAndRemove env).vMasternodes.Sublist
        (man.vMasternodes.map (CMasternode.Check env)) := by
  have h : (man.CheckAndRemove env).vMasternodes
      = (man.vMasternodes.map (CMasternode.Check env)).filter
          (fun mn => decide (mn.activeState ≠ MASTERNODE_REMOVE
            ∧ mn.activeState ≠ MASTERNODE_VIN_SPENT
            ∧ env.nMasternodeMinProtocol ≤ mn.protocolVersion)) := by
    rw [CheckAndRemove_entries]
    congr 1
    funext mn
    simp only [CMasternodeMan.isInactive]
    rcases lt_or_le mn.protocolVersion env.nMasternodeMinProtocol with h3 | h3
    · simp [h3, not_le.mpr h3]
    · simp [h3, not_lt.mpr h3]
  exact ⟨h, h ▸ List.filter_sublist _⟩

/-- C10: expiry freshness. With `Check` as section 4.1 specifies it, after `CheckAndRemove`
no remaining entry with `now − lastTimeSeen > 65 * 60` is in state `ENABLED` or
`PRE_ENABLED`. -/
theorem C10_expiry_freshness (env : Env) (man : CMasternodeMan) (mn : CMasternode)
    (hmem : mn ∈ (man.CheckAndRemove env).vMasternodes)
    (hexp : env.GetTime - mn.lastTimeSeen > 65 * 60) :
    mn.activeState ≠ MASTERNODE_ENABLED ∧ mn.activeState ≠ MASTERNODE_PRE_ENABLED := by
  rw [CheckAndRemove_entries, List.mem_filter, List.mem_map] at hmem
  obtain ⟨⟨m0, _, rfl⟩, hkeep⟩ := hmem
  have hseen : (m0.Check env).lastTimeSeen = m0.lastTimeSeen := CMasternode.Check_lastTimeSeen _ _
  rw [hseen] at hexp
  have hexp' : env.GetTime - m0.lastTimeSeen > EXPIRY_SECONDS := hexp
  unfold CMasternode.Check at hkeep ⊢
  by_cases h1 : m0.activeState = MASTERNODE_REMOVE
  · rw [if_pos h1] at hkeep
    simp [CMasternodeMan.isInactive, h1] at hkeep
  · rw [if_neg h1, if_pos hexp']
    exact ⟨by simp, by simp⟩

/-- Witness for C10: `sampleEntry`, last seen 10000 s ago, survives the sweep as `EXPIRED`. -/
theorem C10_expiry_freshness_witness :
    { sampleEntry with activeState := MASTERNODE_EXPIRED }
        ∈ (sampleRegistry.CheckAndRemove sampleEnv).vMasternodes
    ∧ sampleEnv.GetTime - sampleEntry.lastTimeSeen > 65 * 60
    ∧ MASTERNODE_EXPIRED ≠ MASTERNODE_ENABLED ∧ MASTERNODE_EXPIRED ≠ MASTERNODE_PRE_ENABLED :=
  ⟨by rw [CheckAndRemove_entries]; decide, by decide,
   C10_expiry_freshness sampleEnv sampleRegistry
     { sampleEntry with activeState := MASTERNODE_EXPIRED }
     (by rw [CheckAndRemove_entries]; decide) (by decide)⟩


theorem purgeMap_eq_filter {K : Type} (env : Env) (m : List (K × Int)) :
    CMasternodeMan.purgeMap env m = m.filter (fun kv => decide (env.GetTime ≤ kv.2)) := by
  induction m with
  | nil => rfl
  | cons kv rest ih =>
    unfold CMasternodeMan.purgeMap
    by_cases h : kv.2 < env.GetTime
    · rw [if_pos h, ih, List.filter_cons_of_neg (by simpa using h)]
    · rw [if_neg h, ih, List.filter_cons_of_pos (by simpa using h)]

/-- C11: after `CheckAndRemove` each of the three rate-limit maps holds exactly the
key/deadline pairs it held before whose deadline is at least `GetTime()`, in their former
order: no pair with a deadline before the clock remains and no pair with a deadline at or
after the clock is removed. -/
theorem C11_rate_limit_maps_purged (env : Env) (man : CMasternodeMan) :
    (man.CheckAndRemove env).mAskedUsForMasternodeList
        = man.mAskedUsForMasternodeList.filter (fun kv => decide (env.GetTime ≤ kv.2))
    ∧ (man.CheckAndRemove env).mWeAskedForMasternodeList
        = man.mWeAskedForMasternodeList.filter (fun kv => decide (env.GetTime ≤ kv.2))
    ∧ (man.CheckAndRemove env).mWeAskedForMasternodeListEntry
        = man.mWeAskedForMasternodeListEntry.filter (fun kv => decide (env.GetTime ≤ kv.2))
    ∧ (∀ kv, kv ∈ (man.CheckAndRemove env).mAskedUsForMasternodeList
        ↔ kv ∈ man.mAskedUsForMasternodeList ∧ env.GetTime ≤ kv.2)
    ∧ (∀ kv, kv ∈ (man.CheckAndRemove env).mWeAskedForMasternodeList
        ↔ kv ∈ man.mWeAskedForMasternodeList ∧ env.GetTime ≤ kv.2)
    ∧ (∀ kv, kv ∈ (man.CheckAndRemove env).mWeAskedForMasternodeListEntry
        ↔ kv ∈ man.mWeAskedForMasternodeListEntry ∧ env.GetTime ≤ kv.2) := by
  have h1 : (man.CheckAndRemove env).mAskedUsForMasternodeList
      = man.mAskedUsForMasternodeList.filter (fun kv => decide (env.GetTime ≤ kv.2)) := by
    simp [CMasternodeMan.CheckAndRemove, CMasternodeMan.Check, purgeMap_eq_filter]
  have h2 : (man.CheckAndRemove env).mWeAskedForMasternodeList
      = man.mWeAskedForMasternodeList.filter (fun kv => decide (env.GetTime ≤ kv.2)) := by
    simp [CMasternodeMan.CheckAndRemove, CMasternodeMan.Check, purgeMap_eq_filter]
  have h3 : (man.CheckAndRemove env).mWeAskedForMasternodeListEntry
      = man.mWeAskedForMasternodeListEntry.filter (fun kv => decide (env.GetTime ≤ kv.2)) := by
    simp [CMasternodeMan.CheckAndRemove, CMasternodeMan.Check, purgeMap_eq_filter]
  refine ⟨h1, h2, h3, ?_, ?_, ?_⟩
  · intro kv; rw [h1]; simp [List.mem_filter]
  · intro kv; rw [h2]; simp [List.mem_filter]
  · intro kv; rw [h3]; simp [List.mem_filter]

theorem eligible_iff (minProtocol : Int) (m : CMasternode) :
    eligible minProtocol m = true
      ↔ ¬ (m.protocolVersion < minProtocol ∨ m.IsEnabled = false) := by
  unfold eligible
  by_cases h1 : m.protocolVersion < minProtocol <;> cases h2 : m.IsEnabled <;> simp [h1]

theorem eligible_iff_and (minProtocol : Int) (m : CMasternode) :
    eligible minProtocol m = true ↔ m.IsEnabled = true ∧ minProtocol ≤ m.protocolVersion := by
  rw [eligible_iff]
  cases h2 : m.IsEnabled <;> simp [not_lt]

theorem WinnerPart_append (env : Env) (mod nBlockHeight minProtocol : Int)
    (pre : List CMasternode) (x : CMasternode) (sc : Nat) (w : Option Nat)
    (h : WinnerPart env mod nBlockHeight minProtocol pre sc w) :
    WinnerPart env mod nBlockHeight minProtocol (pre ++ [x]) sc w := by
  cases w with
  | none => exact h
  | some k =>
    obtain ⟨m, hm, he, hs, hp, hfirst⟩ := h
    have hk : k < pre.length := by
      rcases Nat.lt_or_ge k pre.length with h | h
      · exact h
      · rw [List.getElem?_eq_none h] at hm; cases hm
    refine ⟨m, by rw [List.getElem?_append_left hk]; exact hm, he, hs, hp, ?_⟩
    intro j m' hj hm' he'
    have hjl : j < pre.length := by omega
    rw [List.getElem?_append_left hjl] at hm'
    exact hfirst j m' hj hm' he'

theorem currentLoop_spec (env : Env) (mod nBlockHeight minProtocol : Int)
    (rest pre : List CMasternode) (score : Nat) (w : Option Nat)
    (hinv : WinnerInv env mod nBlockHeight minProtocol pre score w) :
    ∃ score', WinnerInv env mod nBlockHeight minProtocol
      (pre ++ rest.map (CMasternode.Check env)) score'
      (currentLoop env mod nBlockHeight minProtocol rest pre.length score w) := by
  induction rest generalizing pre score w with
  | nil => exact ⟨score, by simpa [currentLoop] using hinv⟩
  | cons mn rest ih =>
    have happ : pre ++ (mn :: rest).map (CMasternode.Check env)
        = (pre ++ [mn.Check env]) ++ rest.map (CMasternode.Check env) := by simp
    have hlen : (pre ++ [mn.Check env]).length = pre.length + 1 := by simp
    rw [happ]
    unfold currentLoop
    simp only
    by_cases hel : (mn.Check env).protocolVersion < minProtocol ∨ (mn.Check env).IsEnabled = false
    · rw [if_pos hel]
      have hnew : WinnerInv env mod nBlockHeight minProtocol (pre ++ [mn.Check env]) score w := by
        refine ⟨?_, WinnerPart_append _ _ _ _ _ _ _ _ hinv.2⟩
        intro m hm he
        rcases List.mem_append.mp hm with h | h
        · exact hinv.1 m h he
        · simp at h; subst h
          exact absurd hel ((eligible_iff _ _).mp he)
      have := ih _ _ _ hnew
      rw [hlen] at this
      exact this
    · rw [if_neg hel]
      by_cases hgt : score32 env mod nBlockHeight (mn.Check env) > score
      · rw [if_pos hgt]
        have hnew : WinnerInv env mod nBlockHeight minProtocol (pre ++ [mn.Check env])
            (score32 env mod nBlockHeight (mn.Check env)) (some pre.length) := by
          refine ⟨?_, ?_⟩
          · intro m hm he
            rcases List.mem_append.mp hm with h | h
            · exact le_of_lt (lt_of_le_of_lt (hinv.1 m h he) hgt)
            · simp at h; subst h; exact le_refl _
          · refine ⟨mn.Check env, by simp, (eligible_iff _ _).mpr hel, rfl, by omega, ?_⟩
            intro j m' hj hm' he'
            rw [List.getElem?_append_left hj] at hm'
            exact lt_of_le_of_lt (hinv.1 m' (List.getElem?_mem hm') he') hgt
        have := ih _ _ _ hnew
        rw [hlen] at this
        exact this
      · rw [if_neg hgt]
        have hnew : WinnerInv env mod nBlockHeight minProtocol (pre ++ [mn.Check env]) score w := by
          refine ⟨?_, WinnerPart_append _ _ _ _ _ _ _ _ hinv.2⟩
          intro m hm he
          rcases List.mem_append.mp hm with h | h
          · exact hinv.1 m h he
          · simp at h; subst h; exact not_lt.mp hgt
        have := ih _ _ _ hnew
        rw [hlen] at this
        exact this

theorem GetCurrentMasterNode_spec (env : Env) (man : CMasternodeMan)
    (mod nBlockHeight minProtocol : Int) :
    ∃ score, WinnerInv env mod nBlockHeight minProtocol
      (man.GetCurrentMasterNode env mod nBlockHeight minProtocol).2.vMasternodes score
      (man.GetCurrentMasterNode env mod nBlockHeight minProtocol).1 := by
  have h0 : WinnerInv env mod nBlockHeight minProtocol [] 0 none :=
    ⟨fun m hm => (by cases hm), rfl⟩
  have h := currentLoop_spec env mod nBlockHeight minProtocol man.vMasternodes [] 0 none h0
  simpa [CMasternodeMan.GetCurrentMasterNode, CMasternodeMan.Check] using h

/-- C12: if `GetCurrentMasterNode` returns an entry `w` (an index into the vector after the
call, where every entry has been checked), then `w` is enabled with
`protocolVersion ≥ minProtocol`, and the 32-bit score of `w` is greater than or equal to
that of every enabled entry with `protocolVersion ≥ minProtocol`. -/
theorem C12_winner_is_maximal (env : Env) (man : CMasternodeMan)
    (mod nBlockHeight minProtocol : Int) (i : Nat)
    (hw : (man.GetCurrentMasterNode env mod nBlockHeight minProtocol).1 = some i) :
    ∃ w, (man.GetCurrentMasterNode env mod nBlockHeight minProtocol).2.vMasternodes[i]? = some w
      ∧ w.activeState = MASTERNODE_ENABLED ∧ minProtocol ≤ w.protocolVersion
      ∧ ∀ m ∈ (man.GetCurrentMasterNode env mod nBlockHeight minProtocol).2.vMasternodes,
          m.activeState = MASTERNODE_ENABLED → minProtocol ≤ m.protocolVersion →
          score32 env mod nBlockHeight m ≤ score32 env mod nBlockHeight w := by
  obtain ⟨score, hbound, hpart⟩ := GetCurrentMasterNode_spec env man mod nBlockHeight minProtocol
  rw [hw] at hpart
  obtain ⟨w, hget, hel, hs, _, _⟩ := hpart
  have hel' := (eligible_iff_and _ _).mp hel
  refine ⟨w, hget, by simpa [CMasternode.IsEnabled] using hel'.1, hel'.2, ?_⟩
  intro m hm hen hpr
  rw [hs]
  exact hbound m hm ((eligible_iff_and _ _).mpr ⟨by simpa [CMasternode.IsEnabled] using hen, hpr⟩)

/-- Witness for C12: of the two fresh entries the second has the greater score. -/
theorem C12_winner_is_maximal_witness :
    (pairRegistry.GetCurrentMasterNode sampleEnv 1 50 70047).1 = some 1
    ∧ ∃ w, (pairRegistry.GetCurrentMasterNode sampleEnv 1 50 70047).2.vMasternodes[1]? = some w
      ∧ w.activeState = MASTERNODE_ENABLED ∧ (70047 : Int) ≤ w.protocolVersion
      ∧ ∀ m ∈ (pairRegistry.GetCurrentMasterNode sampleEnv 1 50 70047).2.vMasternodes,
          m.activeState = MASTERNODE_ENABLED → (70047 : Int) ≤ m.protocolVersion →
          score32 sampleEnv 1 50 m ≤ score32 sampleEnv 1 50 w :=
  ⟨by decide, C12_winner_is_maximal sampleEnv pairRegistry 1 50 70047 1 (by decide)⟩

/-- C13 (amended): ties of the winner. The entry `GetCurrentMasterNode` returns is the
eligible (enabled, `protocolVersion ≥ minProtocol`) entry of maximal 32-bit score that comes
first in vector order: every eligible entry before it scores strictly less, every eligible
entry scores at most as much. Hence a registry holding the same entries in another order
returns the same winner whenever no other eligible entry shares the winner's score. -/
theorem C13_winner_first_of_maximal (env : Env) (man : CMasternodeMan)
    (mod nBlockHeight minProtocol : Int) (i : Nat)
    (hw : (man.GetCurrentMasterNode env mod nBlockHeight minProtocol).1 = some i) :
    ∃ w, (man.GetCurrentMasterNode env mod nBlockHeight minProtocol).2.vMasternodes[i]? = some w
      ∧ eligible minProtocol w = true
      ∧ (∀ m ∈ (man.GetCurrentMasterNode env mod nBlockHeight minProtocol).2.vMasternodes,
          eligible minProtocol m = true →
          score32 env mod nBlockHeight m ≤ score32 env mod nBlockHeight w)
      ∧ (∀ j m, j < i →
          (man.GetCurrentMasterNode env mod nBlockHeight minProtocol).2.vMasternodes[j]? = some m →
          eligible minProtocol m = true →
          score32 env mod nBlockHeight m < score32 env mod nBlockHeight w)
      ∧ ((∀ m ∈ (man.GetCurrentMasterNode env mod nBlockHeight minProtocol).2.vMasternodes,
            eligible minProtocol m = true → m ≠ w →
            score32 env mod nBlockHeight m < score32 env mod nBlockHeight w) →
          ∀ man2 : CMasternodeMan, man2.vMasternodes.Perm man.vMasternodes →
            ∃ i2, (man2.GetCurrentMasterNode env mod nBlockHeight minProtocol).1 = some i2
              ∧ (man2.GetCurrentMasterNode env mod nBlockHeight minProtocol).2.vMasternodes[i2]?
                  = some w) := by
  obtain ⟨score, hbound, hpart⟩ := GetCurrentMasterNode_spec env man mod nBlockHeight minProtocol
  rw [hw] at hpart
  obtain ⟨w, hget, hel, hs, hpos, hfirst⟩ := hpart
  refine ⟨w, hget, hel, ?_, ?_, ?_⟩
  · intro m hm he; rw [hs]; exact hbound m hm he
  · intro j m hj hm he; rw [hs]; exact hfirst j m hj hm he
  · intro huniq man2 hperm
    obtain ⟨score2, hbound2, hpart2⟩ :=
      GetCurrentMasterNode_spec env man2 mod nBlockHeight minProtocol
    have hp : (man2.GetCurrentMasterNode env mod nBlockHeight minProtocol).2.vMasternodes.Perm
        (man.GetCurrentMasterNode env mod nBlockHeight minProtocol).2.vMasternodes := by
      simp only [CMasternodeMan.GetCurrentMasterNode, CMasternodeMan.Check]
      exact hperm.map _
    have hwmem : w ∈ (man2.GetCurrentMasterNode env mod nBlockHeight minProtocol).2.vMasternodes :=
      hp.symm.subset (List.getElem?_mem hget)
    have hle := hbound2 w hwmem hel
    cases hres : (man2.GetCurrentMasterNode env mod nBlockHeight minProtocol).1 with
    | none =>
      rw [hres] at hpart2
      have : score2 = 0 := hpart2
      omega
    | some i2 =>
      rw [hres] at hpart2
      obtain ⟨w2, hget2, hel2, hs2, _, _⟩ := hpart2
      refine ⟨i2, rfl, ?_⟩
      by_cases heq : w2 = w
      · rw [← heq]; exact hget2
      · have := huniq w2 (hp.subset (List.getElem?_mem hget2)) hel2 heq
        omega

/-- Witness for C13: the winner among the two fresh entries. -/
theorem C13_winner_first_of_maximal_witness :
    (pairRegistry.GetCurrentMasterNode sampleEnv 1 50 70047).1 = some 1
    ∧ ∃ w, (pairRegistry.GetCurrentMasterNode sampleEnv 1 50 70047).2.vMasternodes[1]? = some w
      ∧ eligible 70047 w = true :=
  ⟨by decide,
   let ⟨w, h1, h2, _⟩ := C13_winner_first_of_maximal sampleEnv pairRegistry 1 50 70047 1
     (by decide)
   ⟨w, h1, h2⟩⟩

/-- Counterexample to C13 as stated: on a chain where the two fresh entries have the same
32-bit score, both eligible, the registry holding them in one order returns the entry for
outpoint `(3, 0)` and the registry holding them in the other order returns the entry for
outpoint `(9, 0)`: the first in vector order wins, not the lower or the higher outpoint. -/
theorem C13_counterexample :
    pairRegistrySwapped.vMasternodes.Perm pairRegistry.vMasternodes
    ∧ score32 tieEnv 1 50 (freshEntry 3) = score32 tieEnv 1 50 (freshEntry 9)
    ∧ (pairRegistry.GetCurrentMasterNode tieEnv 1 50 70047).1 = some 0
    ∧ ((pairRegistry.GetCurrentMasterNode tieEnv 1 50 70047).2.vMasternodes[0]?).map
        (fun w => w.vin.prevout) = some ⟨3, 0⟩
    ∧ (pairRegistrySwapped.GetCurrentMasterNode tieEnv 1 50 70047).1 = some 0
    ∧ ((pairRegistrySwapped.GetCurrentMasterNode tieEnv 1 50 70047).2.vMasternodes[0]?).map
        (fun w => w.vin.prevout) = some ⟨9, 0⟩
    ∧ (∀ m ∈ (pairRegistry.GetCurrentMasterNode tieEnv 1 50 70047).2.vMasternodes,
        eligible 70047 m = true) := by
  refine ⟨List.Perm.swap _ _ _, by decide, by decide, by decide, by decide, by decide, by decide⟩

theorem filterMap_getElem?_range {α : Type} (v : List α) :
    (List.range v.length).filterMap (fun i => v[i]?) = v := by
  induction v with
  | nil => rfl
  | cons x xs ih =>
    have hf : ((fun i => (x :: xs)[i]?) ∘ Nat.succ) = (fun i => xs[i]?) := by
      funext i
      simp
    rw [List.length_cons, List.range_succ_eq_map, List.filterMap_cons]
    simp only [List.getElem?_cons_zero, List.filterMap_map, hf, ih]

theorem sortScores_perm {α : Type} (env : Env) (hsort : SortContract env) (v : List (Nat × α)) :
    (sortScores env v).Perm v := by
  unfold sortScores
  have h := (hsort (v.map Prod.fst)).1
  have h2 := h.filterMap (fun i => v[i]?)
  rw [List.length_map, filterMap_getElem?_range] at h2
  exact h2

theorem sortScores_sorted {α : Type} (env : Env) (hsort : SortContract env)
    (v : List (Nat × α)) :
    (sortScores env v).Pairwise (fun a b => b.1 ≤ a.1) := by
  unfold sortScores
  rw [List.pairwise_filterMap]
  refine (hsort (v.map Prod.fst)).2.imp ?_
  intro i j hij a ha b hb
  have hi : (v.map Prod.fst).getD i 0 = a.1 := by
    simp only [Option.mem_def] at ha
    simp [List.getD_eq_getElem?_getD, ha]
  have hj : (v.map Prod.fst).getD j 0 = b.1 := by
    simp only [Option.mem_def] at hb
    simp [List.getD_eq_getElem?_getD, hb]
  rw [hi, hj] at hij
  exact hij

theorem stableOrder_contract (ks : List Nat) :
    (stableOrder ks).Perm (List.range ks.length)
      ∧ (stableOrder ks).Pairwise (fun i j => ks.getD j 0 ≤ ks.getD i 0) := by
  unfold stableOrder
  refine ⟨List.perm_insertionSort _ _, ?_⟩
  haveI : IsTotal Nat (fun i j => ks.getD j 0 ≤ ks.getD i 0) := ⟨fun a b => le_total _ _⟩
  haveI : IsTrans Nat (fun i j => ks.getD j 0 ≤ ks.getD i 0) :=
    ⟨fun a b c hab hbc => le_trans hbc hab⟩
  exact List.sorted_insertionSort _ _

theorem sampleEnv_sortContract : SortContract sampleEnv := fun ks => stableOrder_contract ks

theorem tieEnv_sortContract : SortContract tieEnv := fun ks => stableOrder_contract ks

namespace CMasternode
@[simp] theorem Check_protocolVersion (env : Env) (mn : CMasternode) :
    (mn.Check env).protocolVersion = mn.protocolVersion := by
  unfold Check; split_ifs <;> rfl
end CMasternode

theorem rankVisit_vin (env : Env) (minProtocol : Int) (f : Bool) (mn : CMasternode) :
    (rankVisit env minProtocol f mn).vin = mn.vin := by
  unfold rankVisit
  split_ifs <;> simp

theorem rankScores_eq (env : Env) (nBlockHeight minProtocol : Int) (f : Bool)
    (l : List CMasternode) :
    rankScores env nBlockHeight minProtocol f l
      = (countedEntries env minProtocol f l).map
          (fun m => (score32 env 1 nBlockHeight m, m.vin)) := by
  induction l with
  | nil => rfl
  | cons mn rest ih =>
    unfold rankScores countedEntries
    rw [List.map_cons]
    unfold countedEntries at ih
    by_cases h1 : mn.protocolVersion < minProtocol
    · rw [if_pos h1, ih, List.filter_cons_of_neg]
      simp [rankVisit, h1]
    · rw [if_neg h1]
      cases f with
      | true =>
        simp only [if_true]
        by_cases h2 : (mn.Check env).IsEnabled = false
        · rw [if_pos h2, ih, List.filter_cons_of_neg]
          simp [rankVisit, h1, h2]
        · rw [if_neg h2, ih, List.filter_cons_of_pos]
          · simp [rankVisit, h1]
          · simp at h2
            simp [rankVisit, h1, h2, not_lt.mp h1]
      | false =>
        simp only [Bool.false_eq_true, if_false]
        rw [ih, List.filter_cons_of_pos]
        · simp [rankVisit, h1]
        · simp [rankVisit, h1, not_lt.mp h1]

theorem rankLoop_spec (vin : CTxIn) (L : List (Nat × CTxIn)) (c : Int) (hc : 0 ≤ c) :
    (rankLoop vin L c = -1 ∧ ∀ s ∈ L, s.2 ≠ vin)
    ∨ (∃ (k : Nat) (s : Nat × CTxIn), L[k]? = some s ∧ s.2 = vin
        ∧ rankLoop vin L c = c + (k : Int) + 1) := by
  induction L generalizing c with
  | nil => exact Or.inl ⟨rfl, fun s hs => by cases hs⟩
  | cons x xs ih =>
    unfold rankLoop
    by_cases hx : x.2 = vin
    · rw [if_pos hx]
      exact Or.inr ⟨0, x, by simp, hx, by simp⟩
    · rw [if_neg hx]
      rcases ih (c + 1) (by omega) with ⟨h1, h2⟩ | ⟨k, s, hk, hs, hr⟩
      · refine Or.inl ⟨h1, ?_⟩
        intro s hs
        rcases List.mem_cons.mp hs with h | h
        · rw [h]; exact hx
        · exact h2 s h
      · refine Or.inr ⟨k + 1, s, by simpa using hk, hs, ?_⟩
        rw [hr]; push_cast; ring

theorem sorted_countP_gt_le {α : Type} (L : List (Nat × α)) (k : Nat) (s : Nat × α)
    (hsorted : L.Pairwise (fun a b => b.1 ≤ a.1)) (hk : L[k]? = some s) :
    L.countP (fun p => decide (s.1 < p.1)) ≤ k := by
  have hlt : k < L.length := by
    rcases Nat.lt_or_ge k L.length with h | h
    · exact h
    · rw [List.getElem?_eq_none h] at hk; cases hk
  have hks : L[k] = s := by
    rw [List.getElem?_eq_getElem hlt] at hk; exact Option.some.inj hk
  rw [← List.take_append_drop k L, List.countP_append]
  have h1 : (L.take k).countP (fun p => decide (s.1 < p.1)) ≤ k := by
    refine le_trans (List.countP_le_length _) ?_
    simp
  have h2 : (L.drop k).countP (fun p => decide (s.1 < p.1)) = 0 := by
    rw [List.countP_eq_zero]
    intro p hp
    obtain ⟨j, hj⟩ := List.mem_iff_getElem?.mp hp
    rw [List.getElem?_drop] at hj
    have hjl : k + j < L.length := by
      rcases Nat.lt_or_ge (k + j) L.length with h | h
      · exact h
      · rw [List.getElem?_eq_none h] at hj; cases hj
    have hpj : L[k + j] = p := by
      rw [List.getElem?_eq_getElem hjl] at hj; exact Option.some.inj hj
    have hle : p.1 ≤ s.1 := by
      rcases Nat.eq_zero_or_pos j with h0 | hpos
      · subst h0
        have : L[k] = p := by simpa using hpj
        rw [← this, hks]
      · have := (List.pairwise_iff_getElem.mp hsorted) k (k + j) hlt hjl (by omega)
        rw [hks, hpj] at this
        exact this
    simpa using hle
  omega

theorem sorted_countP_ge_ge {α : Type} (L : List (Nat × α)) (k : Nat) (s : Nat × α)
    (hsorted : L.Pairwise (fun a b => b.1 ≤ a.1)) (hk : L[k]? = some s) :
    k + 1 ≤ L.countP (fun p => decide (s.1 ≤ p.1)) := by
  have hlt : k < L.length := by
    rcases Nat.lt_or_ge k L.length with h | h
    · exact h
    · rw [List.getElem?_eq_none h] at hk; cases hk
  have hks : L[k] = s := by
    rw [List.getElem?_eq_getElem hlt] at hk; exact Option.some.inj hk
  have h1 : (L.take (k + 1)).countP (fun p => decide (s.1 ≤ p.1)) = (L.take (k + 1)).length := by
    rw [List.countP_eq_length]
    intro p hp
    obtain ⟨j, hj⟩ := List.mem_iff_getElem?.mp hp
    rw [List.getElem?_take] at hj
    have hjk : j < k + 1 := by
      by_contra hcon
      rw [if_neg hcon] at hj
      cases hj
    rw [if_pos hjk] at hj
    have hjl : j < L.length := by omega
    have hpj : L[j] = p := by
      rw [List.getElem?_eq_getElem hjl] at hj; exact Option.some.inj hj
    have hle : s.1 ≤ p.1 := by
      rcases Nat.lt_or_ge j k with h | h
      · have := (List.pairwise_iff_getElem.mp hsorted) j k hjl hlt h
        rw [hks, hpj] at this
        exact this
      · have hjk' : j = k := by omega
        subst hjk'
        rw [← hpj, hks]
    simpa using hle
  have h2 : (L.take (k + 1)).length = k + 1 := by
    rw [List.length_take]; omega
  have h3 := (List.take_sublist (k + 1) L).countP_le (p := fun p => decide (s.1 ≤ p.1))
  omega

theorem countedEntries_vin_nodup (env : Env) (minProtocol : Int) (f : Bool)
    (man : CMasternodeMan) (huniq : UniqueOutpoints man) :
    ((countedEntries env minProtocol f man.vMasternodes).map (fun m => m.vin)).Nodup := by
  have h := (uniqueOutpoints_iff man).mp huniq
  have hsub : ((countedEntries env minProtocol f man.vMasternodes).map
      (fun m => m.vin.prevout)).Sublist (man.vMasternodes.map (fun e => e.vin.prevout)) := by
    have h1 : ((man.vMasternodes.map (rankVisit env minProtocol f)).map
        (fun m => m.vin.prevout)) = man.vMasternodes.map (fun e => e.vin.prevout) := by
      rw [List.map_map]
      congr 1
      funext m
      simp [rankVisit_vin]
    rw [← h1]
    exact (List.filter_sublist _).map _
  have h2 := h.sublist hsub
  have h3 : (countedEntries env minProtocol f man.vMasternodes).map (fun m => m.vin.prevout)
      = ((countedEntries env minProtocol f man.vMasternodes).map (fun m => m.vin)).map
          (fun v => v.prevout) := by
    rw [List.map_map]; rfl
  rw [h3] at h2
  exact List.Nodup.of_map _ h2

/-- C14 (amended): `GetMasternodeRank`, for any sorting routine that meets the `std::sort`
contract and any registry with unique outpoints. It returns `-1` when the block hash at the
height is unknown. Otherwise it returns `-1` exactly when no counted entry
(`protocolVersion ≥ minProtocol`, and enabled when `fOnlyActive`) has a `vin` equal to the
queried input as a whole; and for the counted entry whose `vin` equals the query it returns
`r` with `1 ≤ r ≤ n` (`n` the number of counted entries) such that fewer than `r` counted
entries have a strictly greater modulus-1 score and at least `r` counted entries have a
score greater than or equal to that entry's score. -/
theorem C14_rank_position (env : Env) (man : CMasternodeMan) (vin : CTxIn)
    (nBlockHeight minProtocol : Int) (fOnlyActive : Bool)
    (hsort : SortContract env) (huniq : UniqueOutpoints man) :
    (env.GetBlockHash nBlockHeight = none →
      (man.GetMasternodeRank env vin nBlockHeight minProtocol fOnlyActive).1 = -1)
    ∧ (env.GetBlockHash nBlockHeight ≠ none →
      ((man.GetMasternodeRank env vin nBlockHeight minProtocol fOnlyActive).1 = -1
        ↔ ∀ m ∈ countedEntries env minProtocol fOnlyActive man.vMasternodes, m.vin ≠ vin)
      ∧ ∀ m ∈ countedEntries env minProtocol fOnlyActive man.vMasternodes, m.vin = vin →
          1 ≤ (man.GetMasternodeRank env vin nBlockHeight minProtocol fOnlyActive).1
          ∧ (man.GetMasternodeRank env vin nBlockHeight minProtocol fOnlyActive).1
              ≤ (countedEntries env minProtocol fOnlyActive man.vMasternodes).length
          ∧ (((countedEntries env minProtocol fOnlyActive man.vMasternodes).countP
                (fun t => decide (score32 env 1 nBlockHeight m < score32 env 1 nBlockHeight t))
                : Nat) : Int)
              < (man.GetMasternodeRank env vin nBlockHeight minProtocol fOnlyActive).1
          ∧ (man.GetMasternodeRank env vin nBlockHeight minProtocol fOnlyActive).1
              ≤ (((countedEntries env minProtocol fOnlyActive man.vMasternodes).countP
                (fun t => decide (score32 env 1 nBlockHeight m ≤ score32 env 1 nBlockHeight t))
                : Nat) : Int)) := by
  constructor
  · intro hnone
    unfold CMasternodeMan.GetMasternodeRank
    rw [hnone]
  · intro hsome
    obtain ⟨hash, hhash⟩ := Option.ne_none_iff_exists'.mp hsome
    have hr : (man.GetMasternodeRank env vin nBlockHeight minProtocol fOnlyActive).1
        = rankLoop vin (sortScores env
            (rankScores env nBlockHeight minProtocol fOnlyActive man.vMasternodes)) 0 := by
      unfold CMasternodeMan.GetMasternodeRank
      rw [hhash]
    rw [hr]
    generalize hC : countedEntries env minProtocol fOnlyActive man.vMasternodes = C
    have hS : rankScores env nBlockHeight minProtocol fOnlyActive man.vMasternodes
        = C.map (fun m => (score32 env 1 nBlockHeight m, m.vin)) := by
      rw [rankScores_eq, hC]
    rw [hS]
    generalize hL : sortScores env (C.map (fun m => (score32 env 1 nBlockHeight m, m.vin))) = L
    have hperm : L.Perm (C.map (fun m => (score32 env 1 nBlockHeight m, m.vin))) := by
      rw [← hL]; exact sortScores_perm env hsort _
    have hsorted : L.Pairwise (fun a b => b.1 ≤ a.1) := by
      rw [← hL]; exact sortScores_sorted env hsort _
    have hnodup : (L.map (fun p => p.2)).Nodup := by
      have h1 := countedEntries_vin_nodup env minProtocol fOnlyActive man huniq
      rw [hC] at h1
      have h2 : (C.map (fun m => (score32 env 1 nBlockHeight m, m.vin))).map (fun p => p.2)
          = C.map (fun m => m.vin) := by
        rw [List.map_map]; rfl
      exact (hperm.map (fun p => p.2)).nodup_iff.mpr (h2 ▸ h1)
    have hmemL : ∀ m ∈ C, (score32 env 1 nBlockHeight m, m.vin) ∈ L := by
      intro m hm
      exact hperm.symm.subset (List.mem_map_of_mem _ hm)
    rcases rankLoop_spec vin L 0 (le_refl _) with ⟨h1, h2⟩ | ⟨k, s, hk, hs, hrk⟩
    · refine ⟨⟨fun _ m hm hv => h2 _ (hmemL m hm) hv, fun _ => h1⟩, ?_⟩
      intro m hm hv
      exact absurd hv (h2 _ (hmemL m hm))
    · have hklt : k < L.length := by
        rcases Nat.lt_or_ge k L.length with h | h
        · exact h
        · rw [List.getElem?_eq_none h] at hk; cases hk
      have hlen : L.length = C.length := by
        rw [hperm.length_eq, List.length_map]
      have hsL : s ∈ L := List.getElem?_mem hk
      constructor
      · constructor
        · intro hneg
          rw [hrk] at hneg
          omega
        · intro hall
          obtain ⟨m, hm, hms⟩ := List.mem_map.mp (hperm.subset hsL)
          exact absurd (by rw [← hms] at hs; exact hs) (hall m hm)
      · intro m hm hv
        have hms : (score32 env 1 nBlockHeight m, m.vin) = s := by
          apply List.inj_on_of_nodup_map hnodup (hmemL m hm) hsL
          simp [hv, hs]
        have hsc : score32 env 1 nBlockHeight m = s.1 := by rw [← hms]
        have hgt := sorted_countP_gt_le L k s hsorted hk
        have hge := sorted_countP_ge_ge L k s hsorted hk
        have hc1 : C.countP (fun t => decide (score32 env 1 nBlockHeight m
              < score32 env 1 nBlockHeight t))
            = L.countP (fun p => decide (s.1 < p.1)) := by
          rw [hperm.countP_eq, List.countP_map, hsc]
          rfl
        have hc2 : C.countP (fun t => decide (score32 env 1 nBlockHeight m
              ≤ score32 env 1 nBlockHeight t))
            = L.countP (fun p => decide (s.1 ≤ p.1)) := by
          rw [hperm.countP_eq, List.countP_map, hsc]
          rfl
        rw [hrk, hc1, hc2]
        refine ⟨by omega, by omega, by omega, by omega⟩

/-- Witness for C14: the rank of the entry for outpoint `(3, 0)` among the two fresh entries. -/
theorem C14_rank_position_witness :
    SortContract sampleEnv ∧ UniqueOutpoints pairRegistry
    ∧ sampleEnv.GetBlockHash 50 ≠ none
    ∧ (pairRegistry.GetMasternodeRank sampleEnv (freshEntry 3).vin 50 70047 true).1 = 2
    ∧ ((pairRegistry.GetMasternodeRank sampleEnv (freshEntry 3).vin 50 70047 true).1 = -1
        ↔ ∀ m ∈ countedEntries sampleEnv 70047 true pairRegistry.vMasternodes,
            m.vin ≠ (freshEntry 3).vin) :=
  ⟨sampleEnv_sortContract, (uniqueOutpoints_iff _).mpr (by decide), by decide, by decide,
   ((C14_rank_position sampleEnv pairRegistry (freshEntry 3).vin 50 70047 true
      sampleEnv_sortContract ((uniqueOutpoints_iff _).mpr (by decide))).2 (by decide)).1⟩

/-- Counterexample to C14 as stated: the block hash at height 50 is known and the counted
entry `freshEntry 3` has the queried collateral outpoint `(3, 0)`, yet the query, whose
`nSequence` differs from the stored one, gets `-1`: the rank loop compares whole inputs. -/
theorem C14_counterexample :
    sampleEnv.GetBlockHash 50 ≠ none
    ∧ freshEntry 3 ∈ countedEntries sampleEnv 70047 false pairRegistry.vMasternodes
    ∧ (freshEntry 3).vin.prevout = (⟨⟨3, 0⟩, [], 1⟩ : CTxIn).prevout
    ∧ (pairRegistry.GetMasternodeRank sampleEnv ⟨⟨3, 0⟩, [], 1⟩ 50 70047 false).1 = -1 := by
  refine ⟨by decide, by decide, by decide, by decide⟩

theorem ranksScores_eq (env : Env) (nBlockHeight minProtocol : Int) (l : List CMasternode) :
    ranksScores env nBlockHeight minProtocol l
      = ((l.map (CMasternode.Check env)).filter (eligible minProtocol)).map
          (fun m => (score32 env 1 nBlockHeight m, m)) := by
  induction l with
  | nil => rfl
  | cons mn rest ih =>
    unfold ranksScores
    rw [List.map_cons]
    simp only
    by_cases h1 : (mn.Check env).protocolVersion < minProtocol
    · rw [if_pos h1, ih, List.filter_cons_of_neg]
      rw [eligible_iff]
      exact fun h => h (Or.inl h1)
    · rw [if_neg h1]
      by_cases h2 : (mn.Check env).IsEnabled = false
      · rw [if_pos h2, ih, List.filter_cons_of_neg]
        rw [eligible_iff]
        exact fun h => h (Or.inr h2)
      · rw [if_neg h2, ih, List.filter_cons_of_pos]
        · rfl
        · rw [eligible_iff]
          rintro (h | h)
          · exact h1 h
          · exact h2 h

theorem ranksLoop_entries (L : List (Nat × CMasternode)) (c : Int) :
    (ranksLoop L c).map (fun p => p.2) = L.map (fun p => p.2) := by
  induction L generalizing c with
  | nil => rfl
  | cons x xs ih => simp [ranksLoop, ih]

theorem ranksLoop_ranks (L : List (Nat × CMasternode)) (c : Int) :
    (ranksLoop L c).map (fun p => p.1) = (List.range L.length).map (fun (i : Nat) => c + (i : Int) + 1) := by
  induction L generalizing c with
  | nil => rfl
  | cons x xs ih =>
    rw [ranksLoop, List.map_cons, ih, List.length_cons, List.range_succ_eq_map, List.map_cons,
      List.map_map]
    congr 1
    · simp
    · apply List.map_congr_left
      intro i _
      simp only [Function.comp, Nat.succ_eq_add_one]
      push_cast
      ring

/-- C15: `GetMasternodeRanks`, for any sorting routine that meets the `std::sort` contract.
It returns the empty list when the block hash at the height is unknown. Otherwise the
entries of the returned pairs are, as a multiset, exactly the entries of the registry after
the call that are enabled with `protocolVersion ≥ minProtocol`; the ranks are `1, 2, ..., n`
in list order; and the 32-bit scores never increase along the list. -/
theorem C15_ranks_sorted (env : Env) (man : CMasternodeMan) (nBlockHeight minProtocol : Int)
    (hsort : SortContract env) :
    (env.GetBlockHash nBlockHeight = none →
      (man.GetMasternodeRanks env nBlockHeight minProtocol).1 = [])
    ∧ (env.GetBlockHash nBlockHeight ≠ none →
      ((man.GetMasternodeRanks env nBlockHeight minProtocol).1.map (fun p => p.2)).Perm
          ((man.GetMasternodeRanks env nBlockHeight minProtocol).2.vMasternodes.filter
            (fun m => decide (m.activeState = MASTERNODE_ENABLED
              ∧ minProtocol ≤ m.protocolVersion)))
      ∧ (man.GetMasternodeRanks env nBlockHeight minProtocol).1.map (fun p => p.1)
          = (List.range (man.GetMasternodeRanks env nBlockHeight minProtocol).1.length).map
              (fun (i : Nat) => (i : Int) + 1)
      ∧ ((man.GetMasternodeRanks env nBlockHeight minProtocol).1.map
            (fun p => score32 env 1 nBlockHeight p.2)).Pairwise (fun a b => b ≤ a)) := by
  constructor
  · intro hnone
    unfold CMasternodeMan.GetMasternodeRanks
    rw [hnone]
  · intro hsome
    obtain ⟨hash, hhash⟩ := Option.ne_none_iff_exists'.mp hsome
    have hr : man.GetMasternodeRanks env nBlockHeight minProtocol
        = (ranksLoop (sortScores env
            (ranksScores env nBlockHeight minProtocol man.vMasternodes)) 0, man.Check env) := by
      unfold CMasternodeMan.GetMasternodeRanks
      rw [hhash]
    rw [hr]
    simp only
    have hfilter : (man.Check env).vMasternodes.filter
        (fun m => decide (m.activeState = MASTERNODE_ENABLED ∧ minProtocol ≤ m.protocolVersion))
        = (man.vMasternodes.map (CMasternode.Check env)).filter (eligible minProtocol) := by
      unfold CMasternodeMan.Check
      simp only
      apply List.filter_congr
      intro m _
      rw [Bool.eq_iff_iff, eligible_iff_and]
      simp [CMasternode.IsEnabled]
    rw [hfilter, ranksScores_eq]
    generalize hC : (man.vMasternodes.map (CMasternode.Check env)).filter (eligible minProtocol)
      = C
    generalize hL : sortScores env (C.map (fun m => (score32 env 1 nBlockHeight m, m))) = L
    have hperm : L.Perm (C.map (fun m => (score32 env 1 nBlockHeight m, m))) := by
      rw [← hL]; exact sortScores_perm env hsort _
    have hsorted : L.Pairwise (fun a b => b.1 ≤ a.1) := by
      rw [← hL]; exact sortScores_sorted env hsort _
    have hkey : ∀ p ∈ L, score32 env 1 nBlockHeight p.2 = p.1 := by
      intro p hp
      obtain ⟨m, _, hm⟩ := List.mem_map.mp (hperm.subset hp)
      rw [← hm]
    refine ⟨?_, ?_, ?_⟩
    · rw [ranksLoop_entries]
      have h2 := hperm.map (fun p => p.2)
      have h5 : (C.map (fun m => (score32 env 1 nBlockHeight m, m))).map (fun p => p.2) = C := by
        rw [List.map_map]
        exact List.map_id _
      rw [h5] at h2
      exact h2
    · rw [ranksLoop_ranks]
      have hlen : (ranksLoop L 0).length = L.length := by
        have := congrArg List.length (ranksLoop_entries L 0)
        simpa using this
      rw [hlen]
      apply List.map_congr_left
      intro i _
      ring
    · have h3 : (ranksLoop L 0).map (fun p => score32 env 1 nBlockHeight p.2)
          = L.map (fun p => p.1) := by
        have h4 : (ranksLoop L 0).map (fun p => score32 env 1 nBlockHeight p.2)
            = ((ranksLoop L 0).map (fun p => p.2)).map (fun m => score32 env 1 nBlockHeight m) := by
          rw [List.map_map]; rfl
        rw [h4, ranksLoop_entries, List.map_map]
        apply List.map_congr_left
        intro p hp
        exact hkey p hp
      rw [h3, List.pairwise_map]
      exact hsorted

/-- Witness for C15: the ranks of the two fresh entries. -/
theorem C15_ranks_sorted_witness :
    SortContract sampleEnv
    ∧ (pairRegistry.GetMasternodeRanks sampleEnv 50 70047).1
        = [(1, freshEntry 9 |>.Check sampleEnv), (2, freshEntry 3 |>.Check sampleEnv)]
    ∧ (sampleEnv.GetBlockHash 500 = none →
        (pairRegistry.GetMasternodeRanks sampleEnv 500 70047).1 = []) :=
  ⟨sampleEnv_sortContract, by decide,
   (C15_ranks_sorted sampleEnv pairRegistry 500 70047 sampleEnv_sortContract).1⟩

theorem sorted_perm_unique {α : Type} (L1 L2 : List (Nat × α)) (hperm : L1.Perm L2)
    (h1 : L1.Pairwise (fun a b => b.1 ≤ a.1)) (h2 : L2.Pairwise (fun a b => b.1 ≤ a.1))
    (hnodup : (L1.map (fun p => p.1)).Nodup) : L1 = L2 := by
  have hne1 : L1.Pairwise (fun a b => a.1 ≠ b.1) := List.pairwise_map.mp hnodup
  have hnodup2 : (L2.map (fun p => p.1)).Nodup :=
    (hperm.map (fun p => p.1)).nodup_iff.mp hnodup
  have hne2 : L2.Pairwise (fun a b => a.1 ≠ b.1) := List.pairwise_map.mp hnodup2
  have hs1 : L1.Pairwise (fun a b => b.1 < a.1) :=
    (h1.and hne1).imp (fun ⟨hle, hne⟩ => lt_of_le_of_ne hle (Ne.symm hne))
  have hs2 : L2.Pairwise (fun a b => b.1 < a.1) :=
    (h2.and hne2).imp (fun ⟨hle, hne⟩ => lt_of_le_of_ne hle (Ne.symm hne))
  haveI : IsAntisymm (Nat × α) (fun a b => b.1 < a.1) :=
    ⟨fun a b hab hba => absurd (lt_trans hab hba) (lt_irrefl _)⟩
  exact List.eq_of_perm_of_sorted hperm hs1 hs2

/-- C16 (amended): determinism of ranking, for any sorting routine that meets the
`std::sort` contract. Two registries holding the same entries in different vector orders get
the same sequence of `(rank, entry)` pairs from `GetMasternodeRanks`, provided the enabled
entries with `protocolVersion ≥ minProtocol` have pairwise distinct 32-bit scores. -/
theorem C16_ranks_order_independent (env : Env) (man man2 : CMasternodeMan)
    (nBlockHeight minProtocol : Int) (hsort : SortContract env)
    (hperm : man2.vMasternodes.Perm man.vMasternodes)
    (hdistinct : (((man.vMasternodes.map (CMasternode.Check env)).filter
        (eligible minProtocol)).map (fun m => score32 env 1 nBlockHeight m)).Nodup) :
    (man2.GetMasternodeRanks env nBlockHeight minProtocol).1
      = (man.GetMasternodeRanks env nBlockHeight minProtocol).1 := by
  unfold CMasternodeMan.GetMasternodeRanks
  cases hh : env.GetBlockHash nBlockHeight with
  | none => rfl
  | some hash =>
    simp only
    rw [ranksScores_eq, ranksScores_eq]
    have hC : ((man2.vMasternodes.map (CMasternode.Check env)).filter
          (eligible minProtocol)).Perm
        ((man.vMasternodes.map (CMasternode.Check env)).filter (eligible minProtocol)) :=
      (hperm.map _).filter _
    generalize ((man2.vMasternodes.map (CMasternode.Check env)).filter (eligible minProtocol))
      = C2 at hC
    generalize ((man.vMasternodes.map (CMasternode.Check env)).filter (eligible minProtocol))
      = C1 at hC hdistinct
    have hS := hC.map (fun m => (score32 env 1 nBlockHeight m, m))
    have hL : (sortScores env (C2.map (fun m => (score32 env 1 nBlockHeight m, m)))).Perm
        (sortScores env (C1.map (fun m => (score32 env 1 nBlockHeight m, m)))) :=
      ((sortScores_perm env hsort _).trans hS).trans (sortScores_perm env hsort _).symm
    have hnd : ((sortScores env (C2.map (fun m => (score32 env 1 nBlockHeight m, m)))).map
        (fun p => p.1)).Nodup := by
      have h1 := ((sortScores_perm env hsort
        (C2.map (fun m => (score32 env 1 nBlockHeight m, m)))).trans hS).map (fun p => p.1)
      rw [List.map_map] at h1
      exact h1.nodup_iff.mpr hdistinct
    rw [sorted_perm_unique _ _ hL (sortScores_sorted env hsort _)
      (sortScores_sorted env hsort _) hnd]

/-- Witness for C16: the two fresh entries, whose scores differ, in both orders. -/
theorem C16_ranks_order_independent_witness :
    pairRegistrySwapped.vMasternodes.Perm pairRegistry.vMasternodes
    ∧ (pairRegistrySwapped.GetMasternodeRanks sampleEnv 50 70047).1
      = (pairRegistry.GetMasternodeRanks sampleEnv 50 70047).1 :=
  ⟨List.Perm.swap _ _ _,
   C16_ranks_order_independent sampleEnv pairRegistry pairRegistrySwapped 50 70047
     sampleEnv_sortContract (List.Perm.swap _ _ _) (by decide)⟩

/-- Counterexample to C16 as stated: on a chain where the two fresh entries have the same
32-bit score, the registry holding them in one order ranks outpoint `(3, 0)` first and the
registry holding them in the other order ranks outpoint `(9, 0)` first. -/
theorem C16_counterexample :
    pairRegistrySwapped.vMasternodes.Perm pairRegistry.vMasternodes
    ∧ tieEnv.GetBlockHash 50 ≠ none
    ∧ (pairRegistry.GetMasternodeRanks tieEnv 50 70047).1.map (fun p => p.2.vin.prevout)
        = [⟨3, 0⟩, ⟨9, 0⟩]
    ∧ (pairRegistrySwapped.GetMasternodeRanks tieEnv 50 70047).1.map (fun p => p.2.vin.prevout)
        = [⟨9, 0⟩, ⟨3, 0⟩] := by
  refine ⟨List.Perm.swap _ _ _, by decide, by decide, by decide⟩

theorem SameButState.refl (m : CMasternode) : SameButState m m := by
  cases m; rfl

theorem CMasternode.Check_sameButState (env : Env) (m : CMasternode) :
    SameButState m (m.Check env) := by
  unfold CMasternode.Check
  repeat' split
  all_goals first | exact SameButState.refl m | rfl

theorem rankVisit_sameButState (env : Env) (minProtocol : Int) (fOnlyActive : Bool)
    (m : CMasternode) : SameButState m (rankVisit env minProtocol fOnlyActive m) := by
  unfold rankVisit
  repeat' split
  all_goals first | exact SameButState.refl m | exact CMasternode.Check_sameButState env m

theorem forall₂_sameButState_map (f : CMasternode → CMasternode)
    (hf : ∀ m, SameButState m (f m)) (l : List CMasternode) :
    List.Forall₂ SameButState l (l.map f) := by
  induction l with
  | nil => exact List.Forall₂.nil
  | cons a l ih => exact List.Forall₂.cons (hf a) ih

theorem rankVisit_inactive (env : Env) (minProtocol : Int) (l : List CMasternode) :
    l.map (rankVisit env minProtocol false) = l := by
  induction l with
  | nil => rfl
  | cons a l ih =>
    rw [List.map_cons, ih]
    unfold rankVisit
    split <;> simp

theorem rankScores_inactive (env env2 : Env) (hscore : env2.CalculateScore = env.CalculateScore)
    (nBlockHeight minProtocol : Int) (l : List CMasternode) :
    rankScores env2 nBlockHeight minProtocol false l
      = rankScores env nBlockHeight minProtocol false l := by
  induction l with
  | nil => rfl
  | cons a l ih =>
    unfold rankScores
    rw [ih]
    simp [score32, hscore]

theorem currentLoop_congr (env env2 : Env) (hscore : env2.CalculateScore = env.CalculateScore)
    (mod nBlockHeight minProtocol : Int) (l : List CMasternode)
    (hcheck : ∀ m ∈ l, m.Check env2 = m.Check env) (i score : Nat) (winner : Option Nat) :
    currentLoop env2 mod nBlockHeight minProtocol l i score winner
      = currentLoop env mod nBlockHeight minProtocol l i score winner := by
  induction l generalizing i score winner with
  | nil => rfl
  | cons a l ih =>
    have ha := hcheck a (List.mem_cons_self _ _)
    have hl : ∀ m ∈ l, m.Check env2 = m.Check env :=
      fun m hm => hcheck m (List.mem_cons_of_mem _ hm)
    unfold currentLoop
    simp only [ha, score32, hscore, ih hl]

theorem rankScores_congr (env env2 : Env) (hscore : env2.CalculateScore = env.CalculateScore)
    (nBlockHeight minProtocol : Int) (fOnlyActive : Bool) (l : List CMasternode)
    (hcheck : ∀ m ∈ l, m.Check env2 = m.Check env) :
    rankScores env2 nBlockHeight minProtocol fOnlyActive l
      = rankScores env nBlockHeight minProtocol fOnlyActive l := by
  induction l with
  | nil => rfl
  | cons a l ih =>
    have ha := hcheck a (List.mem_cons_self _ _)
    have hl : ∀ m ∈ l, m.Check env2 = m.Check env :=
      fun m hm => hcheck m (List.mem_cons_of_mem _ hm)
    unfold rankScores
    simp only [ha, score32, hscore, ih hl]

theorem ranksScores_congr (env env2 : Env) (hscore : env2.CalculateScore = env.CalculateScore)
    (nBlockHeight minProtocol : Int) (l : List CMasternode)
    (hcheck : ∀ m ∈ l, m.Check env2 = m.Check env) :
    ranksScores env2 nBlockHeight minProtocol l
      = ranksScores env nBlockHeight minProtocol l := by
  induction l with
  | nil => rfl
  | cons a l ih =>
    have ha := hcheck a (List.mem_cons_self _ _)
    have hl : ∀ m ∈ l, m.Check env2 = m.Check env :=
      fun m hm => hcheck m (List.mem_cons_of_mem _ hm)
    unfold ranksScores
    simp only [ha, score32, hscore, ih hl]

theorem rankVisit_congr (env env2 : Env) (minProtocol : Int) (fOnlyActive : Bool)
    (l : List CMasternode) (hcheck : ∀ m ∈ l, m.Check env2 = m.Check env) :
    l.map (rankVisit env2 minProtocol fOnlyActive)
      = l.map (rankVisit env minProtocol fOnlyActive) := by
  apply List.map_congr_left
  intro m hm
  unfold rankVisit
  rw [hcheck m hm]

theorem sortScores_congr {α : Type} (env env2 : Env) (hsort : env2.sortOrder = env.sortOrder)
    (v : List (Nat × α)) : sortScores env2 v = sortScores env v := by
  unfold sortScores
  rw [hsort]

/-- C17 (amended): what the rankers take from the clock. With `fOnlyActive = false`,
`GetMasternodeRank` and `GetMasternodeByRank` give the same result at any two clock readings
and leave the registry as it was. All four rankers give the same result (and the same
registry after the call) at two clock readings whenever `Check()` gives every stored entry
the same result at both. After any ranker call every stored entry is what it was up to its
`activeState`. -/
theorem C17_rankers_and_clock (env : Env) (man : CMasternodeMan) (now2 adj2 : Int)
    (vin : CTxIn) (nRank mod nBlockHeight minProtocol : Int) (fOnlyActive : Bool) :
    (man.GetMasternodeRank (atClock env now2 adj2) vin nBlockHeight minProtocol false
        = man.GetMasternodeRank env vin nBlockHeight minProtocol false
      ∧ (man.GetMasternodeRank env vin nBlockHeight minProtocol false).2 = man
      ∧ man.GetMasternodeByRank (atClock env now2 adj2) nRank nBlockHeight minProtocol false
        = man.GetMasternodeByRank env nRank nBlockHeight minProtocol false
      ∧ (man.GetMasternodeByRank env nRank nBlockHeight minProtocol false).2 = man)
    ∧ ((∀ m ∈ man.vMasternodes, m.Check (atClock env now2 adj2) = m.Check env) →
        man.GetCurrentMasterNode (atClock env now2 adj2) mod nBlockHeight minProtocol
          = man.GetCurrentMasterNode env mod nBlockHeight minProtocol
        ∧ man.GetMasternodeRank (atClock env now2 adj2) vin nBlockHeight minProtocol fOnlyActive
          = man.GetMasternodeRank env vin nBlockHeight minProtocol fOnlyActive
        ∧ man.GetMasternodeByRank (atClock env now2 adj2) nRank nBlockHeight minProtocol
            fOnlyActive
          = man.GetMasternodeByRank env nRank nBlockHeight minProtocol fOnlyActive
        ∧ man.GetMasternodeRanks (atClock env now2 adj2) nBlockHeight minProtocol
          = man.GetMasternodeRanks env nBlockHeight minProtocol)
    ∧ (List.Forall₂ SameButState man.vMasternodes
          (man.GetCurrentMasterNode env mod nBlockHeight minProtocol).2.vMasternodes
      ∧ List.Forall₂ SameButState man.vMasternodes
          (man.GetMasternodeRank env vin nBlockHeight minProtocol fOnlyActive).2.vMasternodes
      ∧ List.Forall₂ SameButState man.vMasternodes
          (man.GetMasternodeByRank env nRank nBlockHeight minProtocol fOnlyActive).2.vMasternodes
      ∧ List.Forall₂ SameButState man.vMasternodes
          (man.GetMasternodeRanks env nBlockHeight minProtocol).2.vMasternodes) := by
  have hscore : (atClock env now2 adj2).CalculateScore = env.CalculateScore := rfl
  have hsort : (atClock env now2 adj2).sortOrder = env.sortOrder := rfl
  have hhash : (atClock env now2 adj2).GetBlockHash = env.GetBlockHash := rfl
  have hsame : ∀ l : List CMasternode, List.Forall₂ SameButState l l :=
    fun l => by simpa using forall₂_sameButState_map id SameButState.refl l
  refine ⟨⟨?_, ?_, ?_, ?_⟩, ?_, ⟨?_, ?_, ?_, ?_⟩⟩
  · unfold CMasternodeMan.GetMasternodeRank
    rw [hhash, rankScores_inactive env _ hscore, sortScores_congr env _ hsort,
      rankVisit_inactive, rankVisit_inactive]
  · unfold CMasternodeMan.GetMasternodeRank
    cases env.GetBlockHash nBlockHeight with
    | none => rfl
    | some _ => simp only [rankVisit_inactive]
  · unfold CMasternodeMan.GetMasternodeByRank
    simp only [rankScores_inactive env _ hscore, sortScores_congr env _ hsort,
      rankVisit_inactive]
  · unfold CMasternodeMan.GetMasternodeByRank
    simp only [rankVisit_inactive]
    split <;> rfl
  · intro hcheck
    refine ⟨?_, ?_, ?_, ?_⟩
    · unfold CMasternodeMan.GetCurrentMasterNode CMasternodeMan.Check
      rw [currentLoop_congr env _ hscore _ _ _ _ hcheck, List.map_congr_left hcheck]
    · unfold CMasternodeMan.GetMasternodeRank
      rw [hhash, rankScores_congr env _ hscore _ _ _ _ hcheck, sortScores_congr env _ hsort,
        rankVisit_congr env _ _ _ _ hcheck]
    · unfold CMasternodeMan.GetMasternodeByRank
      simp only [rankScores_congr env _ hscore _ _ _ _ hcheck, sortScores_congr env _ hsort,
        rankVisit_congr env _ _ _ _ hcheck]
    · unfold CMasternodeMan.GetMasternodeRanks CMasternodeMan.Check
      rw [hhash, ranksScores_congr env _ hscore _ _ _ hcheck, sortScores_congr env _ hsort,
        List.map_congr_left hcheck]
  · exact forall₂_sameButState_map _ (CMasternode.Check_sameButState env) _
  · unfold CMasternodeMan.GetMasternodeRank
    cases env.GetBlockHash nBlockHeight with
    | none => exact hsame _
    | some _ => exact forall₂_sameButState_map _ (rankVisit_sameButState env _ _) _
  · unfold CMasternodeMan.GetMasternodeByRank
    dsimp only
    split
    all_goals exact forall₂_sameButState_map _ (rankVisit_sameButState env _ _) _
  · unfold CMasternodeMan.GetMasternodeRanks
    cases env.GetBlockHash nBlockHeight with
    | none => exact hsame _
    | some _ => exact forall₂_sameButState_map _ (CMasternode.Check_sameButState env) _

/-- Witness for C17: the two fresh entries read 100 s later are still enabled, and the
winner, the rank of outpoint `(3, 0)`, the entry of rank 1 and the ranked list are the same. -/
theorem C17_rankers_and_clock_witness :
    (∀ m ∈ pairRegistry.vMasternodes,
        m.Check (atClock sampleEnv 1700010100 1700010100) = m.Check sampleEnv)
    ∧ pairRegistry.GetCurrentMasterNode (atClock sampleEnv 1700010100 1700010100) 1 50 70047
        = pairRegistry.GetCurrentMasterNode sampleEnv 1 50 70047
    ∧ pairRegistry.GetMasternodeRank (atClock sampleEnv 1700010100 1700010100)
          ⟨⟨3, 0⟩, [], 0⟩ 50 70047 true
        = pairRegistry.GetMasternodeRank sampleEnv ⟨⟨3, 0⟩, [], 0⟩ 50 70047 true
    ∧ pairRegistry.GetMasternodeByRank (atClock sampleEnv 1700010100 1700010100) 1 50 70047 true
        = pairRegistry.GetMasternodeByRank sampleEnv 1 50 70047 true
    ∧ pairRegistry.GetMasternodeRanks (atClock sampleEnv 1700010100 1700010100) 50 70047
        = pairRegistry.GetMasternodeRanks sampleEnv 50 70047 :=
  ⟨by decide,
   (C17_rankers_and_clock sampleEnv pairRegistry 1700010100 1700010100 ⟨⟨3, 0⟩, [], 0⟩ 1 1 50
      70047 true).2.1 (by decide)⟩

/-- Counterexample to C17 as stated: the same registry and block hashes read 10000 s later.
The two entries, enabled at the first reading, are expired at the second: the winner, the
rank of outpoint `(9, 0)`, the entry of rank 1 and the ranked list all differ, and the call
at the second reading rewrites the stored entries. -/
theorem C17_counterexample :
    lateEnv = atClock sampleEnv 1700020000 1700020000
    ∧ (pairRegistry.GetCurrentMasterNode sampleEnv 1 50 70047).1 = some 1
    ∧ (pairRegistry.GetCurrentMasterNode lateEnv 1 50 70047).1 = none
    ∧ (pairRegistry.GetMasternodeRank sampleEnv ⟨⟨9, 0⟩, [], 0⟩ 50 70047 true).1 = 1
    ∧ (pairRegistry.GetMasternodeRank lateEnv ⟨⟨9, 0⟩, [], 0⟩ 50 70047 true).1 = -1
    ∧ (pairRegistry.GetMasternodeByRank sampleEnv 1 50 70047 true).1 = some 1
    ∧ (pairRegistry.GetMasternodeByRank lateEnv 1 50 70047 true).1 = none
    ∧ ((pairRegistry.GetMasternodeRanks sampleEnv 50 70047).1.map
          (fun p => (p.1, p.2.vin.prevout)) = [(1, ⟨9, 0⟩), (2, ⟨3, 0⟩)])
    ∧ (pairRegistry.GetMasternodeRanks lateEnv 50 70047).1 = []
    ∧ (pairRegistry.GetCurrentMasterNode lateEnv 1 50 70047).2.vMasternodes.map
          (fun m => m.activeState) = [MASTERNODE_EXPIRED, MASTERNODE_EXPIRED]
    ∧ pairRegistry.vMasternodes.map (fun m => m.activeState)
          = [MASTERNODE_PRE_ENABLED, MASTERNODE_PRE_ENABLED] := by
  refine ⟨rfl, by decide, by decide, by decide, by decide, by decide, by decide, by decide,
    by decide, by decide, by decide⟩

theorem findForPing_eq (env : Env) (man : CMasternodeMan) (vin : CTxIn) (i : Nat)
    (e : CMasternode) (hfind : man.Find vin = some i) (hget : man.vMasternodes[i]? = some e) :
    findForPing env man vin
      = if e.protocolVersion ≥ env.MIN_POOL_PEER_PROTO_VERSION then some (i, e) else none := by
  unfold findForPing
  rw [hfind]
  simp only [hget]

theorem askForMissing_effects (env : Env) (pfrom : CNode) (vin : CTxIn) (man : CMasternodeMan) :
    (askForMissing env pfrom vin man).1.vMasternodes = man.vMasternodes
      ∧ ∀ p ∈ (askForMissing env pfrom vin man).2.pushed, p = (pfrom.id, NetMsg.dseg vin) := by
  unfold askForMissing
  dsimp only
  split
  · exact ⟨rfl, fun p hp => by cases hp⟩
  · exact ⟨rfl, fun p hp => by simpa using hp⟩

theorem pingKnown_taken (env : Env) (vin : CTxIn) (vchSig : List Nat) (sigTime : Int)
    (stop : Bool) (man : CMasternodeMan) (i : Nat) (e : CMasternode)
    (hnew : e.lastDseep < sigTime)
    (hsig : env.VerifyMessage e.pubkey2 vchSig (pingMessage env e sigTime stop) = true) :
    ∃ e1, (pingKnown env vin vchSig sigTime stop man i e).1.vMasternodes
        = man.vMasternodes.set i e1 ∧ e1.lastDseep = sigTime := by
  unfold pingKnown
  rw [if_pos hnew, hsig]
  dsimp only
  repeat' split
  all_goals first
    | exact ⟨_, rfl, rfl⟩
    | exact ⟨_, rfl, by simp [CMasternode.UpdateLastSeen]⟩
    | (rename_i h; exact absurd h (by decide))

theorem pingKnown_not_taken (env : Env) (vin : CTxIn) (vchSig : List Nat) (sigTime : Int)
    (stop : Bool) (man : CMasternodeMan) (i : Nat) (e : CMasternode)
    (h : ¬ (e.lastDseep < sigTime
      ∧ env.VerifyMessage e.pubkey2 vchSig (pingMessage env e sigTime stop) = true)) :
    pingKnown env vin vchSig sigTime stop man i e = (man, {}) := by
  unfold pingKnown
  by_cases hnew : e.lastDseep < sigTime
  · rw [if_pos hnew]
    have hsig : env.VerifyMessage e.pubkey2 vchSig (pingMessage env e sigTime stop) = false := by
      cases hv : env.VerifyMessage e.pubkey2 vchSig (pingMessage env e sigTime stop) with
      | false => rfl
      | true => exact absurd ⟨hnew, hv⟩ h
    rw [if_pos hsig]
  · rw [if_neg hnew]

/-- C18 (amended): ping acceptance on a synced node, for a registry whose entry for the
ping's outpoint is `e` at position `i`. The `dseep` is taken exactly under `pingTaken`:
`sigTime ≤ adjusted clock + 3600`, `sigTime > adjusted clock − 3600` (the lower bound is
exclusive), `e.protocolVersion` at or above the pool floor, `sigTime > e.lastDseep`, and the
signature over address, `sigTime` and stop flag good under `e.pubkey2`. When taken, the
entry at `i` is rewritten and its `lastDseep` is `sigTime`. When not taken, the entry vector
is unchanged and the only message that can go out is one `dseg` to the sender; with the
entry at or above the floor the call does nothing at all. -/
theorem C18_ping_acceptance (env : Env) (pfrom : CNode) (man : CMasternodeMan) (vin : CTxIn)
    (vchSig : List Nat) (sigTime : Int) (stop : Bool) (i : Nat) (e : CMasternode)
    (hsync : env.IsBlockchainSynced = true)
    (hfind : man.Find vin = some i) (hget : man.vMasternodes[i]? = some e) :
    (pingTaken env e vchSig sigTime stop →
      ∃ e1, (ProcessMessage env pfrom (NetMsg.dseep vin vchSig sigTime stop) man).1.vMasternodes
          = man.vMasternodes.set i e1 ∧ e1.lastDseep = sigTime)
    ∧ (¬ pingTaken env e vchSig sigTime stop →
        (ProcessMessage env pfrom (NetMsg.dseep vin vchSig sigTime stop) man).1.vMasternodes
          = man.vMasternodes
        ∧ (∀ p ∈ (ProcessMessage env pfrom (NetMsg.dseep vin vchSig sigTime stop) man).2.pushed,
            p = (pfrom.id, NetMsg.dseg vin))
        ∧ (env.MIN_POOL_PEER_PROTO_VERSION ≤ e.protocolVersion →
            ProcessMessage env pfrom (NetMsg.dseep vin vchSig sigTime stop) man = (man, {})))
    ∧ ((∃ e1, (ProcessMessage env pfrom (NetMsg.dseep vin vchSig sigTime stop)
            man).1.vMasternodes[i]? = some e1 ∧ e1.lastDseep = sigTime ∧ e.lastDseep ≠ sigTime)
        ↔ pingTaken env e vchSig sigTime stop) := by
  have hs : ¬ env.IsBlockchainSynced = false := by simp [hsync]
  have hlt : i < man.vMasternodes.length := (List.getElem?_eq_some.mp hget).1
  have htaken : pingTaken env e vchSig sigTime stop →
      ∃ e1, (ProcessMessage env pfrom (NetMsg.dseep vin vchSig sigTime stop) man).1.vMasternodes
          = man.vMasternodes.set i e1 ∧ e1.lastDseep = sigTime := by
    rintro ⟨h1, h2, h3, h4, h5⟩
    unfold ProcessMessage
    rw [if_neg hs]
    simp only
    unfold ProcessDseep
    rw [if_neg (not_lt.mpr h1), if_neg (not_le.mpr h2), findForPing_eq env man vin i e hfind hget,
      if_pos h3]
    exact pingKnown_taken env vin vchSig sigTime stop man i e h4 h5
  have hnot : ¬ pingTaken env e vchSig sigTime stop →
        (ProcessMessage env pfrom (NetMsg.dseep vin vchSig sigTime stop) man).1.vMasternodes
          = man.vMasternodes
        ∧ (∀ p ∈ (ProcessMessage env pfrom (NetMsg.dseep vin vchSig sigTime stop) man).2.pushed,
            p = (pfrom.id, NetMsg.dseg vin))
        ∧ (env.MIN_POOL_PEER_PROTO_VERSION ≤ e.protocolVersion →
            ProcessMessage env pfrom (NetMsg.dseep vin vchSig sigTime stop) man = (man, {})) := by
    intro hn
    unfold ProcessMessage
    rw [if_neg hs]
    simp only
    unfold ProcessDseep
    by_cases h1 : sigTime > env.GetAdjustedTime + 60 * 60
    · rw [if_pos h1]
      exact ⟨rfl, fun p hp => (by cases hp), fun _ => rfl⟩
    rw [if_neg h1]
    by_cases h2 : sigTime ≤ env.GetAdjustedTime - 60 * 60
    · rw [if_pos h2]
      exact ⟨rfl, fun p hp => (by cases hp), fun _ => rfl⟩
    rw [if_neg h2, findForPing_eq env man vin i e hfind hget]
    by_cases h3 : e.protocolVersion ≥ env.MIN_POOL_PEER_PROTO_VERSION
    · rw [if_pos h3]
      have h45 : ¬ (e.lastDseep < sigTime
          ∧ env.VerifyMessage e.pubkey2 vchSig (pingMessage env e sigTime stop) = true) :=
        fun h => hn ⟨not_lt.mp h1, not_le.mp h2, h3, h.1, h.2⟩
      simp only
      rw [pingKnown_not_taken env vin vchSig sigTime stop man i e h45]
      exact ⟨rfl, fun p hp => (by cases hp), fun _ => rfl⟩
    · rw [if_neg h3]
      simp only
      exact ⟨(askForMissing_effects env pfrom vin man).1,
        (askForMissing_effects env pfrom vin man).2, fun h => absurd h h3⟩
  refine ⟨htaken, hnot, ?_, ?_⟩
  · rintro ⟨e1, hat, hlast, hne⟩
    by_contra hn
    rw [(hnot hn).1, hget] at hat
    cases hat
    exact hne hlast
  · intro ht
    obtain ⟨e1, hset, hlast⟩ := htaken ht
    refine ⟨e1, ?_, hlast, ne_of_lt ht.2.2.2.1⟩
    rw [hset]
    simp [List.getElem?_set, hlt]

/-- Witness for C18: a ping signed 100 s before the clock reading for the stored sample
entry is taken. -/
theorem C18_ping_acceptance_witness :
    pingTaken sampleEnv sampleEntry [1] 1700009900 false
    ∧ ∃ e1, (ProcessMessage sampleEnv samplePeer
          (NetMsg.dseep sampleEntry.vin [1] 1700009900 false)
            sampleRegistry).1.vMasternodes[0]? = some e1
        ∧ e1.lastDseep = 1700009900 ∧ sampleEntry.lastDseep ≠ 1700009900 :=
  ⟨by decide,
   (C18_ping_acceptance sampleEnv samplePeer sampleRegistry sampleEntry.vin [1] 1700009900
      false 0 sampleEntry (by decide) (by decide) (by decide)).2.2.mpr (by decide)⟩

/-- Counterexample to C18 as stated. A ping signed exactly 3600 s before the clock reading,
newer than the stored `lastDseep` and with a good signature, is dropped: the registry is
unchanged. A ping signed at the clock reading for a stored entry below the protocol floor is
not taken either, and a `dseg` goes out to the sender. -/
theorem C18_counterexample :
    ((1700006400 - sampleEnv.GetAdjustedTime).natAbs ≤ 3600
      ∧ sampleRegistry.Find sampleEntry.vin = some 0
      ∧ sampleRegistry.vMasternodes[0]? = some sampleEntry
      ∧ sampleEntry.lastDseep < 1700006400
      ∧ sampleEnv.VerifyMessage sampleEntry.pubkey2 [1]
          (pingMessage sampleEnv sampleEntry 1700006400 false) = true
      ∧ ProcessMessage sampleEnv samplePeer
          (NetMsg.dseep sampleEntry.vin [1] 1700006400 false) sampleRegistry
          = (sampleRegistry, {}))
    ∧ ((1700010000 - risenFloorEnv.GetAdjustedTime).natAbs ≤ 3600
      ∧ sampleEntry.lastDseep < 1700010000
      ∧ risenFloorEnv.VerifyMessage sampleEntry.pubkey2 [1]
          (pingMessage risenFloorEnv sampleEntry 1700010000 false) = true
      ∧ (ProcessMessage risenFloorEnv samplePeer
          (NetMsg.dseep sampleEntry.vin [1] 1700010000 false) sampleRegistry).1.vMasternodes
          = [sampleEntry]
      ∧ (ProcessMessage risenFloorEnv samplePeer
          (NetMsg.dseep sampleEntry.vin [1] 1700010000 false) sampleRegistry).2.pushed
          = [(samplePeer.id, NetMsg.dseg sampleEntry.vin)]) := by
  refine ⟨⟨by decide, by decide, by decide, by decide, by decide, by decide⟩,
    ⟨by decide, by decide, by decide, by decide, by decide⟩⟩

theorem CMasternode.Check_removed (env : Env) (x : CMasternode)
    (hx : x.activeState = MASTERNODE_REMOVE) : x.Check env = x := by
  unfold CMasternode.Check
  rw [if_pos hx]

theorem sweep_set_removed (env : Env) (x : CMasternode)
    (hx : x.activeState = MASTERNODE_REMOVE) (l : List CMasternode) (i : Nat) :
    ((l.set i x).map (CMasternode.Check env)).filter
        (fun mn => !CMasternodeMan.isInactive env mn)
      = ((l.eraseIdx i).map (CMasternode.Check env)).filter
        (fun mn => !CMasternodeMan.isInactive env mn) := by
  induction l generalizing i with
  | nil => rfl
  | cons a l ih =>
    cases i with
    | zero =>
      rw [List.set_cons_zero, List.eraseIdx_cons_zero, List.map_cons, List.filter_cons,
        CMasternode.Check_removed env x hx]
      simp [CMasternodeMan.isInactive, hx]
    | succ j =>
      rw [List.set_cons_succ, List.eraseIdx_cons_succ, List.map_cons, List.map_cons,
        List.filter_cons, List.filter_cons, ih j]

theorem countEnabledLoop_set_removed (env : Env) (protocolVersion : Int) (x : CMasternode)
    (hx : x.activeState = MASTERNODE_REMOVE) (l : List CMasternode) (i : Nat) :
    countEnabledLoop env protocolVersion (l.set i x)
      = countEnabledLoop env protocolVersion (l.eraseIdx i) := by
  induction l generalizing i with
  | nil => rfl
  | cons a l ih =>
    cases i with
    | zero =>
      rw [List.set_cons_zero, List.eraseIdx_cons_zero, countEnabledLoop]
      simp [CMasternode.Check_removed env x hx, CMasternode.IsEnabled, hx]
    | succ j =>
      rw [List.set_cons_succ, List.eraseIdx_cons_succ, countEnabledLoop, countEnabledLoop, ih j]

theorem eraseIdx_key_ne (l : List CMasternode) (i : Nat) (e : CMasternode)
    (hnodup : (l.map (fun m => m.vin.prevout)).Nodup) (hget : l[i]? = some e) :
    ∀ m ∈ l.eraseIdx i, m.vin.prevout ≠ e.vin.prevout := by
  induction l generalizing i with
  | nil => simp at hget
  | cons a l ih =>
    rw [List.map_cons, List.nodup_cons] at hnodup
    cases i with
    | zero =>
      simp only [List.getElem?_cons_zero, Option.some.injEq] at hget
      subst hget
      intro m hm hk
      rw [List.eraseIdx_cons_zero] at hm
      exact hnodup.1 (List.mem_map.mpr ⟨m, hm, hk⟩)
    | succ j =>
      rw [List.getElem?_cons_succ] at hget
      intro m hm
      rw [List.eraseIdx_cons_succ, List.mem_cons] at hm
      rcases hm with rfl | hm
      · intro hk
        exact hnodup.1 (List.mem_map.mpr ⟨e, List.getElem?_mem hget, hk.symm⟩)
      · exact ih j hnodup.2 hget m hm

/-- C19 (amended): a stop ping on a synced node, for a registry whose entry for the ping's
outpoint is `e` at position `i`, when the ping is taken (`pingTaken`). If `e` was not seen
within `MASTERNODE_MIN_DSEEP_SECONDS`, the entry becomes `e` with `lastDseep = sigTime` and
state `REMOVE` and the ping is relayed; the next `CheckAndRemove` and `CountEnabled`, at any
later reading `env2`, then give what they give on the registry without position `i`, and a
registry with unique outpoints holds no entry for the outpoint after the sweep. If `e` was
seen within that interval, only `lastDseep` is written: the state stays as it was and nothing
is relayed. -/
theorem C19_stop_ping_disables (env env2 : Env) (pfrom : CNode) (man : CMasternodeMan)
    (vin : CTxIn) (vchSig : List Nat) (sigTime : Int) (i : Nat) (e : CMasternode)
    (protocolVersion : Int)
    (hsync : env.IsBlockchainSynced = true)
    (hfind : man.Find vin = some i) (hget : man.vMasternodes[i]? = some e)
    (htaken : pingTaken env e vchSig sigTime true) :
    (e.UpdatedWithin env env.MASTERNODE_MIN_DSEEP_SECONDS = false →
      ProcessMessage env pfrom (NetMsg.dseep vin vchSig sigTime true) man
        = ({ man with vMasternodes := (man.vMasternodes.set i
              { e with lastDseep := sigTime, activeState := MASTERNODE_REMOVE }) },
           { pushed := RelayMasternodeEntryPing env vin vchSig sigTime true })
      ∧ ((ProcessMessage env pfrom (NetMsg.dseep vin vchSig sigTime true)
            man).1.CheckAndRemove env2).vMasternodes
          = (CMasternodeMan.CheckAndRemove env2
              { man with vMasternodes := man.vMasternodes.eraseIdx i }).vMasternodes
      ∧ ((ProcessMessage env pfrom (NetMsg.dseep vin vchSig sigTime true)
            man).1.CountEnabled env2 protocolVersion).1
          = (CMasternodeMan.CountEnabled env2
              { man with vMasternodes := man.vMasternodes.eraseIdx i } protocolVersion).1
      ∧ (UniqueOutpoints man →
          findIndex vin.prevout ((ProcessMessage env pfrom (NetMsg.dseep vin vchSig sigTime true)
            man).1.CheckAndRemove env2).vMasternodes = none))
    ∧ (e.UpdatedWithin env env.MASTERNODE_MIN_DSEEP_SECONDS = true →
      ProcessMessage env pfrom (NetMsg.dseep vin vchSig sigTime true) man
        = ({ man with vMasternodes := man.vMasternodes.set i { e with lastDseep := sigTime } },
           {})) := by
  have hs : ¬ env.IsBlockchainSynced = false := by simp [hsync]
  obtain ⟨h1, h2, h3, h4, h5⟩ := htaken
  have hrun : ProcessMessage env pfrom (NetMsg.dseep vin vchSig sigTime true) man
      = pingKnown env vin vchSig sigTime true man i e := by
    unfold ProcessMessage
    rw [if_neg hs]
    simp only
    unfold ProcessDseep
    rw [if_neg (not_lt.mpr h1), if_neg (not_le.mpr h2), findForPing_eq env man vin i e hfind hget,
      if_pos h3]
  have hseen : ∀ b, e.UpdatedWithin env env.MASTERNODE_MIN_DSEEP_SECONDS = b →
      CMasternode.UpdatedWithin env { e with lastDseep := sigTime }
        env.MASTERNODE_MIN_DSEEP_SECONDS = b := fun b hb => hb
  constructor
  · intro hstale
    have hres : ProcessMessage env pfrom (NetMsg.dseep vin vchSig sigTime true) man
        = ({ man with vMasternodes := (man.vMasternodes.set i
              { e with lastDseep := sigTime, activeState := MASTERNODE_REMOVE }) },
           { pushed := RelayMasternodeEntryPing env vin vchSig sigTime true }) := by
      rw [hrun]
      unfold pingKnown
      rw [if_pos h4, h5]
      dsimp only
      rw [if_neg (by decide), if_pos (hseen false hstale), if_pos rfl]
      rfl
    have hsweep : ((ProcessMessage env pfrom (NetMsg.dseep vin vchSig sigTime true)
            man).1.CheckAndRemove env2).vMasternodes
          = (CMasternodeMan.CheckAndRemove env2
              { man with vMasternodes := man.vMasternodes.eraseIdx i }).vMasternodes := by
      rw [hres, CheckAndRemove_entries, CheckAndRemove_entries]
      exact sweep_set_removed env2 _ rfl _ _
    refine ⟨hres, hsweep, ?_, ?_⟩
    · rw [hres]
      unfold CMasternodeMan.CountEnabled
      exact countEnabledLoop_set_removed env2 _ _ rfl _ _
    · intro huniq
      rw [hsweep, CheckAndRemove_entries, findIndex_eq_none_iff]
      intro m hm
      obtain ⟨m0, hm0, rfl⟩ := List.mem_map.mp (List.mem_filter.mp hm).1
      rw [CMasternode.Check_vin]
      obtain ⟨mn, hmn, hkey⟩ := findIndex_eq_some vin.prevout man.vMasternodes i hfind
      rw [hget] at hmn
      cases hmn
      rw [← hkey]
      exact eraseIdx_key_ne man.vMasternodes i e ((uniqueOutpoints_iff man).mp huniq) hget m0 hm0
  · intro hrecent
    rw [hrun]
    unfold pingKnown
    rw [if_pos h4, h5]
    dsimp only
    rw [if_neg (by decide), if_neg (by rw [hseen true hrecent]; decide)]

/-- Witness for C19: a stop ping for the stored sample entry, last seen 10000 s before the
clock reading: the entry goes to `REMOVE`, the sweep leaves nothing, and nothing is counted. -/
theorem C19_stop_ping_disables_witness :
    pingTaken sampleEnv sampleEntry [1] 1700010000 true
    ∧ sampleEntry.UpdatedWithin sampleEnv sampleEnv.MASTERNODE_MIN_DSEEP_SECONDS = false
    ∧ (ProcessMessage sampleEnv samplePeer (NetMsg.dseep sampleEntry.vin [1] 1700010000 true)
        sampleRegistry).1.vMasternodes
        = [{ sampleEntry with lastDseep := 1700010000, activeState := MASTERNODE_REMOVE }]
    ∧ ((ProcessMessage sampleEnv samplePeer (NetMsg.dseep sampleEntry.vin [1] 1700010000 true)
        sampleRegistry).1.CheckAndRemove sampleEnv).vMasternodes
        = (CMasternodeMan.CheckAndRemove sampleEnv emptyRegistry).vMasternodes
    ∧ ((ProcessMessage sampleEnv samplePeer (NetMsg.dseep sampleEntry.vin [1] 1700010000 true)
        sampleRegistry).1.CountEnabled sampleEnv 70047).1 = 0 :=
  have h := (C19_stop_ping_disables sampleEnv sampleEnv samplePeer sampleRegistry sampleEntry.vin
    [1] 1700010000 0 sampleEntry 70047 (by decide) (by decide) (by decide) (by decide)).1
    (by decide)
  ⟨by decide, by decide, congrArg (fun r => r.1.vMasternodes) h.1, h.2.1, h.2.2.1⟩

/-- Counterexample to C19 as stated: a valid stop ping for an entry that was seen at the
clock reading. The entry keeps its state, the next sweep keeps the entry (now enabled), and
`CountEnabled` counts it. -/
theorem C19_counterexample :
    freshRegistry.Find (freshEntry 3).vin = some 0
    ∧ freshRegistry.vMasternodes[0]? = some (freshEntry 3)
    ∧ ((1700010000 - sampleEnv.GetAdjustedTime).natAbs ≤ 3600
      ∧ (freshEntry 3).lastDseep < 1700010000
      ∧ sampleEnv.VerifyMessage (freshEntry 3).pubkey2 [1]
          (pingMessage sampleEnv (freshEntry 3) 1700010000 true) = true)
    ∧ (ProcessMessage sampleEnv samplePeer (NetMsg.dseep (freshEntry 3).vin [1] 1700010000 true)
        freshRegistry).1.vMasternodes.map (fun m => m.activeState) = [MASTERNODE_PRE_ENABLED]
    ∧ (CMasternodeMan.CheckAndRemove sampleEnv
        (ProcessMessage sampleEnv samplePeer (NetMsg.dseep (freshEntry 3).vin [1] 1700010000 true)
          freshRegistry).1).vMasternodes.map (fun m => (m.vin.prevout, m.activeState))
        = [(⟨3, 0⟩, MASTERNODE_ENABLED)]
    ∧ (CMasternodeMan.CountEnabled sampleEnv
        (CMasternodeMan.CheckAndRemove sampleEnv
          (ProcessMessage sampleEnv samplePeer
            (NetMsg.dseep (freshEntry 3).vin [1] 1700010000 true) freshRegistry).1) 70047).1
        = 1 := by
  refine ⟨by decide, by decide, ⟨by decide, by decide, by decide⟩, by decide, ?_, ?_⟩
  · rw [CheckAndRemove_entries]
    decide
  · unfold CMasternodeMan.CountEnabled
    rw [CheckAndRemove_entries]
    decide

theorem mapFind_mapSet {K : Type} [DecidableEq K] (k : K) (v : Int) (m : List (K × Int)) :
    mapFind k (mapSet k v m) = some v := by
  simp [mapSet, mapFind]

theorem ProcessMessage_mvote (env : Env) (pfrom : CNode) (man : CMasternodeMan) (vin : CTxIn)
    (vchSig : List Nat) (nVote : Int) (hsync : env.IsBlockchainSynced = true) :
    ProcessMessage env pfrom (NetMsg.mvote vin vchSig nVote) man
      = ProcessMvote env vin vchSig nVote man := by
  have hs : ¬ env.IsBlockchainSynced = false := by simp [hsync]
  unfold ProcessMessage
  rw [if_neg hs]

theorem voteKnown_taken (env : Env) (vin : CTxIn) (vchSig : List Nat) (nVote : Int)
    (man : CMasternodeMan) (i : Nat) (e : CMasternode)
    (h : voteTaken env e vin vchSig nVote) :
    voteKnown env vin vchSig nVote man i e
      = ({ man with vMasternodes := (man.vMasternodes.set i
            { e with nVote := nVote, lastVote := env.GetAdjustedTime }) },
         { pushed := env.vNodes.map (fun pnode => (pnode, NetMsg.mvote vin vchSig nVote)) }) := by
  unfold voteKnown
  have h1 : env.GetAdjustedTime - e.lastVote > 60 * 60 := h.1
  rw [if_pos h1, h.2]
  simp

theorem voteKnown_not_taken (env : Env) (vin : CTxIn) (vchSig : List Nat) (nVote : Int)
    (man : CMasternodeMan) (i : Nat) (e : CMasternode)
    (h : ¬ voteTaken env e vin vchSig nVote) :
    voteKnown env vin vchSig nVote man i e = (man, {}) := by
  unfold voteKnown
  by_cases h1 : env.GetAdjustedTime - e.lastVote > 60 * 60
  · rw [if_pos h1]
    have hsig : env.VerifyMessage e.pubkey2 vchSig
        (env.vinToString vin ++ lexical_cast nVote) = false := by
      cases hv : env.VerifyMessage e.pubkey2 vchSig
          (env.vinToString vin ++ lexical_cast nVote) with
      | false => rfl
      | true => exact absurd ⟨h1, hv⟩ h
    rw [if_pos hsig]
  · rw [if_neg h1]

/-- C21 (amended): vote acceptance on a synced node. For a registry whose entry for the
vote's outpoint is `e` at position `i`, the `mvote` is taken exactly under `voteTaken`:
strictly more than 3600 s of the adjusted clock since `e.lastVote`, and the signature over
outpoint and vote value good under `e.pubkey2`. When taken, `e.nVote` becomes the message's
vote, `e.lastVote` the adjusted clock, and the vote is pushed once to every connected peer;
otherwise the registry is unchanged and nothing is pushed. A vote for an unknown outpoint
changes nothing. -/
theorem C21_vote_acceptance (env : Env) (pfrom : CNode) (man : CMasternodeMan) (vin : CTxIn)
    (vchSig : List Nat) (nVote : Int) (hsync : env.IsBlockchainSynced = true) :
    (∀ i e, man.Find vin = some i → man.vMasternodes[i]? = some e →
      (voteTaken env e vin vchSig nVote →
        ProcessMessage env pfrom (NetMsg.mvote vin vchSig nVote) man
          = ({ man with vMasternodes := (man.vMasternodes.set i
                { e with nVote := nVote, lastVote := env.GetAdjustedTime }) },
             { pushed := env.vNodes.map
                 (fun pnode => (pnode, NetMsg.mvote vin vchSig nVote)) }))
      ∧ (¬ voteTaken env e vin vchSig nVote →
        ProcessMessage env pfrom (NetMsg.mvote vin vchSig nVote) man = (man, {}))
      ∧ ((∃ e1, (ProcessMessage env pfrom (NetMsg.mvote vin vchSig nVote)
              man).1.vMasternodes[i]? = some e1
            ∧ e1.lastVote = env.GetAdjustedTime ∧ e.lastVote ≠ env.GetAdjustedTime)
          ↔ voteTaken env e vin vchSig nVote))
    ∧ (man.Find vin = none →
        ProcessMessage env pfrom (NetMsg.mvote vin vchSig nVote) man = (man, {})) := by
  rw [ProcessMessage_mvote env pfrom man vin vchSig nVote hsync]
  constructor
  · intro i e hfind hget
    have hrun : ProcessMvote env vin vchSig nVote man
        = voteKnown env vin vchSig nVote man i e := by
      unfold ProcessMvote
      rw [hfind]
      simp only [hget]
    have hlt : i < man.vMasternodes.length := (List.getElem?_eq_some.mp hget).1
    rw [hrun]
    refine ⟨voteKnown_taken env vin vchSig nVote man i e,
      voteKnown_not_taken env vin vchSig nVote man i e, ?_, ?_⟩
    · rintro ⟨e1, hat, hlast, hne⟩
      by_contra hn
      rw [voteKnown_not_taken env vin vchSig nVote man i e hn] at hat
      simp only at hat
      rw [hget] at hat
      cases hat
      exact hne hlast
    · intro ht
      rw [voteKnown_taken env vin vchSig nVote man i e ht]
      refine ⟨{ e with nVote := nVote, lastVote := env.GetAdjustedTime }, ?_, rfl, ?_⟩
      · simp [List.getElem?_set, hlt]
      · have := ht.1
        intro heq
        rw [heq] at this
        omega
  · intro hnone
    unfold ProcessMvote
    rw [hnone]

/-- Witness for C21: a first vote for the stored sample entry is taken and goes to both
connected peers. -/
theorem C21_vote_acceptance_witness :
    voteTaken sampleEnv sampleEntry sampleEntry.vin [1] 1
    ∧ ProcessMessage sampleEnv samplePeer (NetMsg.mvote sampleEntry.vin [1] 1) sampleRegistry
        = ({ sampleRegistry with vMasternodes :=
              [{ sampleEntry with nVote := 1, lastVote := 1700010000 }] },
           { pushed := [(1, NetMsg.mvote sampleEntry.vin [1] 1),
                        (2, NetMsg.mvote sampleEntry.vin [1] 1)] }) :=
  ⟨by decide,
   ((C21_vote_acceptance sampleEnv samplePeer sampleRegistry sampleEntry.vin [1] 1
      (by decide)).1 0 sampleEntry (by decide) (by decide)).1 (by decide)⟩

/-- Counterexample to C21 as stated: the stored entry last voted exactly 3600 s before the
clock reading and the signature is good, yet the vote is dropped: the registry is unchanged
and nothing is pushed. -/
theorem C21_counterexample :
    votedRegistry.Find sampleEntry.vin = some 0
    ∧ (votedRegistry.vMasternodes[0]?).map (fun e => sampleEnv.GetAdjustedTime - e.lastVote)
        = some 3600
    ∧ (votedRegistry.vMasternodes[0]?).map (fun e => sampleEnv.VerifyMessage e.pubkey2 [1]
          (sampleEnv.vinToString sampleEntry.vin ++ lexical_cast 1)) = some true
    ∧ ProcessMessage sampleEnv samplePeer (NetMsg.mvote sampleEntry.vin [1] 1) votedRegistry
        = (votedRegistry, {}) := by
  refine ⟨by decide, by decide, by decide, by decide⟩

theorem ProcessMessage_dseg (env : Env) (pfrom : CNode) (man : CMasternodeMan) (vin : CTxIn)
    (hsync : env.IsBlockchainSynced = true) :
    ProcessMessage env pfrom (NetMsg.dseg vin) man = ProcessDseg env pfrom vin man := by
  have hs : ¬ env.IsBlockchainSynced = false := by simp [hsync]
  unfold ProcessMessage
  rw [if_neg hs]

theorem askedUsRecently_iff (env : Env) (pfrom : CNode) (man : CMasternodeMan) :
    askedUsRecently env pfrom man = true
      ↔ ∃ d, mapFind pfrom.addr.ip man.mAskedUsForMasternodeList = some d ∧ env.GetTime < d := by
  unfold askedUsRecently
  cases mapFind pfrom.addr.ip man.mAskedUsForMasternodeList with
  | none => simp
  | some t => simp

/-- C22: the rate limit on full-list requests, on a synced node. On the main network and for
a peer with a non-private address, a `dseg` with the null vin that arrives while the map of
inbound list requests holds a deadline after the clock reading for the peer pushes nothing,
scores the peer 34 and leaves the registry, the deadline included, unchanged; one that
arrives when no such deadline is ahead sets the deadline of the peer to the clock reading
plus 10800, changes nothing else in the registry and scores nothing. A request from a peer
in a private range or on another network is never scored and never recorded. -/
theorem C22_list_request_rate_limit (env : Env) (pfrom : CNode) (man : CMasternodeMan)
    (hsync : env.IsBlockchainSynced = true) :
    (env.IsRFC1918 pfrom.addr = false → env.isMainNet = true →
      (∀ d, mapFind pfrom.addr.ip man.mAskedUsForMasternodeList = some d → env.GetTime < d →
        ProcessMessage env pfrom (NetMsg.dseg env.CTxInDefault) man
          = (man, { misbehaving := [(pfrom.id, 34)] }))
      ∧ ((∀ d, mapFind pfrom.addr.ip man.mAskedUsForMasternodeList = some d →
            d ≤ env.GetTime) →
          (ProcessMessage env pfrom (NetMsg.dseg env.CTxInDefault) man).1
            = { man with mAskedUsForMasternodeList := (mapSet pfrom.addr.ip
                  (env.GetTime + 10800) man.mAskedUsForMasternodeList) }
          ∧ mapFind pfrom.addr.ip (ProcessMessage env pfrom (NetMsg.dseg env.CTxInDefault)
                man).1.mAskedUsForMasternodeList = some (env.GetTime + 10800)
          ∧ (ProcessMessage env pfrom (NetMsg.dseg env.CTxInDefault) man).2.misbehaving = []))
    ∧ (env.IsRFC1918 pfrom.addr = true ∨ env.isMainNet = false →
        (ProcessMessage env pfrom (NetMsg.dseg env.CTxInDefault) man).1 = man
        ∧ (ProcessMessage env pfrom (NetMsg.dseg env.CTxInDefault) man).2.misbehaving = []) := by
  rw [ProcessMessage_dseg env pfrom man env.CTxInDefault hsync]
  unfold ProcessDseg
  rw [if_pos rfl]
  constructor
  · intro hpub hmain
    rw [if_pos ⟨hpub, hmain⟩]
    constructor
    · intro d hd hearly
      rw [if_pos ((askedUsRecently_iff env pfrom man).mpr ⟨d, hd, hearly⟩)]
    · intro hdue
      have hnot : ¬ askedUsRecently env pfrom man = true := by
        rw [askedUsRecently_iff]
        rintro ⟨d, hd, hearly⟩
        have := hdue d hd
        omega
      rw [if_neg hnot]
      refine ⟨rfl, ?_, rfl⟩
      exact mapFind_mapSet _ _ _
  · intro hpriv
    have hnot : ¬ (env.IsRFC1918 pfrom.addr = false ∧ env.isMainNet = true) := by
      rintro ⟨h1, h2⟩
      rcases hpriv with h | h
      · rw [h1] at h; cases h
      · rw [h2] at h; cases h
    rw [if_neg hnot]
    exact ⟨rfl, rfl⟩

/-- Witness for C22: the sending peer asks again 100 s before its deadline. -/
theorem C22_list_request_rate_limit_witness :
    sampleEnv.IsRFC1918 samplePeer.addr = false ∧ sampleEnv.isMainNet = true
    ∧ mapFind samplePeer.addr.ip askedRegistry.mAskedUsForMasternodeList = some 1700010100
    ∧ ProcessMessage sampleEnv samplePeer (NetMsg.dseg sampleEnv.CTxInDefault) askedRegistry
        = (askedRegistry, { misbehaving := [(7, 34)] }) :=
  ⟨by decide, by decide, by decide,
   ((C22_list_request_rate_limit sampleEnv samplePeer askedRegistry (by decide)).1
      (by decide) (by decide)).1 1700010100 (by decide) (by decide)⟩

theorem listed_iff (env : Env) (mn : CMasternode) :
    listed env mn = true ↔ env.IsRFC1918 mn.addr = false ∧ mn.IsEnabled = true := by
  unfold listed
  cases env.IsRFC1918 mn.addr <;> cases mn.IsEnabled <;> simp

theorem dsegLoop_skip (env : Env) (pfrom : CNode) (vin : CTxIn) (count : Int)
    (mn : CMasternode) (rest : List CMasternode) (i : Int) (h : listed env mn = false) :
    dsegLoop env pfrom vin count (mn :: rest) i = dsegLoop env pfrom vin count rest i := by
  conv_lhs => unfold dsegLoop
  by_cases h1 : env.IsRFC1918 mn.addr = true
  · rw [if_pos h1]
  · rw [if_neg h1]
    have h2 : ¬ mn.IsEnabled = true := by
      intro h2
      have := (listed_iff env mn).mpr ⟨by simpa using h1, h2⟩
      rw [h] at this
      cases this
    rw [if_neg h2]

theorem dsegLoop_listed (env : Env) (pfrom : CNode) (vin : CTxIn) (count : Int)
    (mn : CMasternode) (rest : List CMasternode) (i : Int) (h : listed env mn = true) :
    dsegLoop env pfrom vin count (mn :: rest) i
      = if vin = env.CTxInDefault then
          (pfrom.id, entryMessage mn count i) :: dsegLoop env pfrom vin count rest (i + 1)
        else if vin = mn.vin then [(pfrom.id, entryMessage mn count i)]
        else dsegLoop env pfrom vin count rest (i + 1) := by
  have h12 := (listed_iff env mn).mp h
  have h1 : ¬ env.IsRFC1918 mn.addr = true := by simp [h12.1]
  conv_lhs => unfold dsegLoop
  rw [if_neg h1, if_pos h12.2]

theorem dsegLoop_full (env : Env) (pfrom : CNode) (count : Int) (l : List CMasternode)
    (i : Int) :
    (dsegLoop env pfrom env.CTxInDefault count l i).length = (l.filter (listed env)).length
    ∧ ∀ (k : Nat) (mn : CMasternode), (l.filter (listed env))[k]? = some mn →
        (dsegLoop env pfrom env.CTxInDefault count l i)[k]?
          = some (pfrom.id, entryMessage mn count (i + (k : Int))) := by
  induction l generalizing i with
  | nil => exact ⟨rfl, fun k mn h => by simp at h⟩
  | cons a l ih =>
    cases ha : listed env a with
    | false =>
      rw [dsegLoop_skip env pfrom _ count a l i ha,
        List.filter_cons_of_neg (by simp [ha])]
      exact ih i
    | true =>
      rw [dsegLoop_listed env pfrom _ count a l i ha, if_pos rfl,
        List.filter_cons_of_pos ha]
      refine ⟨by simp [(ih (i + 1)).1], ?_⟩
      intro k mn hk
      cases k with
      | zero =>
        simp only [List.getElem?_cons_zero, Option.some.injEq] at hk
        subst hk
        simp
      | succ k =>
        rw [List.getElem?_cons_succ] at hk
        rw [List.getElem?_cons_succ, (ih (i + 1)).2 k mn hk]
        congr 3
        push_cast
        ring

theorem dsegLoop_specific_none (env : Env) (pfrom : CNode) (vin : CTxIn) (count : Int)
    (hvin : vin ≠ env.CTxInDefault) (l : List CMasternode) (i : Int)
    (hno : ∀ mn ∈ l, listed env mn = true → mn.vin ≠ vin) :
    dsegLoop env pfrom vin count l i = [] := by
  induction l generalizing i with
  | nil => rfl
  | cons a l ih =>
    have hl : ∀ mn ∈ l, listed env mn = true → mn.vin ≠ vin :=
      fun mn hm => hno mn (List.mem_cons_of_mem _ hm)
    cases ha : listed env a with
    | false =>
      rw [dsegLoop_skip env pfrom vin count a l i ha]
      exact ih i hl
    | true =>
      have hne : ¬ vin = a.vin := fun h => hno a (List.mem_cons_self _ _) ha h.symm
      rw [dsegLoop_listed env pfrom vin count a l i ha, if_neg hvin, if_neg hne]
      exact ih (i + 1) hl

theorem dsegLoop_specific_some (env : Env) (pfrom : CNode) (vin : CTxIn) (count : Int)
    (hvin : vin ≠ env.CTxInDefault) (pre : List CMasternode) (mn : CMasternode)
    (post : List CMasternode) (i : Int)
    (hmn : listed env mn = true) (hmatch : mn.vin = vin)
    (hno : ∀ m ∈ pre, listed env m = true → m.vin ≠ vin) :
    dsegLoop env pfrom vin count (pre ++ mn :: post) i
      = [(pfrom.id, entryMessage mn count (i + ((pre.filter (listed env)).length : Int)))] := by
  induction pre generalizing i with
  | nil =>
    rw [List.nil_append, dsegLoop_listed env pfrom vin count mn post i hmn, if_neg hvin,
      if_pos hmatch.symm]
    simp
  | cons a pre ih =>
    have hl : ∀ m ∈ pre, listed env m = true → m.vin ≠ vin :=
      fun m hm => hno m (List.mem_cons_of_mem _ hm)
    rw [List.cons_append]
    cases ha : listed env a with
    | false =>
      rw [dsegLoop_skip env pfrom vin count a _ i ha, ih i hl,
        List.filter_cons_of_neg (by simp [ha])]
    | true =>
      have hne : ¬ vin = a.vin := fun h => hno a (List.mem_cons_self _ _) ha h.symm
      rw [dsegLoop_listed env pfrom vin count a _ i ha, if_neg hvin, if_neg hne,
        ih (i + 1) hl, List.filter_cons_of_pos ha]
      congr 3
      simp only [List.length_cons]
      push_cast
      ring

theorem ProcessDseg_honoured (env : Env) (pfrom : CNode) (man : CMasternodeMan) (vin : CTxIn)
    (hhonoured : ¬ (vin = env.CTxInDefault ∧ env.IsRFC1918 pfrom.addr = false
      ∧ env.isMainNet = true ∧ askedUsRecently env pfrom man = true)) :
    (ProcessDseg env pfrom vin man).1.vMasternodes = man.vMasternodes
    ∧ (ProcessDseg env pfrom vin man).2
        = { pushed := dsegLoop env pfrom vin (man.vMasternodes.length : Int)
              man.vMasternodes 0 } := by
  unfold ProcessDseg
  by_cases h1 : vin = env.CTxInDefault
  · rw [if_pos h1]
    by_cases h2 : env.IsRFC1918 pfrom.addr = false ∧ env.isMainNet = true
    · rw [if_pos h2]
      have h3 : ¬ askedUsRecently env pfrom man = true :=
        fun h3 => hhonoured ⟨h1, h2.1, h2.2, h3⟩
      rw [if_neg h3]
      exact ⟨rfl, rfl⟩
    · rw [if_neg h2]
      exact ⟨rfl, rfl⟩
  · rw [if_neg h1]
    exact ⟨rfl, rfl⟩

/-- C23 (amended): the answer to a list request on a synced node, when the request is not
refused by the rate limit. The entry vector is unchanged and only pushes to the requester
are made. For the null vin there is exactly one announcement per entry that is enabled and
whose address is not in a private range, in registry order, carrying `count = size()` and
the running index. For a specific vin the answer is the one announcement of the first entry
that is enabled, not in a private range and whose `vin` equals the requested input as a
whole, and nothing when there is no such entry. An announcement is a `dsee` for a legacy
entry and a `dsee+` otherwise. -/
theorem C23_list_request_response (env : Env) (pfrom : CNode) (man : CMasternodeMan)
    (vin : CTxIn) (hsync : env.IsBlockchainSynced = true)
    (hhonoured : ¬ (vin = env.CTxInDefault ∧ env.IsRFC1918 pfrom.addr = false
      ∧ env.isMainNet = true ∧ askedUsRecently env pfrom man = true)) :
    (ProcessMessage env pfrom (NetMsg.dseg vin) man).1.vMasternodes = man.vMasternodes
    ∧ (ProcessMessage env pfrom (NetMsg.dseg vin) man).2
        = { pushed := (ProcessMessage env pfrom (NetMsg.dseg vin) man).2.pushed }
    ∧ (vin = env.CTxInDefault →
        (ProcessMessage env pfrom (NetMsg.dseg vin) man).2.pushed.length
          = (man.vMasternodes.filter (listed env)).length
        ∧ ∀ (k : Nat) (mn : CMasternode),
            (man.vMasternodes.filter (listed env))[k]? = some mn →
            (ProcessMessage env pfrom (NetMsg.dseg vin) man).2.pushed[k]?
              = some (pfrom.id, entryMessage mn (man.vMasternodes.length : Int) (k : Int)))
    ∧ (vin ≠ env.CTxInDefault →
        ((∀ mn ∈ man.vMasternodes, listed env mn = true → mn.vin ≠ vin) →
          (ProcessMessage env pfrom (NetMsg.dseg vin) man).2.pushed = [])
        ∧ ∀ (pre post : List CMasternode) (mn : CMasternode),
            man.vMasternodes = pre ++ mn :: post → listed env mn = true → mn.vin = vin →
            (∀ m ∈ pre, listed env m = true → m.vin ≠ vin) →
            (ProcessMessage env pfrom (NetMsg.dseg vin) man).2.pushed
              = [(pfrom.id, entryMessage mn (man.vMasternodes.length : Int)
                    ((pre.filter (listed env)).length : Int))])
    ∧ (∀ (mn : CMasternode) (count i : Int),
        (mn.isOldNode = true → ∃ d, entryMessage mn count i = NetMsg.dsee d ∧ d.vin = mn.vin)
        ∧ (mn.isOldNode = false →
            ∃ d, entryMessage mn count i = NetMsg.dseePlus d ∧ d.vin = mn.vin)) := by
  rw [ProcessMessage_dseg env pfrom man vin hsync]
  obtain ⟨hentries, heff⟩ := ProcessDseg_honoured env pfrom man vin hhonoured
  refine ⟨hentries, by rw [heff], ?_, ?_, ?_⟩
  · intro hdef
    rw [heff]
    subst hdef
    have h := dsegLoop_full env pfrom (man.vMasternodes.length : Int) man.vMasternodes 0
    refine ⟨h.1, ?_⟩
    intro k mn hk
    have := h.2 k mn hk
    rw [zero_add] at this
    exact this
  · intro hvin
    rw [heff]
    constructor
    · intro hno
      exact dsegLoop_specific_none env pfrom vin _ hvin _ 0 hno
    · intro pre post mn hsplit hmn hmatch hno
      have := dsegLoop_specific_some env pfrom vin (man.vMasternodes.length : Int) hvin pre mn
        post 0 hmn hmatch hno
      rw [zero_add, ← hsplit] at this
      exact this
  · intro mn count i
    unfold entryMessage
    dsimp only
    constructor
    · intro h
      rw [if_pos h]
      exact ⟨_, rfl, rfl⟩
    · intro h
      rw [if_neg (by simp [h])]
      exact ⟨_, rfl, rfl⟩

/-- Witness for C23: the full list of a registry with two enabled entries and one that is
not enabled is a `dsee+` for the first and a `dsee` for the second. -/
theorem C23_list_request_response_witness :
    (ProcessMessage sampleEnv samplePeer (NetMsg.dseg sampleEnv.CTxInDefault)
        listRegistry).2.pushed.length = 2
    ∧ (ProcessMessage sampleEnv samplePeer (NetMsg.dseg sampleEnv.CTxInDefault)
        listRegistry).1.vMasternodes = listRegistry.vMasternodes
    ∧ (listRegistry.vMasternodes.filter (listed sampleEnv)).length = 2 :=
  ⟨by decide,
   (C23_list_request_response sampleEnv samplePeer listRegistry sampleEnv.CTxInDefault
      (by decide) (by decide)).1, by decide⟩

/-- Counterexample to C23 as stated: the registry holds the entry for the requested vin,
but the entry is not enabled, and the request for that vin is answered with nothing. -/
theorem C23_counterexample :
    sampleEntry.vin ≠ sampleEnv.CTxInDefault
    ∧ sampleRegistry.vMasternodes = [sampleEntry]
    ∧ sampleEntry.activeState = MASTERNODE_PRE_ENABLED
    ∧ ProcessMessage sampleEnv samplePeer (NetMsg.dseg sampleEntry.vin) sampleRegistry
        = (sampleRegistry, {}) := by
  refine ⟨by decide, rfl, by decide, by decide⟩

theorem removeLoop_others (vin : CTxIn) (l : List CMasternode) :
    (CMasternodeMan.removeLoop vin l).filter (fun m => decide (m.vin.prevout ≠ vin.prevout))
      = l.filter (fun m => decide (m.vin.prevout ≠ vin.prevout)) := by
  induction l with
  | nil => rfl
  | cons a l ih =>
    unfold CMasternodeMan.removeLoop
    by_cases h : a.vin = vin
    · rw [if_pos h, List.filter_cons_of_neg (by simp [h])]
    · rw [if_neg h, List.filter_cons, List.filter_cons, ih]

theorem removeLoop_absent (vin : CTxIn) (l : List CMasternode)
    (h : ∀ m ∈ l, m.vin ≠ vin) : CMasternodeMan.removeLoop vin l = l := by
  induction l with
  | nil => rfl
  | cons a l ih =>
    unfold CMasternodeMan.removeLoop
    rw [if_neg (h a (List.mem_cons_self _ _)),
      ih (fun m hm => h m (List.mem_cons_of_mem _ hm))]

theorem removeLoop_present (vin : CTxIn) (l : List CMasternode)
    (hnodup : (l.map (fun m => m.vin.prevout)).Nodup) (h : ∃ m ∈ l, m.vin = vin) :
    CMasternodeMan.removeLoop vin l
      = l.filter (fun m => decide (m.vin.prevout ≠ vin.prevout)) := by
  induction l with
  | nil =>
    obtain ⟨m, hm, _⟩ := h
    cases hm
  | cons a l ih =>
    rw [List.map_cons, List.nodup_cons] at hnodup
    unfold CMasternodeMan.removeLoop
    by_cases ha : a.vin = vin
    · rw [if_pos ha, List.filter_cons_of_neg (by simp [ha])]
      symm
      rw [List.filter_eq_self]
      intro m hm
      have : m.vin.prevout ≠ a.vin.prevout := fun heq =>
        hnodup.1 (List.mem_map.mpr ⟨m, hm, heq⟩)
      rw [ha] at this
      simpa using this
    · obtain ⟨m, hm, hmv⟩ := h
      rcases List.mem_cons.mp hm with rfl | hml
      · exact absurd hmv ha
      · have hne : a.vin.prevout ≠ vin.prevout := by
          intro heq
          apply hnodup.1
          rw [heq, ← hmv]
          exact List.mem_map.mpr ⟨m, hml, rfl⟩
        rw [if_neg ha, List.filter_cons_of_pos (by simpa using hne), ih hnodup.2 ⟨m, hml, hmv⟩]

/-- C24 (amended): `Remove(vin)` on a registry with unique outpoints. Only the entry vector
changes, and the entries with an outpoint other than `vin.prevout` are still present,
unchanged and in the same order. When some entry has a `vin` equal to the input as a whole,
no entry with the outpoint `vin.prevout` remains (`Find(vin)` returns nothing) and the
vector is exactly the entries of the other outpoints. When no entry has a `vin` equal to
the input as a whole, the registry is unchanged. -/
theorem C24_Remove (man : CMasternodeMan) (vin : CTxIn) (huniq : UniqueOutpoints man) :
    man.Remove vin = { man with vMasternodes := (man.Remove vin).vMasternodes }
    ∧ (man.Remove vin).vMasternodes.filter (fun m => decide (m.vin.prevout ≠ vin.prevout))
        = man.vMasternodes.filter (fun m => decide (m.vin.prevout ≠ vin.prevout))
    ∧ ((∃ m ∈ man.vMasternodes, m.vin = vin) →
        (man.Remove vin).Find vin = none
        ∧ (∀ m ∈ (man.Remove vin).vMasternodes, m.vin.prevout ≠ vin.prevout)
        ∧ (man.Remove vin).vMasternodes
            = man.vMasternodes.filter (fun m => decide (m.vin.prevout ≠ vin.prevout)))
    ∧ ((∀ m ∈ man.vMasternodes, m.vin ≠ vin) → man.Remove vin = man) := by
  have hnodup := (uniqueOutpoints_iff man).mp huniq
  refine ⟨rfl, removeLoop_others vin man.vMasternodes, ?_, ?_⟩
  · intro hex
    have hrem : (man.Remove vin).vMasternodes
        = man.vMasternodes.filter (fun m => decide (m.vin.prevout ≠ vin.prevout)) :=
      removeLoop_present vin man.vMasternodes hnodup hex
    have hnone : ∀ m ∈ (man.Remove vin).vMasternodes, m.vin.prevout ≠ vin.prevout := by
      intro m hm
      rw [hrem] at hm
      simpa using (List.mem_filter.mp hm).2
    refine ⟨?_, hnone, hrem⟩
    unfold CMasternodeMan.Find
    exact (findIndex_eq_none_iff _ _).mpr hnone
  · intro hno
    unfold CMasternodeMan.Remove
    rw [removeLoop_absent vin man.vMasternodes hno]

/-- Witness for C24: removing the stored input of the first of two fresh entries. -/
theorem C24_Remove_witness :
    UniqueOutpoints pairRegistry
    ∧ (pairRegistry.Remove (freshEntry 3).vin).vMasternodes = [freshEntry 9]
    ∧ (pairRegistry.Remove (freshEntry 3).vin).Find (freshEntry 3).vin = none :=
  ⟨(uniqueOutpoints_iff _).mpr (by decide), by decide,
   ((C24_Remove pairRegistry (freshEntry 3).vin ((uniqueOutpoints_iff _).mpr (by decide))).2.2.1
      ⟨freshEntry 3, by decide, rfl⟩).1⟩

/-- Counterexample to C24 as stated: the outpoints are unique and the input has the outpoint
`(3, 0)` of the first entry but another `nSequence`; after `Remove` the registry is as
before and `Find` still returns the entry. -/
theorem C24_counterexample :
    (pairRegistry.vMasternodes.map (fun e => e.vin.prevout)).Nodup
    ∧ pairRegistry.Remove ⟨⟨3, 0⟩, [], 1⟩ = pairRegistry
    ∧ (pairRegistry.Remove ⟨⟨3, 0⟩, [], 1⟩).Find ⟨⟨3, 0⟩, [], 1⟩ = some 0
    ∧ ((pairRegistry.Remove ⟨⟨3, 0⟩, [], 1⟩).vMasternodes[0]?).map (fun e => e.vin.prevout)
        = some (⟨⟨3, 0⟩, [], 1⟩ : CTxIn).prevout := by
  refine ⟨by decide, by decide, by decide, by decide⟩

/-- C25 (amended): `FindRandom` returns nothing when the registry is empty; otherwise, for
a draw `GetRandInt(size)` in its range `0 ≤ r < size`, it returns the entry of the registry
at position `r`, whatever the state of that entry. -/
theorem C25_FindRandom (env : Env) (man : CMasternodeMan) :
    (man.vMasternodes = [] → man.FindRandom env = none)
    ∧ (man.vMasternodes ≠ [] →
        0 ≤ env.GetRandInt man.vMasternodes.length →
        env.GetRandInt man.vMasternodes.length < man.vMasternodes.length →
        ∃ i e, man.FindRandom env = some i ∧ man.vMasternodes[i]? = some e
          ∧ (i : Int) = env.GetRandInt man.vMasternodes.length) := by
  constructor
  · intro h
    unfold CMasternodeMan.FindRandom
    rw [if_pos (by rw [h]; rfl)]
  · intro hne h0 hlt
    unfold CMasternodeMan.FindRandom
    rw [if_neg (by simpa using hne)]
    have hi : (env.GetRandInt man.vMasternodes.length).toNat < man.vMasternodes.length := by
      omega
    exact ⟨_, man.vMasternodes[(env.GetRandInt man.vMasternodes.length).toNat], rfl,
      List.getElem?_eq_getElem hi, Int.toNat_of_nonneg h0⟩

/-- Witness for C25: with the draw 1 the second of the two fresh entries is returned. -/
theorem C25_FindRandom_witness :
    pairRegistry.vMasternodes ≠ []
    ∧ ∃ i e, pairRegistry.FindRandom (drawEnv 1) = some i ∧ pairRegistry.vMasternodes[i]? = some e
        ∧ (i : Int) = (drawEnv 1).GetRandInt pairRegistry.vMasternodes.length :=
  ⟨by decide, (C25_FindRandom (drawEnv 1) pairRegistry).2 (by decide) (by decide) (by decide)⟩

/-- Counterexample to C25 as stated: the registry is not empty, and the entry `FindRandom`
returns for the draw 0 is in state `PRE_ENABLED`, not `ENABLED`. -/
theorem C25_counterexample :
    sampleRegistry.vMasternodes ≠ []
    ∧ sampleRegistry.FindRandom (drawEnv 0) = some 0
    ∧ (sampleRegistry.vMasternodes[0]?).map (fun e => e.activeState)
        = some MASTERNODE_PRE_ENABLED := by
  refine ⟨by decide, by decide, by decide⟩

/-- C26, the code at the failing input: a registry of two entries, both enabled with
protocol version 70047 once checked, and an empty exclusion list. There are two candidates
and the draw `GetRandInt(2)` has the two values 0 and 1; for both of them
`FindRandomNotInVec` returns the first entry, so the second candidate is returned for no
value of the draw. -/
theorem C26_second_candidate_never_drawn :
    (pairRegistry.CountEnabled sampleEnv 70047).1 = 2
    ∧ (pairRegistry.FindRandomNotInVec (drawEnv 0) [] 70047).2.vMasternodes.map
        (fun e => (e.vin.prevout, e.activeState, e.protocolVersion))
        = [(⟨3, 0⟩, MASTERNODE_ENABLED, 70047), (⟨9, 0⟩, MASTERNODE_ENABLED, 70047)]
    ∧ (pairRegistry.FindRandomNotInVec (drawEnv 0) [] 70047).1 = some 0
    ∧ (pairRegistry.FindRandomNotInVec (drawEnv 1) [] 70047).1 = some 0 := by
  refine ⟨by decide, by decide, by decide, by decide⟩

theorem inVins_eq_false_iff (vVins : List CTxIn) (m : CMasternode) :
    inVins vVins m = false ↔ ∀ vin ∈ vVins, m.vin.prevout ≠ vin.prevout := by
  unfold inVins
  simp

theorem oldestLoop_cons (env : Env) (vVins : List CTxIn) (nMinimumAge : Int)
    (mn : CMasternode) (rest : List CMasternode) (i : Nat)
    (oldest : Option (Nat × CMasternode)) :
    oldestLoop env vVins nMinimumAge (mn :: rest) i oldest
      = oldestLoop env vVins nMinimumAge rest (i + 1)
          (oldestStep env vVins nMinimumAge i (mn.Check env) oldest) := by
  conv_lhs => unfold oldestLoop
  unfold oldestStep
  dsimp only
  by_cases h1 : (mn.Check env).IsEnabled = false
  · rw [if_pos h1, if_pos h1]
  rw [if_neg h1, if_neg h1]
  by_cases h2 : env.GetMasternodeInputAge (mn.Check env) < nMinimumAge
  · rw [if_pos h2, if_pos h2]
  rw [if_neg h2, if_neg h2]
  by_cases h3 : inVins vVins (mn.Check env) = true
  · rw [if_pos h3, if_pos h3]
  rw [if_neg h3, if_neg h3]
  cases oldest with
  | none => rfl
  | some p =>
    obtain ⟨j, old⟩ := p
    dsimp only
    by_cases h4 : env.SecondsSincePayment old < env.SecondsSincePayment (mn.Check env)
    · rw [if_pos h4, if_pos h4]
    · rw [if_neg h4, if_neg h4]

theorem oldestStep_skip (env : Env) (vVins : List CTxIn) (nMinimumAge : Int) (i : Nat)
    (mn1 : CMasternode) (oldest : Option (Nat × CMasternode))
    (h : ¬ oldestEligible env vVins nMinimumAge mn1) :
    oldestStep env vVins nMinimumAge i mn1 oldest = oldest := by
  unfold oldestStep
  by_cases h1 : mn1.IsEnabled = false
  · rw [if_pos h1]
  rw [if_neg h1]
  by_cases h2 : env.GetMasternodeInputAge mn1 < nMinimumAge
  · rw [if_pos h2]
  rw [if_neg h2]
  by_cases h3 : inVins vVins mn1 = true
  · rw [if_pos h3]
  exfalso
  apply h
  refine ⟨?_, not_lt.mp h2, (inVins_eq_false_iff vVins mn1).mp (by simpa using h3)⟩
  simpa [CMasternode.IsEnabled] using h1

theorem oldestStep_eligible (env : Env) (vVins : List CTxIn) (nMinimumAge : Int) (i : Nat)
    (mn1 : CMasternode) (oldest : Option (Nat × CMasternode))
    (h : oldestEligible env vVins nMinimumAge mn1) :
    oldestStep env vVins nMinimumAge i mn1 oldest
      = match oldest with
        | none => some (i, mn1)
        | some (j, old) =>
          if env.SecondsSincePayment old < env.SecondsSincePayment mn1 then some (i, mn1)
          else some (j, old) := by
  unfold oldestStep
  have h1 : ¬ mn1.IsEnabled = false := by simp [CMasternode.IsEnabled, h.1]
  have h2 : ¬ env.GetMasternodeInputAge mn1 < nMinimumAge := not_lt.mpr h.2.1
  have h3 : ¬ inVins vVins mn1 = true := by
    rw [(inVins_eq_false_iff vVins mn1).mpr h.2.2]
    decide
  rw [if_neg h1, if_neg h2, if_neg h3]

theorem OldestInv_step (env : Env) (vVins : List CTxIn) (nMinimumAge : Int)
    (l : List CMasternode) (mn1 : CMasternode) (oldest : Option (Nat × CMasternode))
    (hinv : OldestInv env vVins nMinimumAge l oldest) :
    OldestInv env vVins nMinimumAge (l ++ [mn1])
      (oldestStep env vVins nMinimumAge l.length mn1 oldest) := by
  have hlast : (l ++ [mn1])[l.length]? = some mn1 := by simp
  have hmem : ∀ m, m ∈ l ++ [mn1] → m ∈ l ∨ m = mn1 := by
    intro m hm
    simpa using hm
  have hpre : ∀ j m, j < l.length → (l ++ [mn1])[j]? = some m → l[j]? = some m := by
    intro j m hj hm
    rwa [List.getElem?_append_left hj] at hm
  by_cases he : oldestEligible env vVins nMinimumAge mn1
  · rw [oldestStep_eligible env vVins nMinimumAge _ mn1 oldest he]
    cases oldest with
    | none =>
      refine ⟨hlast, he, ?_, ?_⟩
      · intro m hm hme
        rcases hmem m hm with h | h
        · exact absurd hme (hinv m h)
        · rw [h]
      · intro j m hj hm hme
        exact absurd hme (hinv m (List.getElem?_mem (hpre j m hj hm)))
    | some p =>
      obtain ⟨k, w⟩ := p
      obtain ⟨hget, hw, hmax, hfirst⟩ := hinv
      have hk : k < l.length := (List.getElem?_eq_some.mp hget).1
      dsimp only
      by_cases hlt : env.SecondsSincePayment w < env.SecondsSincePayment mn1
      · rw [if_pos hlt]
        refine ⟨hlast, he, ?_, ?_⟩
        · intro m hm hme
          rcases hmem m hm with h | h
          · exact le_of_lt (lt_of_le_of_lt (hmax m h hme) hlt)
          · rw [h]
        · intro j m hj hm hme
          exact lt_of_le_of_lt (hmax m (List.getElem?_mem (hpre j m hj hm)) hme) hlt
      · rw [if_neg hlt]
        refine ⟨by rw [List.getElem?_append_left hk]; exact hget, hw, ?_, ?_⟩
        · intro m hm hme
          rcases hmem m hm with h | h
          · exact hmax m h hme
          · rw [h]; exact not_lt.mp hlt
        · intro j m hj hm hme
          exact hfirst j m hj (hpre j m (lt_trans hj hk) hm) hme
  · rw [oldestStep_skip env vVins nMinimumAge _ mn1 oldest he]
    cases oldest with
    | none =>
      intro m hm
      rcases hmem m hm with h | h
      · exact hinv m h
      · rw [h]; exact he
    | some p =>
      obtain ⟨k, w⟩ := p
      obtain ⟨hget, hw, hmax, hfirst⟩ := hinv
      have hk : k < l.length := (List.getElem?_eq_some.mp hget).1
      refine ⟨by rw [List.getElem?_append_left hk]; exact hget, hw, ?_, ?_⟩
      · intro m hm hme
        rcases hmem m hm with h | h
        · exact hmax m h hme
        · rw [h] at hme; exact absurd hme he
      · intro j m hj hm hme
        exact hfirst j m hj (hpre j m (lt_trans hj hk) hm) hme

theorem oldestLoop_spec (env : Env) (vVins : List CTxIn) (nMinimumAge : Int)
    (l pre : List CMasternode) (oldest : Option (Nat × CMasternode))
    (hinv : OldestInv env vVins nMinimumAge (pre.map (CMasternode.Check env)) oldest) :
    OldestInv env vVins nMinimumAge ((pre ++ l).map (CMasternode.Check env))
      (oldestLoop env vVins nMinimumAge l pre.length oldest) := by
  induction l generalizing pre oldest with
  | nil =>
    rw [List.append_nil]
    exact hinv
  | cons a l ih =>
    rw [oldestLoop_cons]
    have hstep := OldestInv_step env vVins nMinimumAge _ (a.Check env) oldest hinv
    rw [List.length_map] at hstep
    have := ih (pre ++ [a]) _ (by rw [List.map_append]; exact hstep)
    rw [List.length_append, List.length_singleton, List.append_assoc] at this
    exact this

/-- C27: `FindOldestNotInVec` on the registry as the call leaves it (every entry checked).
It returns nothing exactly when no entry is enabled with collateral input age at least
`nMinimumAge` and an outpoint not in the exclusion list. Otherwise it returns such an entry
whose `SecondsSincePayment` is greater than or equal to that of every eligible entry, and
strictly greater than that of every eligible entry before it in registry order. -/
theorem C27_FindOldestNotInVec (env : Env) (man : CMasternodeMan) (vVins : List CTxIn)
    (nMinimumAge : Int) :
    ((man.FindOldestNotInVec env vVins nMinimumAge).1 = none
      ↔ ∀ m ∈ (man.FindOldestNotInVec env vVins nMinimumAge).2.vMasternodes,
          ¬ oldestEligible env vVins nMinimumAge m)
    ∧ ∀ i, (man.FindOldestNotInVec env vVins nMinimumAge).1 = some i →
        ∃ w, (man.FindOldestNotInVec env vVins nMinimumAge).2.vMasternodes[i]? = some w
          ∧ oldestEligible env vVins nMinimumAge w
          ∧ (∀ m ∈ (man.FindOldestNotInVec env vVins nMinimumAge).2.vMasternodes,
              oldestEligible env vVins nMinimumAge m →
              env.SecondsSincePayment m ≤ env.SecondsSincePayment w)
          ∧ ∀ j m, j < i →
              (man.FindOldestNotInVec env vVins nMinimumAge).2.vMasternodes[j]? = some m →
              oldestEligible env vVins nMinimumAge m →
              env.SecondsSincePayment m < env.SecondsSincePayment w := by
  have hspec := oldestLoop_spec env vVins nMinimumAge man.vMasternodes [] none
    (fun m hm => by cases hm)
  rw [List.nil_append, List.length_nil] at hspec
  unfold CMasternodeMan.FindOldestNotInVec CMasternodeMan.Check
  dsimp only
  cases hres : oldestLoop env vVins nMinimumAge man.vMasternodes 0 none with
  | none =>
    rw [hres] at hspec
    refine ⟨⟨fun _ => hspec, fun _ => rfl⟩, ?_⟩
    intro i hi
    cases hi
  | some p =>
    obtain ⟨k, w⟩ := p
    rw [hres] at hspec
    obtain ⟨hget, hw, hmax, hfirst⟩ := hspec
    constructor
    · constructor
      · intro h
        cases h
      · intro h
        exact absurd hw (h w (List.getElem?_mem hget))
    · intro i hi
      simp only [Option.map_some', Option.some.injEq] at hi
      subst hi
      exact ⟨w, hget, hw, hmax, hfirst⟩

/-- Witness for C27: of the two fresh entries the first has waited longest for a payment. -/
theorem C27_FindOldestNotInVec_witness :
    (pairRegistry.FindOldestNotInVec paymentEnv [] 15).1 = some 0
    ∧ ∃ w, (pairRegistry.FindOldestNotInVec paymentEnv [] 15).2.vMasternodes[0]? = some w
        ∧ oldestEligible paymentEnv [] 15 w
        ∧ paymentEnv.SecondsSincePayment w = 50 :=
  ⟨by decide,
   let ⟨w, h1, h2, _⟩ := (C27_FindOldestNotInVec paymentEnv pairRegistry [] 15).2 0 (by decide)
   ⟨w, h1, h2, by
     have : w = (freshEntry 3).Check paymentEnv := by
       have h : (pairRegistry.FindOldestNotInVec paymentEnv [] 15).2.vMasternodes[0]?
           = some ((freshEntry 3).Check paymentEnv) := by decide
       rw [h] at h1
       exact (Option.some.inj h1).symm
     rw [this]
     decide⟩⟩

theorem readDataSize_small (n : Nat) (h : n < 2 ^ 31 + 32) :
    CMasternodeDB.readDataSize n = n - 32 := by
  unfold CMasternodeDB.readDataSize toInt32
  norm_num at h ⊢
  split_ifs <;> omega

theorem readDataSize_big (n : Nat) (h1 : 2 ^ 31 + 32 ≤ n) (h2 : n < 2 ^ 32 + 32) :
    CMasternodeDB.readDataSize n = 0 := by
  unfold CMasternodeDB.readDataSize toInt32
  norm_num at h1 h2 ⊢
  split_ifs <;> omega

theorem Read_split (env : Env) (io : Serial) (data h : List Nat) (target : CMasternodeMan)
    (hlen : h.length = 32) (hsmall : data.length < 2 ^ 31) :
    CMasternodeDB.Read env io (some (data ++ h)) target
      = if h ≠ io.Hash data then (ReadResult.IncorrectHash, target)
        else
          match io.readString data with
          | none => (ReadResult.IncorrectFormat, target.Clear)
          | some (s, rest) =>
            if strMagicMessage ≠ s then (ReadResult.IncorrectMagicMessage, target)
            else if rest.length < 4 then (ReadResult.IncorrectFormat, target.Clear)
            else if rest.take 4 ≠ io.MessageStart then (ReadResult.IncorrectMagicNumber, target)
            else
              match io.readMan (rest.drop 4) with
              | none => (ReadResult.IncorrectFormat, target.Clear)
              | some loaded => (ReadResult.Ok, loaded.CheckAndRemove env) := by
  have hsize : CMasternodeDB.readDataSize (data ++ h).length = data.length := by
    rw [readDataSize_small _ (by rw [List.length_append, hlen]; omega), List.length_append, hlen]
    omega
  have htake : (data ++ h).take data.length = data := List.take_left' rfl
  have hdrop : ((data ++ h).drop data.length).take 32 = h := by
    rw [List.drop_left' rfl, ← hlen, List.take_length]
  unfold CMasternodeDB.Read
  simp only [hsize, htake, hdrop]
  rw [if_neg (by omega)]

theorem Read_big (env : Env) (io : Serial) (bytes : List Nat) (target : CMasternodeMan)
    (h1 : 2 ^ 31 + 32 ≤ bytes.length) (h2 : bytes.length < 2 ^ 32 + 32)
    (hne : bytes.take 32 ≠ io.Hash []) :
    CMasternodeDB.Read env io (some bytes) target = (ReadResult.IncorrectHash, target) := by
  have hlen : ¬ (bytes.take 32).length < 32 := by
    rw [List.length_take]
    omega
  unfold CMasternodeDB.Read
  simp only [readDataSize_big _ h1 h2, List.drop_zero, List.take_zero]
  rw [if_neg hlen, if_pos hne]

theorem Write_then_Read (env : Env) (io : Serial) (R target : CMasternodeMan)
    (hwritable : io.fileWritable = true)
    (hhash : ∀ d, (io.Hash d).length = 32)
    (hstart : io.MessageStart.length = 4)
    (hstring : ∀ rest,
      io.readString (io.writeString strMagicMessage ++ rest) = some (strMagicMessage, rest))
    (hman : io.readMan (io.writeMan R) = some R) :
    ∃ bytes, CMasternodeDB.Write io R = some bytes
      ∧ (bytes.length < 2 ^ 31 + 32 →
          CMasternodeDB.Read env io (some bytes) target
            = (ReadResult.Ok, R.CheckAndRemove env)) := by
  refine ⟨io.writeString strMagicMessage ++ io.MessageStart ++ io.writeMan R
    ++ io.Hash (io.writeString strMagicMessage ++ io.MessageStart ++ io.writeMan R), ?_, ?_⟩
  · unfold CMasternodeDB.Write
    simp [hwritable]
  · intro hsmall
    have hdata : (io.writeString strMagicMessage ++ io.MessageStart ++ io.writeMan R).length
        < 2 ^ 31 := by
      rw [List.length_append _ (io.Hash _), hhash] at hsmall
      omega
    rw [Read_split env io _ _ target (hhash _) hdata, if_neg (by simp), List.append_assoc,
      hstring]
    have h4 : ¬ (io.MessageStart ++ io.writeMan R).length < 4 := by
      rw [List.length_append, hstart]
      omega
    have htake : (io.MessageStart ++ io.writeMan R).take 4 = io.MessageStart :=
      List.take_left' hstart
    have hdrop : (io.MessageStart ++ io.writeMan R).drop 4 = io.writeMan R :=
      List.drop_left' hstart
    simp only
    rw [if_neg (by simp), if_neg h4, htake, if_neg (by simp), hdrop, hman]

/-- C28 (divergence): the snapshot round trip by size of the written file. When the file can
be written, `Write` produces a file. If the file is shorter than `2^31 + 32` bytes, `Read`
of it on the same network, into any registry, returns `Ok` and leaves the registry `R` after
`CheckAndRemove`. If the file has between `2^31 + 32` bytes and `2^32 + 31` bytes, the
`int` that holds the size of the data is negative and is replaced by 0: `Read` compares the
first 32 bytes of the file with the hash of the empty stream, and when they differ it
returns `IncorrectHash` and leaves the registry it was given as it was. Assumed of the
serialisation library: a hash is 32 bytes, the network magic is 4 bytes, reading back the
written magic string gives the string and the rest of the stream, and reading back the
written registry gives the registry. -/
theorem C28_snapshot_round_trip_by_size (env : Env) (io : Serial) (R target : CMasternodeMan)
    (hwritable : io.fileWritable = true)
    (hhash : ∀ d, (io.Hash d).length = 32)
    (hstart : io.MessageStart.length = 4)
    (hstring : ∀ rest,
      io.readString (io.writeString strMagicMessage ++ rest) = some (strMagicMessage, rest))
    (hman : io.readMan (io.writeMan R) = some R) :
    ∃ bytes, CMasternodeDB.Write io R = some bytes
      ∧ (bytes.length < 2 ^ 31 + 32 →
          CMasternodeDB.Read env io (some bytes) target
            = (ReadResult.Ok, R.CheckAndRemove env))
      ∧ (2 ^ 31 + 32 ≤ bytes.length → bytes.length < 2 ^ 32 + 32 →
          bytes.take 32 ≠ io.Hash [] →
          CMasternodeDB.Read env io (some bytes) target
            = (ReadResult.IncorrectHash, target)) := by
  obtain ⟨bytes, hw, hr⟩ :=
    Write_then_Read env io R target hwritable hhash hstart hstring hman
  exact ⟨bytes, hw, hr, Read_big env io bytes target⟩

theorem bigSerial_readback :
    bigSerial.readMan (bigSerial.writeMan sampleRegistry) = some sampleRegistry := by
  have hr : ∀ x, bigSerial.readMan x
      = if x.length = 2 ^ 31 then some sampleRegistry else none := fun _ => rfl
  have hlen : (bigSerial.writeMan sampleRegistry).length = 2 ^ 31 := List.length_replicate _ _
  rw [hr, hlen, if_pos rfl]

theorem bigSerial_written (bytes : List Nat)
    (hw : CMasternodeDB.Write bigSerial sampleRegistry = some bytes) :
    bytes.length = 2 ^ 31 + 52 ∧ bytes.take 32 ≠ bigSerial.Hash [] := by
  have hb : bytes = bigSerial.writeString strMagicMessage ++ bigSerial.MessageStart
      ++ bigSerial.writeMan sampleRegistry
      ++ bigSerial.Hash (bigSerial.writeString strMagicMessage ++ bigSerial.MessageStart
          ++ bigSerial.writeMan sampleRegistry) := by
    have h : CMasternodeDB.Write bigSerial sampleRegistry
        = some (bigSerial.writeString strMagicMessage ++ bigSerial.MessageStart
          ++ bigSerial.writeMan sampleRegistry
          ++ bigSerial.Hash (bigSerial.writeString strMagicMessage ++ bigSerial.MessageStart
              ++ bigSerial.writeMan sampleRegistry)) := rfl
    rw [h] at hw
    exact (Option.some.inj hw).symm
  have hstr : (bigSerial.writeString strMagicMessage).length = 16 := by decide
  have hmagic : bigSerial.MessageStart.length = 4 := rfl
  have hreg : (bigSerial.writeMan sampleRegistry).length = 2 ^ 31 := List.length_replicate _ _
  have hhash : ∀ d, (bigSerial.Hash d).length = 32 := fun d => List.length_replicate _ _
  constructor
  · rw [hb, List.length_append, List.length_append, List.length_append, hstr, hmagic, hreg,
      hhash]
    norm_num
  · intro h
    have hhead : (bytes.take 32).head? = some 15 := by
      rw [hb]
      rfl
    rw [h] at hhead
    exact absurd hhead (by decide)

/-- Witness for C28: the sample registry written with the small codec is read back `Ok`;
written with the codec that takes 2^31 bytes for the registry, the file has `2^31 + 52`
bytes and `Read` returns `IncorrectHash`, leaving the target registry as it was. -/
theorem C28_snapshot_round_trip_by_size_witness :
    (∃ bytes, CMasternodeDB.Write sampleSerial sampleRegistry = some bytes
      ∧ CMasternodeDB.Read sampleEnv sampleSerial (some bytes) emptyRegistry
          = (ReadResult.Ok, sampleRegistry.CheckAndRemove sampleEnv))
    ∧ ∃ bytes, CMasternodeDB.Write bigSerial sampleRegistry = some bytes
        ∧ bytes.length = 2 ^ 31 + 52
        ∧ CMasternodeDB.Read sampleEnv bigSerial (some bytes) emptyRegistry
            = (ReadResult.IncorrectHash, emptyRegistry) :=
  ⟨let ⟨bytes, hw, hr, _⟩ := C28_snapshot_round_trip_by_size sampleEnv sampleSerial
      sampleRegistry emptyRegistry rfl (fun d => by simp [sampleSerial]) rfl (fun rest => rfl)
      (by decide)
   ⟨bytes, hw, hr (by
      have hb : bytes = (CMasternodeDB.Write sampleSerial sampleRegistry).getD [] := by
        rw [hw]
        rfl
      rw [hb]
      decide)⟩,
   let ⟨bytes, hw, _, hr⟩ := C28_snapshot_round_trip_by_size sampleEnv bigSerial
      sampleRegistry emptyRegistry rfl (fun d => List.length_replicate _ _) rfl
      (fun rest => rfl) bigSerial_readback
   ⟨bytes, hw, (bigSerial_written bytes hw).1,
    hr (by rw [(bigSerial_written bytes hw).1]; norm_num)
      (by rw [(bigSerial_written bytes hw).1]; norm_num) (bigSerial_written bytes hw).2⟩⟩

/-- C29 (amended): the order in which `Read` classifies a file `data ++ h` whose last 32
bytes are `h`, for `data` shorter than `2^31` bytes. A hash other than that of `data` gives
`IncorrectHash`, whatever `data` holds. Otherwise a leading string that cannot be read
gives `IncorrectFormat`; otherwise a leading string other than the magic message gives
`IncorrectMagicMessage`; otherwise fewer than four following bytes give `IncorrectFormat`;
otherwise four following bytes other than the network magic give `IncorrectMagicNumber`;
otherwise a registry that fails to parse gives `IncorrectFormat`; otherwise the result is
`Ok` with the loaded registry after `CheckAndRemove`. -/
theorem C29_read_classification (env : Env) (io : Serial) (data h : List Nat)
    (target : CMasternodeMan) (hlen : h.length = 32) (hsmall : data.length < 2 ^ 31) :
    (h ≠ io.Hash data →
      (CMasternodeDB.Read env io (some (data ++ h)) target).1 = ReadResult.IncorrectHash)
    ∧ (h = io.Hash data →
        (io.readString data = none →
          (CMasternodeDB.Read env io (some (data ++ h)) target).1 = ReadResult.IncorrectFormat)
        ∧ ∀ s rest, io.readString data = some (s, rest) →
            (s ≠ strMagicMessage →
              (CMasternodeDB.Read env io (some (data ++ h)) target).1
                = ReadResult.IncorrectMagicMessage)
            ∧ (s = strMagicMessage →
                (rest.length < 4 →
                  (CMasternodeDB.Read env io (some (data ++ h)) target).1
                    = ReadResult.IncorrectFormat)
                ∧ (4 ≤ rest.length →
                    (rest.take 4 ≠ io.MessageStart →
                      (CMasternodeDB.Read env io (some (data ++ h)) target).1
                        = ReadResult.IncorrectMagicNumber)
                    ∧ (rest.take 4 = io.MessageStart →
                        (io.readMan (rest.drop 4) = none →
                          (CMasternodeDB.Read env io (some (data ++ h)) target).1
                            = ReadResult.IncorrectFormat)
                        ∧ ∀ loaded, io.readMan (rest.drop 4) = some loaded →
                            CMasternodeDB.Read env io (some (data ++ h)) target
                              = (ReadResult.Ok, loaded.CheckAndRemove env))))) := by
  rw [Read_split env io data h target hlen hsmall]
  constructor
  · intro hne
    rw [if_pos hne]
  · intro heq
    rw [if_neg (by simp [heq])]
    constructor
    · intro hnone
      rw [hnone]
    · intro s rest hsome
      rw [hsome]
      simp only
      constructor
      · intro hs
        rw [if_pos (Ne.symm hs)]
      · intro hs
        rw [if_neg (by simp [hs])]
        constructor
        · intro hshort
          rw [if_pos hshort]
        · intro hlong
          rw [if_neg (by omega)]
          constructor
          · intro hnet
            rw [if_pos hnet]
          · intro hnet
            rw [if_neg (by simp [hnet])]
            constructor
            · intro hnone
              rw [hnone]
            · intro loaded hloaded
              rw [hloaded]

/-- Witness for C29: a file whose 32 hash bytes do not match its data. -/
theorem C29_read_classification_witness :
    List.replicate 32 7 ≠ sampleSerial.Hash [9]
    ∧ (CMasternodeDB.Read sampleEnv sampleSerial (some ([9] ++ List.replicate 32 7))
        emptyRegistry).1 = ReadResult.IncorrectHash :=
  ⟨by decide,
   (C29_read_classification sampleEnv sampleSerial [9] (List.replicate 32 7) emptyRegistry
      rfl (by decide)).1 (by decide)⟩

/-- Counterexample to C29 as stated: two files whose trailing 32 bytes are the hash of the
data before them. In the first the data is empty, so there is no leading string, and `Read`
returns `IncorrectFormat`, not `IncorrectMagicMessage`. In the second the data is the magic
message followed by two bytes only, so the next four bytes are not the network magic, and
`Read` returns `IncorrectFormat`, not `IncorrectMagicNumber`. -/
theorem C29_counterexample :
    (List.replicate 32 0 = sampleSerial.Hash []
      ∧ sampleSerial.readString [] = none
      ∧ (CMasternodeDB.Read sampleEnv sampleSerial (some ([] ++ List.replicate 32 0))
          emptyRegistry).1 = ReadResult.IncorrectFormat)
    ∧ (sampleSerial.Hash (sampleSerial.writeString strMagicMessage ++ [1, 2])
        = List.replicate 32 248
      ∧ sampleSerial.readString (sampleSerial.writeString strMagicMessage ++ [1, 2])
          = some (strMagicMessage, [1, 2])
      ∧ sampleSerial.MessageStart = [1, 2, 3, 4]
      ∧ (CMasternodeDB.Read sampleEnv sampleSerial
          (some (sampleSerial.writeString strMagicMessage ++ [1, 2] ++ List.replicate 32 248))
          emptyRegistry).1 = ReadResult.IncorrectFormat) := by
  refine ⟨⟨by decide, rfl, by decide⟩, ⟨by decide, rfl, rfl, by decide⟩⟩

theorem Read_cases (env : Env) (io : Serial) (file : Option (List Nat))
    (target : CMasternodeMan) :
    ((CMasternodeDB.Read env io file target).2 = target
        ∧ (CMasternodeDB.Read env io file target).1 ≠ ReadResult.IncorrectFormat
        ∧ (CMasternodeDB.Read env io file target).1 ≠ ReadResult.Ok)
    ∨ CMasternodeDB.Read env io file target = (ReadResult.IncorrectFormat, target.Clear)
    ∨ ∃ loaded, CMasternodeDB.Read env io file target
        = (ReadResult.Ok, CMasternodeMan.CheckAndRemove env loaded) := by
  unfold CMasternodeDB.Read
  cases file with
  | none => exact Or.inl ⟨rfl, by simp, by simp⟩
  | some bytes =>
    dsimp only
    repeat' split
    all_goals first
      | exact Or.inl ⟨rfl, by simp, by simp⟩
      | exact Or.inr (Or.inl rfl)
      | exact Or.inr (Or.inr ⟨_, rfl⟩)

/-- C30 (amended): what `Read` leaves in the registry it was given. On `IncorrectFormat`
the registry is empty: no entries, empty rate-limit maps, counter 0. On every other result
but `Ok`, `IncorrectHash` included, the registry is as it was before the call. -/
theorem C30_read_failure_registry (env : Env) (io : Serial) (file : Option (List Nat))
    (target : CMasternodeMan) :
    ((CMasternodeDB.Read env io file target).1 = ReadResult.IncorrectFormat →
      (CMasternodeDB.Read env io file target).2 = ⟨[], [], [], [], 0⟩)
    ∧ ((CMasternodeDB.Read env io file target).1 = ReadResult.IncorrectHash →
        (CMasternodeDB.Read env io file target).2 = target)
    ∧ ((CMasternodeDB.Read env io file target).1 ≠ ReadResult.IncorrectFormat →
        (CMasternodeDB.Read env io file target).1 ≠ ReadResult.Ok →
        (CMasternodeDB.Read env io file target).2 = target) := by
  rcases Read_cases env io file target with ⟨h2, hf, hok⟩ | h | ⟨loaded, h⟩
  · exact ⟨fun h => absurd h hf, fun _ => h2, fun _ _ => h2⟩
  · rw [h]
    exact ⟨fun _ => rfl, fun h => absurd h (by simp), fun h => absurd rfl h⟩
  · rw [h]
    exact ⟨fun h => absurd h (by simp), fun h => absurd h (by simp),
      fun _ h => absurd rfl h⟩

/-- Witness for C30: a file that holds nothing but the hash of the empty stream, read into
a registry that holds an entry. -/
theorem C30_read_failure_registry_witness :
    (CMasternodeDB.Read sampleEnv sampleSerial (some (List.replicate 32 0)) sampleRegistry).1
      = ReadResult.IncorrectFormat
    ∧ (CMasternodeDB.Read sampleEnv sampleSerial (some (List.replicate 32 0)) sampleRegistry).2
      = ⟨[], [], [], [], 0⟩ :=
  ⟨by decide,
   (C30_read_failure_registry sampleEnv sampleSerial _ sampleRegistry).1 (by decide)⟩

/-- Counterexample to C30 as stated: a file whose hash bytes do not match its data is read
into a registry that holds an entry; the result is `IncorrectHash` and the registry still
holds the entry. -/
theorem C30_counterexample :
    CMasternodeDB.Read sampleEnv sampleSerial (some ([9] ++ List.replicate 32 7)) sampleRegistry
      = (ReadResult.IncorrectHash, sampleRegistry)
    ∧ sampleRegistry.vMasternodes ≠ [] := by
  refine ⟨by decide, by decide⟩

/-- C31 (amended): what the periodic save does after a failed read. When `Read` of the file
on disk returns `IncorrectHash` (or `HashReadError`, `IncorrectMagicMessage`,
`IncorrectMagicNumber`), `DumpMasternodes` returns without writing, so the file stays as it
is. When `Read` returns `IncorrectFormat`, `FileError` or `Ok` and the file can be written,
`DumpMasternodes` writes a snapshot of the current registry, and when the written file is
shorter than `2^31 + 32` bytes a later `Read` of it returns `Ok` with the registry after
`CheckAndRemove` (under the assumptions of the round trip on the serialisation library). -/
theorem C31_dump_after_read (env env2 : Env) (io : Serial) (file : Option (List Nat))
    (mnodeman target : CMasternodeMan) :
    ((CMasternodeDB.Read env io file ⟨[], [], [], [], 0⟩).1 = ReadResult.IncorrectHash
        ∨ (CMasternodeDB.Read env io file ⟨[], [], [], [], 0⟩).1 = ReadResult.HashReadError
        ∨ (CMasternodeDB.Read env io file ⟨[], [], [], [], 0⟩).1
            = ReadResult.IncorrectMagicMessage
        ∨ (CMasternodeDB.Read env io file ⟨[], [], [], [], 0⟩).1
            = ReadResult.IncorrectMagicNumber →
      DumpMasternodes env io file mnodeman = DumpOutcome.notWritten)
    ∧ ((CMasternodeDB.Read env io file ⟨[], [], [], [], 0⟩).1 = ReadResult.IncorrectFormat
        ∨ (CMasternodeDB.Read env io file ⟨[], [], [], [], 0⟩).1 = ReadResult.FileError
        ∨ (CMasternodeDB.Read env io file ⟨[], [], [], [], 0⟩).1 = ReadResult.Ok →
      io.fileWritable = true → (∀ d, (io.Hash d).length = 32) → io.MessageStart.length = 4 →
      (∀ rest, io.readString (io.writeString strMagicMessage ++ rest)
        = some (strMagicMessage, rest)) →
      io.readMan (io.writeMan mnodeman) = some mnodeman →
      ∃ bytes, DumpMasternodes env io file mnodeman = DumpOutcome.written bytes
        ∧ (bytes.length < 2 ^ 31 + 32 →
            CMasternodeDB.Read env2 io (some bytes) target
              = (ReadResult.Ok, mnodeman.CheckAndRemove env2))) := by
  constructor
  · intro h
    unfold DumpMasternodes
    dsimp only
    rcases h with h | h | h | h
    all_goals
      rw [h, if_neg (by decide), if_pos (by decide), if_neg (by decide)]
  · intro h hwritable hhash hstart hstring hman
    obtain ⟨bytes, hw, hr⟩ :=
      Write_then_Read env2 io mnodeman target hwritable hhash hstart hstring hman
    refine ⟨bytes, ?_, hr⟩
    unfold DumpMasternodes
    dsimp only
    rw [hw]
    rcases h with h | h | h
    · rw [h, if_neg (by decide), if_pos (by decide), if_pos rfl]
    · rw [h, if_pos rfl]
    · rw [h, if_neg (by decide), if_neg (by decide)]

/-- Witness for C31: a file on disk that holds nothing but the hash of the empty stream
reads as `IncorrectFormat`; the save then writes the sample registry, which reads back `Ok`. -/
theorem C31_dump_after_read_witness :
    (CMasternodeDB.Read sampleEnv sampleSerial (some (List.replicate 32 0))
        ⟨[], [], [], [], 0⟩).1 = ReadResult.IncorrectFormat
    ∧ ∃ bytes, DumpMasternodes sampleEnv sampleSerial (some (List.replicate 32 0)) sampleRegistry
          = DumpOutcome.written bytes
        ∧ CMasternodeDB.Read sampleEnv sampleSerial (some bytes) emptyRegistry
            = (ReadResult.Ok, sampleRegistry.CheckAndRemove sampleEnv) :=
  ⟨by decide,
   let ⟨bytes, hw, hr⟩ := (C31_dump_after_read sampleEnv sampleEnv sampleSerial
      (some (List.replicate 32 0)) sampleRegistry emptyRegistry).2 (Or.inl (by decide)) rfl
      (fun d => by simp [sampleSerial]) rfl (fun rest => rfl) (by decide)
   ⟨bytes, hw, hr (by
      have hd : DumpMasternodes sampleEnv sampleSerial (some (List.replicate 32 0))
          sampleRegistry
          = DumpOutcome.written ((CMasternodeDB.Write sampleSerial sampleRegistry).getD []) := by
        decide
      rw [hd] at hw
      cases hw
      decide)⟩⟩

/-- Counterexample to C31 as stated: the file on disk has hash bytes that do not match its
data, so `Read` returns `IncorrectHash`; `DumpMasternodes` then returns without writing, and
the file, unchanged, still reads as `IncorrectHash`. -/
theorem C31_counterexample :
    (CMasternodeDB.Read sampleEnv sampleSerial (some ([9] ++ List.replicate 32 7))
        ⟨[], [], [], [], 0⟩).1 = ReadResult.IncorrectHash
    ∧ sampleSerial.fileWritable = true
    ∧ DumpMasternodes sampleEnv sampleSerial (some ([9] ++ List.replicate 32 7)) sampleRegistry
        = DumpOutcome.notWritten := by
  refine ⟨by decide, rfl, by decide⟩

theorem StepRel_pubkey (env : Env) (msg : NetMsg) (a b : CMasternode)
    (h : StepRel env msg a b) : b.pubkey = a.pubkey := by
  cases msg <;> first | exact h.2.1 | exact h.elim

theorem Add_known (man : CMasternodeMan) (mn : CMasternode) (i : Nat)
    (h : man.Find mn.vin = some i) : (man.Add mn).2 = man := by
  unfold CMasternodeMan.Add
  rw [h]

theorem announce_other_key (env : Env) (pfrom : CNode) (ext : Bool) (a : DseePlus)
    (man : CMasternodeMan) (i : Nat) (e : CMasternode)
    (hfind : man.Find a.vin = some i) (he : man.vMasternodes[i]? = some e)
    (hkey : e.pubkey ≠ a.pubkey) :
    (ProcessAnnounce env pfrom ext a man).1 = man := by
  rcases ProcessAnnounce_cases env pfrom ext a with h | h
  · rw [h man]
    unfold announceDispatch
    rw [hfind]
    simp only
    by_cases hown : isOwnUndefinedVin env a = true
    · rw [if_pos hown]
      rcases announceCreate_cases env pfrom ext a man with hc | hc
      · exact hc.1
      · rw [hc]
        apply Add_known man _ i
        have hvin : (createdEntry env ext (resetPayToScriptHash env ext a)).vin = a.vin := by
          rw [createdEntry_eq]
          unfold resetPayToScriptHash
          split <;> rfl
        unfold CMasternodeMan.Find at hfind ⊢
        rw [hvin]
        exact hfind
    · rw [if_neg hown, he]
      simp only
      unfold announceUpdate
      rw [if_neg (fun h => hkey h.2.1)]
  · exact (h man).1

/-- C32: immutable identity fields. Whatever message `ProcessMessage` handles, every entry
of the registry is still at its position afterwards with the same `vin` and the same
collateral `pubkey`; and an announcement for a known outpoint that carries another
collateral `pubkey` leaves the whole registry as it was. -/
theorem C32_identity_fields_immutable (env : Env) (pfrom : CNode) (msg : NetMsg)
    (man : CMasternodeMan) :
    (∀ (i : Nat) (e : CMasternode), man.vMasternodes[i]? = some e →
      ∃ e1, (ProcessMessage env pfrom msg man).1.vMasternodes[i]? = some e1
        ∧ e1.vin = e.vin ∧ e1.pubkey = e.pubkey)
    ∧ (∀ (ext : Bool) (a : DseePlus) (i : Nat) (e : CMasternode),
        msg.announce = some (ext, a) → man.Find a.vin = some i →
        man.vMasternodes[i]? = some e → e.pubkey ≠ a.pubkey →
        (ProcessMessage env pfrom msg man).1 = man) := by
  constructor
  · intro i e hi
    rcases EntriesStep.getElem? (ProcessMessage_step env pfrom msg man) i e hi with h | ⟨mn, h, hr⟩
    · exact ⟨e, h, rfl, rfl⟩
    · exact ⟨mn, h, StepRel_vin env msg e mn hr, StepRel_pubkey env msg e mn hr⟩
  · intro ext a i e hmsg hfind he hkey
    by_cases hsync : env.IsBlockchainSynced = true
    · rw [ProcessMessage_announce env pfrom msg ext a man hsync hmsg]
      exact announce_other_key env pfrom ext a man i e hfind he hkey
    · unfold ProcessMessage
      rw [if_pos (by simpa using hsync)]

/-- Witness for C32: the later announcement signed by another collateral key leaves the
registry holding the sample entry as it was. -/
theorem C32_identity_fields_immutable_witness :
    sampleEntry.pubkey ≠ otherKeyAnnounce.pubkey
    ∧ (ProcessMessage sampleEnv samplePeer (NetMsg.dseePlus otherKeyAnnounce) sampleRegistry).1
        = sampleRegistry :=
  ⟨by decide,
   (C32_identity_fields_immutable sampleEnv samplePeer (NetMsg.dseePlus otherKeyAnnounce)
      sampleRegistry).2 true otherKeyAnnounce 0 sampleEntry rfl (by decide) (by decide)
      (by decide)⟩

/-- C33, the code at the failing input: the registry holds one entry announced by `dsee+`
with reward address `[7]` and reward percentage 10, and the variant invariant holds. A
legacy `dsee` for the same outpoint, newer and signed by the same collateral key, updates
the entry in place: the entry is now a legacy one and still has reward address `[7]` and
reward percentage 10, so the invariant no longer holds. -/
theorem C33_legacy_update_keeps_reward :
    VariantInv sampleRegistry
    ∧ sampleRegistry.vMasternodes.map
        (fun e => (e.isOldNode, e.rewardAddress, e.rewardPercentage)) = [(false, [7], 10)]
    ∧ (ProcessMessage sampleEnv samplePeer (NetMsg.dsee newerAnnounce.toDsee)
        sampleRegistry).1.vMasternodes.map
        (fun e => (e.isOldNode, e.rewardAddress, e.rewardPercentage, e.sigTime))
        = [(true, [7], 10, 1700000300)]
    ∧ ¬ VariantInv (ProcessMessage sampleEnv samplePeer (NetMsg.dsee newerAnnounce.toDsee)
        sampleRegistry).1 := by
  refine ⟨by decide, by decide, by decide, by decide⟩

/-- C35, the code at the failing input: both entries of the registry are enabled with
protocol version 70047 once checked, and the score of each is `2 ^ 32`, whose first 32-bit
limb is 0; `GetCurrentMasterNode` returns nothing. -/
theorem C35_zero_scores_no_winner :
    (pairRegistry.GetCurrentMasterNode zeroLimbEnv 1 50 70047).2.vMasternodes.map
        (fun e => (e.activeState, e.protocolVersion, score32 zeroLimbEnv 1 50 e))
        = [(MASTERNODE_ENABLED, 70047, 0), (MASTERNODE_ENABLED, 70047, 0)]
    ∧ zeroLimbEnv.CalculateScore ⟨3, 0⟩ 1 50 = 2 ^ 32
    ∧ (pairRegistry.GetCurrentMasterNode zeroLimbEnv 1 50 70047).1 = none := by
  refine ⟨by decide, rfl, by decide⟩

/-- C36, the code at the failing input: an announcement for an unknown outpoint that the
sample node accepts is handled by a node whose mempool rejects the collateral dry run. The
registry is unchanged and no misbehaviour is scored, for the `dsee+` and for the `dsee`
form: the validation state the branch reads is the one it declared, which the dry run never
sees. -/
theorem C36_dry_run_score_not_read :
    (ProcessMessage sampleEnv samplePeer (NetMsg.dseePlus sampleAnnounce)
        emptyRegistry).1.vMasternodes.length = 1
    ∧ rejectEnv.AcceptableInputs (collateralTx rejectEnv sampleAnnounce.vin) = false
    ∧ rejectEnv.freshStateInvalid = none
    ∧ ProcessMessage rejectEnv samplePeer (NetMsg.dseePlus sampleAnnounce) emptyRegistry
        = (emptyRegistry, {})
    ∧ ProcessMessage rejectEnv samplePeer (NetMsg.dsee sampleAnnounce.toDsee) emptyRegistry
        = (emptyRegistry, {}) := by
  refine ⟨by decide, rfl, rfl, by decide, by decide⟩

/-- C39, the code at the failing input: a `dsee+` for an unknown outpoint with reward
address `[7]`, which the node finds pay-to-script-hash, and reward percentage 10. The entry
is created and the announcement is relayed to both peers with reward address empty and
reward percentage 0, under the signature it came with; the string that signature covers
differs from the string of the relayed fields. -/
theorem C39_p2sh_relay_alters_fields :
    sampleAnnounce.rewardAddress = [7] ∧ sampleAnnounce.rewardPercentage = 10
    ∧ (ProcessMessage p2shEnv samplePeer (NetMsg.dseePlus sampleAnnounce)
        emptyRegistry).1.vMasternodes.length = 1
    ∧ (ProcessMessage p2shEnv samplePeer (NetMsg.dseePlus sampleAnnounce)
        emptyRegistry).2.pushed
        = [(1, NetMsg.dseePlus { sampleAnnounce with rewardAddress := [],
                                                     rewardPercentage := 0 }),
           (2, NetMsg.dseePlus { sampleAnnounce with rewardAddress := [],
                                                     rewardPercentage := 0 })]
    ∧ ({ sampleAnnounce with rewardAddress := [], rewardPercentage := 0 } : DseePlus).vchSig
        = sampleAnnounce.vchSig
    ∧ announceMessage p2shEnv true
          { sampleAnnounce with rewardAddress := [], rewardPercentage := 0 }
        ≠ announceMessage p2shEnv true sampleAnnounce := by
  refine ⟨rfl, rfl, by decide, by decide, rfl, by decide⟩

theorem randomLoop_some (protocolVersion : Int) (vecToExclude : List CTxIn)
    (l pre : List CMasternode) (rand : Int) (k : Nat)
    (h : randomLoop protocolVersion vecToExclude l pre.length rand = some k) :
    ∃ e, (pre ++ l)[k]? = some e
      ∧ ¬ (e.protocolVersion < protocolVersion ∨ e.IsEnabled = false)
      ∧ inVins vecToExclude e = false := by
  induction l generalizing pre rand with
  | nil =>
    unfold randomLoop at h
    cases h
  | cons a l ih =>
    have hnext : ∀ r, randomLoop protocolVersion vecToExclude l (pre.length + 1) r = some k →
        ∃ e, (pre ++ a :: l)[k]? = some e
          ∧ ¬ (e.protocolVersion < protocolVersion ∨ e.IsEnabled = false)
          ∧ inVins vecToExclude e = false := by
      intro r hr
      have := ih (pre ++ [a]) r (by rw [List.length_append, List.length_singleton]; exact hr)
      rw [List.append_assoc] at this
      exact this
    unfold randomLoop at h
    by_cases h1 : a.protocolVersion < protocolVersion ∨ a.IsEnabled = false
    · rw [if_pos h1] at h
      exact hnext rand h
    rw [if_neg h1] at h
    by_cases h2 : inVins vecToExclude a = true
    · rw [if_pos h2] at h
      exact hnext rand h
    rw [if_neg h2] at h
    by_cases h3 : rand - 1 < 1
    · rw [if_pos h3] at h
      cases h
      exact ⟨a, by rw [List.getElem?_append_right (le_refl _)]; simp, h1, by simpa using h2⟩
    · rw [if_neg h3] at h
      exact hnext (rand - 1) h

/-- C34: whenever `FindRandomNotInVec` returns an entry, the entry (in the registry as the
call leaves it) is enabled, has `protocolVersion` at least the bound (`-1` standing for the
minimum payments protocol), and its outpoint is not in the exclusion list; and the function
returns nothing when the number of counted enabled entries equals the size of the exclusion
list. -/
theorem C34_FindRandomNotInVec_eligible (env : Env) (man : CMasternodeMan)
    (vecToExclude : List CTxIn) (protocolVersion : Int) :
    (∀ i : Nat, (man.FindRandomNotInVec env vecToExclude protocolVersion).1 = some i →
      ∃ e, (man.FindRandomNotInVec env vecToExclude protocolVersion).2.vMasternodes[i]? = some e
        ∧ e.activeState = MASTERNODE_ENABLED
        ∧ (if protocolVersion = -1 then env.GetMinMasternodePaymentsProto
            else protocolVersion) ≤ e.protocolVersion
        ∧ ∀ vin ∈ vecToExclude, e.vin.prevout ≠ vin.prevout)
    ∧ ((man.CountEnabled env (if protocolVersion = -1 then env.GetMinMasternodePaymentsProto
          else protocolVersion)).1 = (vecToExclude.length : Int) →
        (man.FindRandomNotInVec env vecToExclude protocolVersion).1 = none) := by
  unfold CMasternodeMan.FindRandomNotInVec
  dsimp only
  generalize (if protocolVersion = -1 then env.GetMinMasternodePaymentsProto
    else protocolVersion) = proto
  constructor
  · intro i hi
    by_cases hdiff : (((man.CountEnabled env proto).1 - (vecToExclude.length : Int))
        % 2 ^ 64).toNat < 1
    · rw [if_pos hdiff] at hi
      cases hi
    · rw [if_neg hdiff] at hi ⊢
      obtain ⟨e, hget, hel, hex⟩ := randomLoop_some proto vecToExclude _ [] _ i hi
      rw [List.nil_append] at hget
      refine ⟨e, hget, ?_, ?_, (inVins_eq_false_iff vecToExclude e).mp hex⟩
      · have : ¬ e.IsEnabled = false := fun h => hel (Or.inr h)
        simpa [CMasternode.IsEnabled] using this
      · exact not_lt.mp (fun h => hel (Or.inl h))
  · intro heq
    rw [heq, sub_self]
    rfl

/-- Witness for C34: with the draw 0 the first of the two fresh entries is returned. -/
theorem C34_FindRandomNotInVec_eligible_witness :
    (pairRegistry.FindRandomNotInVec (drawEnv 0) [] 70047).1 = some 0
    ∧ ∃ e, (pairRegistry.FindRandomNotInVec (drawEnv 0) [] 70047).2.vMasternodes[0]? = some e
        ∧ e.activeState = MASTERNODE_ENABLED :=
  ⟨by decide,
   let ⟨e, h1, h2, _⟩ := (C34_FindRandomNotInVec_eligible (drawEnv 0) pairRegistry [] 70047).1 0
     (by decide)
   ⟨e, h1, h2⟩⟩

theorem resetPayToScriptHash_p2sh (env : Env) (d : DseePlus)
    (h : env.IsPayToScriptHash d.rewardAddress = true) :
    resetPayToScriptHash env true d = { d with rewardAddress := [], rewardPercentage := 0 } := by
  unfold resetPayToScriptHash
  simp [h]

/-- C37: the pay-to-script-hash asymmetry of the `dsee+` branch, for an announcement that
passes the stateless checks on a synced node. When the outpoint is unknown, the announcement
is accepted by the create path and its reward address is pay-to-script-hash, the entry
appended has an empty reward address and reward percentage 0. When the outpoint is known and
the announcement updates the entry in place, the reward address and reward percentage of the
entry become those announced, whatever the kind of the reward address. -/
theorem C37_p2sh_reward_asymmetry (env : Env) (pfrom : CNode) (d : DseePlus)
    (man : CMasternodeMan)
    (hsync : env.IsBlockchainSynced = true)
    (hsilent : passesSilentChecks env true d)
    (hkeys : keysWellFormed env d)
    (hscript : d.vin.scriptSig = [])
    (hsig : env.VerifyMessage d.pubkey d.vchSig (announceMessage env true d) = true) :
    ((∀ e ∈ man.vMasternodes, e.vin.prevout ≠ d.vin.prevout) →
      env.IsVinAssociatedWithPubkey d.vin d.pubkey = true → env.lockMain = true →
      env.AcceptableInputs (collateralTx env d.vin) = true → 15 ≤ env.GetInputAge d.vin →
      (∀ h, env.mapBlockIndex (env.GetTransactionBlock d.vin.prevout.hash) = some h →
        env.BlockTimeAtHeight (h + 15 - 1) ≤ d.sigTime) →
      env.IsPayToScriptHash d.rewardAddress = true →
      ∃ mn : CMasternode,
        (ProcessMessage env pfrom (NetMsg.dseePlus d) man).1
            = { man with vMasternodes := man.vMasternodes ++ [mn] }
        ∧ mn.vin = d.vin ∧ mn.rewardAddress = [] ∧ mn.rewardPercentage = 0)
    ∧ (∀ (i : Nat) (e : CMasternode), man.Find d.vin = some i →
        man.vMasternodes[i]? = some e → isOwnUndefinedVin env d = false → d.count = -1 →
        e.pubkey = d.pubkey → e.sigTime < d.sigTime → e.UpdatedWithin env 3600 = false →
        ∃ e1 : CMasternode,
          (ProcessMessage env pfrom (NetMsg.dseePlus d) man).1
              = { man with vMasternodes := man.vMasternodes.set i e1 }
          ∧ e1.vin = e.vin ∧ e1.rewardAddress = d.rewardAddress
          ∧ e1.rewardPercentage = d.rewardPercentage) := by
  rw [ProcessMessage_announce env pfrom (NetMsg.dseePlus d) true d man hsync rfl,
    ProcessAnnounce_dispatch _ _ _ _ _ hsilent hkeys hscript hsig]
  constructor
  · intro hnew hown hlock hacc hage htime hp2sh
    have hadd : ∀ mn : CMasternode, mn.vin = d.vin → (man.Add mn).2
        = { man with vMasternodes := man.vMasternodes ++ [mn] } := by
      intro mn hvin
      unfold CMasternodeMan.Add CMasternodeMan.Find
      rw [hvin, (findIndex_eq_none_iff _ _).mpr hnew]
    rw [announceDispatch_unknown _ _ _ _ _ hnew,
      announceCreate_accepted _ _ _ _ _ hown hlock hacc hage (sigTimeTooEarly_eq_false _ _ htime),
      resetPayToScriptHash_p2sh env d hp2sh, createdEntry_eq]
    exact ⟨_, hadd _ rfl, rfl, rfl, rfl⟩
  · intro i e hfind he hnotown hcount hpub hnewer hrate
    have hgate : d.count = -1 ∧ e.pubkey = d.pubkey
        ∧ e.UpdatedWithin env MASTERNODE_MIN_DSEE_SECONDS = false := ⟨hcount, hpub, hrate⟩
    have hnewer1 : (e.UpdateLastSeen env).sigTime < d.sigTime := hnewer
    rw [announceDispatch_known _ _ _ _ _ _ _ hfind he hnotown]
    unfold announceUpdate
    rw [if_pos hgate]
    simp only [if_pos hnewer1]
    refine ⟨updatedEntry env true d (e.UpdateLastSeen env), rfl, ?_, ?_, ?_⟩
    · simp [CMasternode.UpdateLastSeen]
    · simp [updatedEntry, CMasternode.Check]
      split_ifs <;> rfl
    · simp [updatedEntry, CMasternode.Check]
      split_ifs <;> rfl

/-- Witness for C37: on a node that finds every reward address pay-to-script-hash,
`sampleAnnounce` creates an entry without reward fields in the empty registry, and
`newerAnnounce` updates the stored sample entry in place with the announced reward fields. -/
theorem C37_p2sh_reward_asymmetry_witness :
    p2shEnv.IsPayToScriptHash sampleAnnounce.rewardAddress = true
    ∧ (∃ mn : CMasternode,
        (ProcessMessage p2shEnv samplePeer (NetMsg.dseePlus sampleAnnounce) emptyRegistry).1
            = { emptyRegistry with vMasternodes := emptyRegistry.vMasternodes ++ [mn] }
        ∧ mn.vin = sampleAnnounce.vin ∧ mn.rewardAddress = [] ∧ mn.rewardPercentage = 0)
    ∧ p2shEnv.IsPayToScriptHash newerAnnounce.rewardAddress = true
    ∧ ∃ e1 : CMasternode,
        (ProcessMessage p2shEnv samplePeer (NetMsg.dseePlus newerAnnounce) sampleRegistry).1
            = { sampleRegistry with vMasternodes := sampleRegistry.vMasternodes.set 0 e1 }
        ∧ e1.vin = sampleEntry.vin ∧ e1.rewardAddress = newerAnnounce.rewardAddress
        ∧ e1.rewardPercentage = newerAnnounce.rewardPercentage :=
  ⟨rfl,
   (C37_p2sh_reward_asymmetry p2shEnv samplePeer sampleAnnounce emptyRegistry rfl
      (by unfold passesSilentChecks; decide) (by unfold keysWellFormed; decide) rfl rfl).1
      (by intro e he; cases he) rfl rfl rfl (by decide)
      (by intro h hh; cases hh) rfl,
   rfl,
   (C37_p2sh_reward_asymmetry p2shEnv samplePeer newerAnnounce sampleRegistry rfl
      (by unfold passesSilentChecks; decide) (by unfold keysWellFormed; decide) rfl rfl).2
      0 sampleEntry (by decide) (by decide) (by decide) rfl (by decide) (by decide)
      (by decide)⟩

theorem findIndex_of_nodup (l : List CMasternode) (i : Nat) (e : CMasternode)
    (hnodup : (l.map (fun m => m.vin.prevout)).Nodup) (hget : l[i]? = some e) :
    findIndex e.vin.prevout l = some i := by
  induction l generalizing i with
  | nil => simp at hget
  | cons a l ih =>
    rw [List.map_cons, List.nodup_cons] at hnodup
    cases i with
    | zero =>
      simp only [List.getElem?_cons_zero, Option.some.injEq] at hget
      subst hget
      simp [findIndex]
    | succ j =>
      rw [List.getElem?_cons_succ] at hget
      have hne : a.vin.prevout ≠ e.vin.prevout := fun heq =>
        hnodup.1 (List.mem_map.mpr ⟨e, List.getElem?_mem hget, heq.symm⟩)
      simp [findIndex, hne, ih j hnodup.2 hget]

theorem byRankLoop_of_rankLoop (vin : CTxIn) (S : List (Nat × CTxIn)) (c : Int) (hc : 0 ≤ c)
    (hr : rankLoop vin S c ≠ -1) :
    byRankLoop (rankLoop vin S c) S c = some vin := by
  induction S generalizing c with
  | nil => exact absurd rfl hr
  | cons s rest ih =>
    unfold rankLoop at hr ⊢
    by_cases hs : s.2 = vin
    · rw [if_pos hs] at hr ⊢
      unfold byRankLoop
      rw [if_pos rfl, hs]
    · rw [if_neg hs] at hr ⊢
      have hc1 : (0 : Int) ≤ c + 1 := by omega
      have hge : c + 1 < rankLoop vin rest (c + 1) := by
        rcases rankLoop_spec vin rest (c + 1) hc1 with ⟨h, _⟩ | ⟨k, _, _, _, h⟩
        · exact absurd h hr
        · rw [h]; omega
      unfold byRankLoop
      rw [if_neg (by omega)]
      exact ih (c + 1) hc1 hr

theorem CMasternode.Check_Check (env : Env) (m : CMasternode) :
    (m.Check env).Check env = m.Check env := by
  unfold CMasternode.Check
  by_cases h1 : m.activeState = MASTERNODE_REMOVE
  · simp [h1]
  · by_cases h2 : env.GetTime - m.lastTimeSeen > EXPIRY_SECONDS
    · simp [h1, h2]
    · by_cases h3 : env.IsCollateralUnspent m.vin = true
      · simp [h1, h2, h3]
      · simp [h1, h2, h3]

theorem rankScores_visited (env : Env) (nBlockHeight minProtocol : Int) (f : Bool)
    (l : List CMasternode) :
    rankScores env nBlockHeight minProtocol f (l.map (rankVisit env minProtocol f))
      = rankScores env nBlockHeight minProtocol f l := by
  induction l with
  | nil => rfl
  | cons a l ih =>
    rw [List.map_cons]
    unfold rankScores
    rw [ih]
    unfold rankVisit
    by_cases h1 : a.protocolVersion < minProtocol
    · simp [h1]
    · cases f with
      | false => simp [h1]
      | true => simp [h1, CMasternode.Check_Check]

theorem GetMasternodeByRank_of_loop (env : Env) (man : CMasternodeMan) (nRank : Int)
    (nBlockHeight minProtocol : Int) (f : Bool) (i : Nat) (e : CMasternode)
    (huniq : UniqueOutpoints man) (he : man.vMasternodes[i]? = some e)
    (hloop : byRankLoop nRank
      (sortScores env (rankScores env nBlockHeight minProtocol f man.vMasternodes)) 0
        = some e.vin) :
    (man.GetMasternodeByRank env nRank nBlockHeight minProtocol f).1 = some i
    ∧ (man.GetMasternodeByRank env nRank nBlockHeight minProtocol f).2.vMasternodes[i]?
        = some (rankVisit env minProtocol f e) := by
  unfold CMasternodeMan.GetMasternodeByRank
  dsimp only
  rw [hloop]
  have hget : (man.vMasternodes.map (rankVisit env minProtocol f))[i]?
      = some (rankVisit env minProtocol f e) := by
    rw [List.getElem?_map, he]
    rfl
  refine ⟨?_, hget⟩
  have hnodup : ((man.vMasternodes.map (rankVisit env minProtocol f)).map
      (fun m => m.vin.prevout)).Nodup := by
    rw [List.map_map]
    have hfun : ((fun m : CMasternode => m.vin.prevout) ∘ rankVisit env minProtocol f)
        = (fun m : CMasternode => m.vin.prevout) := by
      funext m
      simp [rankVisit_vin]
    rw [hfun]
    exact (uniqueOutpoints_iff man).mp huniq
  have := findIndex_of_nodup _ i _ hnodup hget
  rw [rankVisit_vin] at this
  exact this

/-- C38: rank round trip, for a registry with unique outpoints, a height whose block hash is
known and an entry `e` at position `i`. If `GetMasternodeRank(e.vin, ...)` returns a rank
other than `-1`, then `GetMasternodeByRank` with that rank and the same arguments returns
the entry at position `i`, which is `e` (checked when the query checks it), both when it is
asked of the same registry and when it is asked of the registry the rank query left. -/
theorem C38_rank_round_trip (env : Env) (man : CMasternodeMan) (nBlockHeight minProtocol : Int)
    (fOnlyActive : Bool) (i : Nat) (e : CMasternode)
    (huniq : UniqueOutpoints man) (hhash : env.GetBlockHash nBlockHeight ≠ none)
    (he : man.vMasternodes[i]? = some e)
    (hrank : (man.GetMasternodeRank env e.vin nBlockHeight minProtocol fOnlyActive).1 ≠ -1) :
    ((man.GetMasternodeByRank env
        (man.GetMasternodeRank env e.vin nBlockHeight minProtocol fOnlyActive).1
        nBlockHeight minProtocol fOnlyActive).1 = some i
      ∧ (man.GetMasternodeByRank env
          (man.GetMasternodeRank env e.vin nBlockHeight minProtocol fOnlyActive).1
          nBlockHeight minProtocol fOnlyActive).2.vMasternodes[i]?
          = some (rankVisit env minProtocol fOnlyActive e))
    ∧ (CMasternodeMan.GetMasternodeByRank env
        (man.GetMasternodeRank env e.vin nBlockHeight minProtocol fOnlyActive).2
        (man.GetMasternodeRank env e.vin nBlockHeight minProtocol fOnlyActive).1
        nBlockHeight minProtocol fOnlyActive).1 = some i := by
  obtain ⟨hash, hh⟩ := Option.ne_none_iff_exists'.mp hhash
  have hrun : man.GetMasternodeRank env e.vin nBlockHeight minProtocol fOnlyActive
      = (rankLoop e.vin
          (sortScores env (rankScores env nBlockHeight minProtocol fOnlyActive
            man.vMasternodes)) 0,
         { man with vMasternodes :=
             man.vMasternodes.map (rankVisit env minProtocol fOnlyActive) }) := by
    unfold CMasternodeMan.GetMasternodeRank
    rw [hh]
  rw [hrun] at hrank ⊢
  dsimp only at hrank ⊢
  have hloop := byRankLoop_of_rankLoop e.vin _ 0 (le_refl _) hrank
  refine ⟨GetMasternodeByRank_of_loop env man _ nBlockHeight minProtocol fOnlyActive i e huniq he
    hloop, ?_⟩
  have huniq2 : UniqueOutpoints
      { man with vMasternodes :=
          man.vMasternodes.map (rankVisit env minProtocol fOnlyActive) } := by
    rw [uniqueOutpoints_iff]
    dsimp only
    rw [List.map_map]
    have hfun : ((fun m : CMasternode => m.vin.prevout) ∘ rankVisit env minProtocol fOnlyActive)
        = (fun m : CMasternode => m.vin.prevout) := by
      funext m
      simp [rankVisit_vin]
    rw [hfun]
    exact (uniqueOutpoints_iff man).mp huniq
  have hget2 : (man.vMasternodes.map (rankVisit env minProtocol fOnlyActive))[i]?
      = some (rankVisit env minProtocol fOnlyActive e) := by
    rw [List.getElem?_map, he]
    rfl
  refine (GetMasternodeByRank_of_loop env _ _ nBlockHeight minProtocol fOnlyActive i
    (rankVisit env minProtocol fOnlyActive e) huniq2 hget2 ?_).1
  dsimp only
  rw [rankScores_visited, rankVisit_vin]
  exact hloop

/-- Witness for C38: the entry for outpoint `(3, 0)` has rank 2 among the two fresh entries,
and the entry of rank 2 is the one at position 0. -/
theorem C38_rank_round_trip_witness :
    (pairRegistry.GetMasternodeRank sampleEnv (freshEntry 3).vin 50 70047 true).1 = 2
    ∧ (pairRegistry.GetMasternodeByRank sampleEnv
        (pairRegistry.GetMasternodeRank sampleEnv (freshEntry 3).vin 50 70047 true).1
        50 70047 true).1 = some 0 :=
  ⟨by decide,
   (C38_rank_round_trip sampleEnv pairRegistry 50 70047 true 0 (freshEntry 3)
      ((uniqueOutpoints_iff _).mpr (by decide)) (by decide) (by decide) (by decide)).1.1⟩

end PHC
